import Mathlib

/-!
# Disk cleanup engine (`src/disk_cleanup/disk_cleanup.go`)

A shallow embedding of the cleanup engine of the assisted-installer agent and
theorems about it.

* Go strings are lists of characters (`Str`).
* Every call of `p.dependencies.Execute` and of `filepath.EvalSymlinks` is
  appended to an explicit event log that is threaded through the functions, and
  both collaborators answer as a function of the log so far and of their
  arguments: any deterministic executor and file system is of that form.
* A Go `error` is its message; a run-time panic is a separate outcome.
-/

set_option maxRecDepth 100000

namespace disk_cleanup

/-! ## Go strings and the `strings` package -/

/-- A Go string, as the list of its characters. -/
abbrev Str := List Char

/-- The predicate `unicode.IsSpace` of the Go standard library. -/
def isSpace (c : Char) : Bool :=
  let n := c.toNat
  (9 ≤ n && n ≤ 13) || n == 32 || n == 0x85 || n == 0xA0 || n == 0x1680 ||
  (0x2000 ≤ n && n ≤ 0x200A) || n == 0x2028 || n == 0x2029 || n == 0x202F ||
  n == 0x205F || n == 0x3000

/-- The function `strings.HasPrefix`. -/
def hasPrefix : Str → Str → Bool
  | _, [] => true
  | [], _ :: _ => false
  | c :: s, p :: ps => c == p && hasPrefix s ps

/-- The function `strings.Contains`: `sub` occurs in `s` as a contiguous block. -/
def contains (s sub : Str) : Bool :=
  match s with
  | [] => hasPrefix [] sub
  | c :: cs => hasPrefix (c :: cs) sub || contains cs sub

/-- One pass of `strings.Split` for a one-character separator: `cur` holds the
piece being read, in reverse. -/
def splitAux (sep : Char) : Str → Str → List Str
  | [], cur => [cur.reverse]
  | c :: cs, cur =>
    if c == sep then cur.reverse :: splitAux sep cs [] else splitAux sep cs (c :: cur)

/-- The function `strings.Split(s, sep)` for a separator of one character, which is
how the engine calls it (`"\n"` and `","`). The empty string gives one empty piece. -/
def split (s : Str) (sep : Char) : List Str := splitAux sep s []

/-- One pass of `strings.Fields`: `cur` holds the field being read, in reverse. -/
def fieldsAux : Str → Str → List Str
  | [], cur => if cur.isEmpty then [] else [cur.reverse]
  | c :: cs, cur =>
    if isSpace c then
      (if cur.isEmpty then fieldsAux cs [] else cur.reverse :: fieldsAux cs [])
    else fieldsAux cs (c :: cur)

/-- The function `strings.Fields`: the maximal blocks of non-space characters. -/
def fields (s : Str) : List Str := fieldsAux s []

/-- The function `strings.TrimSpace`. -/
def trimSpace (s : Str) : Str :=
  ((s.dropWhile isSpace).reverse.dropWhile isSpace).reverse

/-! ## Outcomes, events and collaborators -/

/-- What one `Execute` call returns: `(stdout, stderr, exitCode)`. -/
structure ExecResult where
  stdout : Str
  stderr : Str
  exitCode : Int
  deriving DecidableEq, Repr

/-- Equality of `Except` values is decidable when it is for both components. -/
instance instDecidableEqExcept {ε α : Type} [DecidableEq ε] [DecidableEq α] :
    DecidableEq (Except ε α)
  | .ok a, .ok b => if h : a = b then isTrue (by rw [h]) else isFalse (by intro e; cases e; exact h rfl)
  | .error a, .error b =>
    if h : a = b then isTrue (by rw [h]) else isFalse (by intro e; cases e; exact h rfl)
  | .ok _, .error _ => isFalse (by intro e; cases e)
  | .error _, .ok _ => isFalse (by intro e; cases e)

/-- An entry of the log: an `Execute` call with the program and its arguments and
what it returned, or an `EvalSymlinks` call with its path and what it returned
(`Except.error` holds the message of the error). -/
inductive Event where
  | exec (command : Str) (args : List Str) (res : ExecResult)
  | resolve (path : Str) (res : Except Str Str)
  deriving DecidableEq, Repr

/-- The log of the calls made so far, oldest first. -/
abbrev Log := List Event

/-- How a Go function ends: it returns a value with a nil error, it returns a
non-nil error (kept as its message), or it panics. -/
inductive Outcome (α : Type) where
  | ok (a : α)
  | error (msg : Str)
  | panic
  deriving DecidableEq, Repr

/-- The RAID topology, a Go `map[string][]string`: array name and member list,
with no key twice. -/
abbrev RaidMap := List (Str × List Str)

/-- The interface `IDependencies`: the one capability `Execute(command, args...)`.
Its answer may depend on everything that happened before. -/
structure IDependencies where
  Execute : Log → Str → List Str → ExecResult

/-- The part of `config.SubprocessConfig` the engine reads. -/
structure SubprocessConfig where
  DryRunEnabled : Bool

/-- What the engine uses of the Go standard library and run time.
* `EvalSymlinks` is `filepath.EvalSymlinks`, answering from the log so far.
* `MatchString pattern s` is `regexp.Compile(pattern)` followed by `MatchString(s)` on
  the compiled expression; the engine drops the compile error, so `none` stands for
  a pattern that does not compile (the nil expression is then dereferenced).
* `rangeOrder` is the order in which a `for ... range` loop visits a map, which Go
  leaves unspecified: some rearrangement of the entries, chosen anew at every loop.
* `badVerb msg` is what `fmt` prints for the verb `%w` applied to an error of
  message `msg` by `errors.Errorf` of `github.com/pkg/errors`, which formats with
  `fmt.Sprintf`. -/
structure GoRuntime where
  EvalSymlinks : Log → Str → Except Str Str
  MatchString : Str → Str → Option Bool
  rangeOrder : Log → RaidMap → RaidMap
  rangeOrder_perm : ∀ (log : Log) (m : RaidMap), (rangeOrder log m).Perm m
  badVerb : Str → Str

/-- The receiver `p *DiskCleanup`, together with the run time it executes on. -/
structure DiskCleanup where
  dependencies : IDependencies
  subprocessConfig : SubprocessConfig
  runtime : GoRuntime

/-- Run `p.dependencies.Execute(command, args...)` and record it. -/
def execute (p : DiskCleanup) (log : Log) (command : Str) (args : List Str) :
    ExecResult × Log :=
  let r := p.dependencies.Execute log command args
  (r, log ++ [Event.exec command args r])

/-- Run `filepath.EvalSymlinks(path)` and record it. -/
def evalSymlinks (p : DiskCleanup) (log : Log) (path : Str) : Except Str Str × Log :=
  let r := p.runtime.EvalSymlinks log path
  (r, log ++ [Event.resolve path r])

/-! ## Signature wiper -/

/-- The method `Wipefs`: the forced wipe, and the plain one when the forced one
exits non-zero; the error is `errors.New(stderr)` of the last call made. -/
def Wipefs (p : DiskCleanup) (log : Log) (device : Str) : Outcome Unit × Log :=
  match execute p log "wipefs".toList ["--all".toList, "--force".toList, device] with
  | (r1, log1) =>
    match (if r1.exitCode ≠ 0 then execute p log1 "wipefs".toList ["--all".toList, device]
           else (r1, log1)) with
    | (r2, log2) =>
      if r2.exitCode ≠ 0 then (Outcome.error r2.stderr, log2) else (Outcome.ok (), log2)

/-! ## LVM -/

/-- The loop of `GetVolumeGroupsByDisk` over the lines of the `vgs` listing. -/
def vgsLoop (diskName : Str) : List Str → List Str → List Str
  | [], vgs => vgs
  | line :: lines, vgs =>
    match fields line with
    | f0 :: f1 :: _ =>
      if contains f1 diskName then vgsLoop diskName lines (vgs ++ [f0])
      else vgsLoop diskName lines vgs
    | _ => vgsLoop diskName lines vgs

/-- The method `GetVolumeGroupsByDisk`. -/
def GetVolumeGroupsByDisk (p : DiskCleanup) (log : Log) (diskName : Str) :
    Outcome (List Str) × Log :=
  match execute p log "vgs".toList
      ["--noheadings".toList, "-o".toList, "vg_name,pv_name".toList] with
  | (r, log1) =>
    if r.exitCode ≠ 0 then
      (Outcome.error ("Failed to list VGs in the system: ".toList ++ r.stderr), log1)
    else (Outcome.ok (vgsLoop diskName (split r.stdout '\n') []), log1)

/-- The method `RemoveVG`. -/
def RemoveVG (p : DiskCleanup) (log : Log) (vgName : Str) : Outcome Unit × Log :=
  match execute p log "vgremove".toList [vgName, "-y".toList] with
  | (r, log1) =>
    if r.exitCode ≠ 0 then
      (Outcome.error ("Failed to remove VG ".toList ++ vgName ++ ", output ".toList ++
        r.stdout ++ ", error ".toList ++ r.stderr), log1)
    else (Outcome.ok (), log1)

/-- The method `RemovePV`. -/
def RemovePV (p : DiskCleanup) (log : Log) (pvName : Str) : Outcome Unit × Log :=
  match execute p log "pvremove".toList [pvName, "-y".toList, "-ff".toList] with
  | (r, log1) =>
    if r.exitCode ≠ 0 then
      (Outcome.error ("Failed to remove PV ".toList ++ pvName ++ ", output ".toList ++
        r.stdout ++ ", error ".toList ++ r.stderr), log1)
    else (Outcome.ok (), log1)

/-- The method `removeVolumeGroupsFromDevice`; its `device` argument is not used. -/
def removeVolumeGroupsFromDevice (p : DiskCleanup) (log : Log) :
    List Str → Str → Outcome Unit × Log
  | [], _ => (Outcome.ok (), log)
  | vgName :: vgNames, device =>
    match RemoveVG p log vgName with
    | (Outcome.ok _, log1) => removeVolumeGroupsFromDevice p log1 vgNames device
    | (Outcome.error msg, log1) =>
      (Outcome.error ("Could not delete volume group (".toList ++ vgName ++
        ") due to error: ".toList ++ p.runtime.badVerb msg), log1)
    | (Outcome.panic, log1) => (Outcome.panic, log1)

/-- The loop of `getDiskPVs` over the lines of the `pvs` listing. -/
def pvsLoop (diskName : Str) : List Str → List Str → List Str
  | [], pvs => pvs
  | line :: lines, pvs =>
    if contains line diskName then pvsLoop diskName lines (pvs ++ [trimSpace line])
    else pvsLoop diskName lines pvs

/-- The method `getDiskPVs`. -/
def getDiskPVs (p : DiskCleanup) (log : Log) (diskName : Str) : Outcome (List Str) × Log :=
  match execute p log "pvs".toList ["--noheadings".toList, "-o".toList, "pv_name".toList] with
  | (r, log1) =>
    if r.exitCode ≠ 0 then
      (Outcome.error ("Failed to list PVs in the system: ".toList ++ r.stderr), log1)
    else (Outcome.ok (pvsLoop diskName (split r.stdout '\n') []), log1)

/-- The loop of `RemoveAllPVsOnDevice` over the PVs found. -/
def removePVsLoop (p : DiskCleanup) (diskName : Str) : Log → List Str → Outcome Unit × Log
  | log, [] => (Outcome.ok (), log)
  | log, pv :: pvs =>
    match RemovePV p log pv with
    | (Outcome.ok _, log1) => removePVsLoop p diskName log1 pvs
    | (Outcome.error msg, log1) =>
      (Outcome.error ("Failed to remove pv ".toList ++ pv ++ " from disk ".toList ++
        diskName ++ ": ".toList ++ p.runtime.badVerb msg), log1)
    | (Outcome.panic, log1) => (Outcome.panic, log1)

/-- The method `RemoveAllPVsOnDevice`. -/
def RemoveAllPVsOnDevice (p : DiskCleanup) (log : Log) (diskName : Str) : Outcome Unit × Log :=
  match getDiskPVs p log diskName with
  | (Outcome.ok pvs, log1) => removePVsLoop p diskName log1 pvs
  | (Outcome.error msg, log1) => (Outcome.error msg, log1)
  | (Outcome.panic, log1) => (Outcome.panic, log1)

/-- The method `cleanLVM`. -/
def cleanLVM (p : DiskCleanup) (log : Log) (device : Str) : Outcome Unit × Log :=
  match GetVolumeGroupsByDisk p log device with
  | (Outcome.ok vgNames, log1) =>
    if vgNames.length > 0 then
      match removeVolumeGroupsFromDevice p log1 vgNames device with
      | (Outcome.ok _, log2) => RemoveAllPVsOnDevice p log2 device
      | (Outcome.error msg, log2) => (Outcome.error msg, log2)
      | (Outcome.panic, log2) => (Outcome.panic, log2)
    else RemoveAllPVsOnDevice p log1 device
  | (Outcome.error msg, log1) => (Outcome.error msg, log1)
  | (Outcome.panic, log1) => (Outcome.panic, log1)

/-! ## RAID -/

/-- The assignment `result[key] = value` on a Go map. -/
def mapSet : RaidMap → Str → List Str → RaidMap
  | [], key, value => [(key, value)]
  | (k, v) :: rest, key, value =>
    if k = key then (key, value) :: rest else (k, v) :: mapSet rest key value

/-- The loop of `getRaidDevices2Members`: the first argument is what remains of
`lines` from index `i` on. A line without `ARRAY` is passed over. On a line with
`ARRAY`, `fields[1]` is taken (a panic when there is no second field) and resolved;
if no line follows the loop ends (`break`); if the next line, trimmed, does not
start with `devices=` the loop goes on at that line (`continue`); otherwise its
comma split is stored under the resolved name and the loop goes on after it. -/
def raidLoop (p : DiskCleanup) : List Str → Log → RaidMap → Outcome RaidMap × Log
  | [], log, result => (Outcome.ok result, log)
  | line :: rest, log, result =>
    if !contains line "ARRAY".toList then raidLoop p rest log result
    else
      match fields line with
      | _ :: f1 :: _ =>
        match evalSymlinks p log f1 with
        | (Except.error e, log1) =>
          (Outcome.error ("Failed to get real file path of RAID device: ".toList ++ e), log1)
        | (Except.ok raidDeviceName, log1) =>
          match rest with
          | [] => (Outcome.ok result, log1)
          | next :: rest2 =>
            if !hasPrefix (trimSpace next) "devices=".toList then
              raidLoop p (next :: rest2) log1 result
            else
              raidLoop p rest2 log1
                (mapSet result raidDeviceName
                  (split ((trimSpace next).drop "devices=".toList.length) ','))
      | _ => (Outcome.panic, log)

/-- The method `getRaidDevices2Members`. -/
def getRaidDevices2Members (p : DiskCleanup) (log : Log) : Outcome RaidMap × Log :=
  match execute p log "mdadm".toList
      ["-v".toList, "--query".toList, "--detail".toList, "--scan".toList] with
  | (r, log1) =>
    if r.exitCode ≠ 0 then
      (Outcome.error ("Error listing raid devices: ".toList ++ r.stderr), log1)
    else raidLoop p (split r.stdout '\n') log1 []

/-- The pattern the engine compiles for a device: `device + "[\\d]*"`. -/
def devicePattern (device : Str) : Str := device ++ "[\\d]*".toList

/-- The loop over the members of one array in `IsRaidMember` and `GetRaidDevices`:
does the expression match some member? It stops at the first match. -/
def matchesSome (p : DiskCleanup) (pattern : Str) : List Str → Outcome Bool
  | [] => Outcome.ok false
  | raidMember :: members =>
    match p.runtime.MatchString pattern raidMember with
    | none => Outcome.panic
    | some true => Outcome.ok true
    | some false => matchesSome p pattern members

/-- The loop of `IsRaidMember` over the arrays, in the order of the `range`. -/
def isRaidMemberLoop (p : DiskCleanup) (pattern : Str) : RaidMap → Outcome Bool
  | [] => Outcome.ok false
  | (_, raidArrayMembers) :: rest =>
    match matchesSome p pattern raidArrayMembers with
    | Outcome.ok true => Outcome.ok true
    | Outcome.ok false => isRaidMemberLoop p pattern rest
    | Outcome.error msg => Outcome.error msg
    | Outcome.panic => Outcome.panic

/-- The method `IsRaidMember`: a failed topology query gives `false`. -/
def IsRaidMember (p : DiskCleanup) (log : Log) (device : Str) : Outcome Bool × Log :=
  match getRaidDevices2Members p log with
  | (Outcome.ok raidDevices, log1) =>
    (isRaidMemberLoop p (devicePattern device) (p.runtime.rangeOrder log1 raidDevices), log1)
  | (Outcome.error _, log1) => (Outcome.ok false, log1)
  | (Outcome.panic, log1) => (Outcome.panic, log1)

/-- The loop of `removeDeviceFromRaidArray` over the members of one array. -/
def removeLoop (p : DiskCleanup) (pattern : Str) (raidDeviceName : Str) :
    List Str → Bool → Log → Outcome Unit × Log
  | [], _, log => (Outcome.ok (), log)
  | raidMember :: members, raidStopped, log =>
    match p.runtime.MatchString pattern raidMember with
    | none => (Outcome.panic, log)
    | some false => removeLoop p pattern raidDeviceName members raidStopped log
    | some true =>
      match (if !raidStopped then
               (match execute p log "mdadm".toList ["--stop".toList, raidDeviceName] with
                | (r, log1) =>
                  if r.exitCode ≠ 0 then
                    (Outcome.error ("Error stopping raid device ".toList ++ raidDeviceName ++
                      ": ".toList ++ r.stderr), log1)
                  else (Outcome.ok true, log1))
             else (Outcome.ok raidStopped, log)) with
      | (Outcome.ok stopped, log1) =>
        match execute p log1 "mdadm".toList ["--zero-superblock".toList, raidMember] with
        | (r, log2) =>
          if r.exitCode ≠ 0 then
            (Outcome.error ("Error cleaning raid member ".toList ++ raidMember ++
              " superblock: ".toList ++ r.stderr), log2)
          else removeLoop p pattern raidDeviceName members stopped log2
      | (Outcome.error msg, log1) => (Outcome.error msg, log1)
      | (Outcome.panic, log1) => (Outcome.panic, log1)

/-- The method `removeDeviceFromRaidArray`. -/
def removeDeviceFromRaidArray (p : DiskCleanup) (log : Log) (deviceName : Str)
    (raidDeviceName : Str) (raidArrayMembers : List Str) : Outcome Unit × Log :=
  removeLoop p (devicePattern deviceName) raidDeviceName raidArrayMembers false log

/-- The loop of `CleanRaidMembership` over the arrays, in the order of the `range`. -/
def cleanMembershipLoop (p : DiskCleanup) (device : Str) : RaidMap → Log → Outcome Unit × Log
  | [], log => (Outcome.ok (), log)
  | (raidDeviceName, raidArrayMembers) :: rest, log =>
    match removeDeviceFromRaidArray p log device raidDeviceName raidArrayMembers with
    | (Outcome.ok _, log1) => cleanMembershipLoop p device rest log1
    | (Outcome.error msg, log1) => (Outcome.error msg, log1)
    | (Outcome.panic, log1) => (Outcome.panic, log1)

/-- The method `CleanRaidMembership`. -/
def CleanRaidMembership (p : DiskCleanup) (log : Log) (device : Str) : Outcome Unit × Log :=
  match getRaidDevices2Members p log with
  | (Outcome.ok raidDevices, log1) =>
    cleanMembershipLoop p device (p.runtime.rangeOrder log1 raidDevices) log1
  | (Outcome.error msg, log1) => (Outcome.error msg, log1)
  | (Outcome.panic, log1) => (Outcome.panic, log1)

/-- The loop of `GetRaidDevices` over the arrays: the name of every array with a
matching member is appended to `result`. -/
def getRaidDevicesLoop (p : DiskCleanup) (pattern : Str) :
    RaidMap → List Str → Outcome (List Str)
  | [], result => Outcome.ok result
  | (raidDeviceName, raidArrayMembers) :: rest, result =>
    match matchesSome p pattern raidArrayMembers with
    | Outcome.ok true => getRaidDevicesLoop p pattern rest (result ++ [raidDeviceName])
    | Outcome.ok false => getRaidDevicesLoop p pattern rest result
    | Outcome.error msg => Outcome.error msg
    | Outcome.panic => Outcome.panic

/-- The method `GetRaidDevices`: the names of the arrays the device is part of. -/
def GetRaidDevices (p : DiskCleanup) (log : Log) (deviceName : Str) :
    Outcome (List Str) × Log :=
  match getRaidDevices2Members p log with
  | (Outcome.ok raidDevices, log1) =>
    (getRaidDevicesLoop p (devicePattern deviceName) (p.runtime.rangeOrder log1 raidDevices) [],
      log1)
  | (Outcome.error msg, log1) => (Outcome.error msg, log1)
  | (Outcome.panic, log1) => (Outcome.panic, log1)

/-! ## Orchestrator -/

/-- The loop of `cleanupInstallDevice` over the result of `GetRaidDevices`: the
LVM clean of each RAID device returned. -/
def cleanRaidDevicesLoop (p : DiskCleanup) : List Str → Log → Outcome Unit × Log
  | [], log => (Outcome.ok (), log)
  | raidDevice :: rest, log =>
    match cleanLVM p log raidDevice with
    | (Outcome.ok _, log1) => cleanRaidDevicesLoop p rest log1
    | (Outcome.error msg, log1) => (Outcome.error msg, log1)
    | (Outcome.panic, log1) => (Outcome.panic, log1)

/-- The branch of `cleanupInstallDevice` taken when the device is a RAID member. -/
def raidMemberPath (p : DiskCleanup) (log : Log) (realDevicePath : Str) : Outcome Unit × Log :=
  match GetRaidDevices p log realDevicePath with
  | (Outcome.ok raidDevices, log1) =>
    match cleanRaidDevicesLoop p raidDevices log1 with
    | (Outcome.ok _, log2) => CleanRaidMembership p log2 realDevicePath
    | (Outcome.error msg, log2) => (Outcome.error msg, log2)
    | (Outcome.panic, log2) => (Outcome.panic, log2)
  | (Outcome.error msg, log1) => (Outcome.error msg, log1)
  | (Outcome.panic, log1) => (Outcome.panic, log1)

/-- The method `cleanupInstallDevice`. -/
def cleanupInstallDevice (p : DiskCleanup) (log : Log) (device : Str) : Outcome Unit × Log :=
  if p.subprocessConfig.DryRunEnabled then (Outcome.ok (), log)
  else
    match evalSymlinks p log device with
    | (Except.error e, log1) =>
      (Outcome.error ("Failed to get real file path of installation disk: ".toList ++ e), log1)
    | (Except.ok realDevicePath, log1) =>
      match cleanLVM p log1 realDevicePath with
      | (Outcome.error msg, log2) => (Outcome.error msg, log2)
      | (Outcome.panic, log2) => (Outcome.panic, log2)
      | (Outcome.ok _, log2) =>
        match IsRaidMember p log2 realDevicePath with
        | (Outcome.ok true, log3) =>
          (match raidMemberPath p log3 realDevicePath with
           | (Outcome.ok _, log4) => Wipefs p log4 realDevicePath
           | (Outcome.error msg, log4) => (Outcome.error msg, log4)
           | (Outcome.panic, log4) => (Outcome.panic, log4))
        | (Outcome.ok false, log3) => Wipefs p log3 realDevicePath
        | (Outcome.error msg, log3) => (Outcome.error msg, log3)
        | (Outcome.panic, log3) => (Outcome.panic, log3)

/-! ## The fragment of Go regular expressions the engine's patterns live in -/

/-- The characters with a special meaning in the syntax of Go regular expressions. -/
def isMeta (c : Char) : Bool := "\\.+*?()|[]{}^$".toList.contains c

/-- A path without regular-expression metacharacters. -/
def metaFree (s : Str) : Bool := s.all (fun c => !isMeta c)

/-- The class `\d` of Go regular expressions: the ASCII digits. -/
def isDigit (c : Char) : Bool := 48 ≤ c.toNat && c.toNat ≤ 57

/-- A piece of a compiled pattern of the fragment: a literal character, or
`[\d]*`, any run of digits. -/
inductive Item where
  | lit (c : Char)
  | digits
  deriving DecidableEq, Repr

/-- Compile a pattern of the fragment: literal characters and the group `[\d]*`.
Every other use of a metacharacter is outside the fragment (`none`). -/
def parsePattern : Str → Option (List Item)
  | [] => some []
  | c :: rest =>
    if isMeta c then
      (match rest with
       | c1 :: c2 :: c3 :: c4 :: rest2 =>
         if c = '[' ∧ c1 = '\\' ∧ c2 = 'd' ∧ c3 = ']' ∧ c4 = '*' then
           (match parsePattern rest2 with
            | some items => some (Item.digits :: items)
            | none => none)
         else none
       | _ => none)
    else
      (match parsePattern rest with
       | some items => some (Item.lit c :: items)
       | none => none)

/-- A run of digits followed by whatever `k` accepts. -/
def starThen (k : Str → Bool) : Str → Bool
  | [] => k []
  | c :: cs => k (c :: cs) || (isDigit c && starThen k cs)

/-- Does a match of the items start at the head of the string? -/
def matchHere : List Item → Str → Bool
  | [], _ => true
  | Item.lit c :: items, s =>
    (match s with
     | [] => false
     | x :: xs => x == c && matchHere items xs)
  | Item.digits :: items, s => starThen (matchHere items) s

/-- Does a match of the items start anywhere in the string? `MatchString` is not
anchored: it reports whether the string contains a match. -/
def matchAnywhere (items : List Item) : Str → Bool
  | [] => matchHere items []
  | c :: cs => matchHere items (c :: cs) || matchAnywhere items cs

/-- The function `regexp.Compile(pattern)` followed by `MatchString(s)`, on the
fragment. -/
def fragmentMatchString (pattern s : Str) : Option Bool :=
  match parsePattern pattern with
  | some items => some (matchAnywhere items s)
  | none => none

/-- The run time agrees with the fragment on the pattern compiled for `device`. -/
def RegexpOnDevice (p : DiskCleanup) (device : Str) : Prop :=
  ∀ s : Str, p.runtime.MatchString (devicePattern device) s =
    fragmentMatchString (devicePattern device) s

/-- The member string is the device path followed by zero or more decimal digits. -/
def DeviceThenDigits (device raidMember : Str) : Prop :=
  ∃ ds : Str, (∀ c ∈ ds, isDigit c = true) ∧ raidMember = device ++ ds

/-! ## Reading the log -/

/-- The `Execute` calls of a log, in order: program and arguments. -/
def execCalls : Log → List (Str × List Str)
  | [] => []
  | Event.exec command args _ :: rest => (command, args) :: execCalls rest
  | Event.resolve _ _ :: rest => execCalls rest

/-- The event is the call `mdadm --stop raidDeviceName`. -/
def isStop (raidDeviceName : Str) : Event → Bool
  | Event.exec command args _ =>
    decide (command = "mdadm".toList ∧ args = ["--stop".toList, raidDeviceName])
  | Event.resolve _ _ => false

/-- The event is the call `mdadm --zero-superblock raidMember`. -/
def isZero (raidMember : Str) : Event → Bool
  | Event.exec command args _ =>
    decide (command = "mdadm".toList ∧ args = ["--zero-superblock".toList, raidMember])
  | Event.resolve _ _ => false

/-- The event is an `Execute` call that exited zero. -/
def exitedZero : Event → Bool
  | Event.exec _ _ r => decide (r.exitCode = 0)
  | Event.resolve _ _ => false

/-- The event is one of the LVM calls: `vgs`, `vgremove`, `pvs` or `pvremove`. -/
def isLvmCall : Event → Bool
  | Event.exec command _ _ =>
    decide (command = "vgs".toList ∨ command = "vgremove".toList ∨
      command = "pvs".toList ∨ command = "pvremove".toList)
  | Event.resolve _ _ => false

/-- The event is the RAID scan `mdadm -v --query --detail --scan` or a path
resolution. -/
def isScanOrResolve : Event → Bool
  | Event.exec command args _ =>
    decide (command = "mdadm".toList ∧
      args = ["-v".toList, "--query".toList, "--detail".toList, "--scan".toList])
  | Event.resolve _ _ => true

/-- The event is a `wipefs` call. -/
def isWipefsCall : Event → Bool
  | Event.exec command _ _ => decide (command = "wipefs".toList)
  | Event.resolve _ _ => false

/-- The event is neither an `mdadm --stop` nor an `mdadm --zero-superblock` call. -/
def notRaidTeardown (e : Event) : Prop := ∀ x : Str, isStop x e = false ∧ isZero x e = false

/-- The log `log2` is `log1` with more events at its end, each satisfying `Q`. -/
def Adds (Q : Event → Prop) (log1 log2 : Log) : Prop :=
  ∃ added : Log, log2 = log1 ++ added ∧ ∀ e ∈ added, Q e

/-- The call `mdadm --stop raidDeviceName` with its answer. -/
def stopEvent (raidDeviceName : Str) (r : ExecResult) : Event :=
  Event.exec "mdadm".toList ["--stop".toList, raidDeviceName] r

/-- The call `mdadm --zero-superblock raidMember` with its answer. -/
def zeroEvent (raidMember : Str) (r : ExecResult) : Event :=
  Event.exec "mdadm".toList ["--zero-superblock".toList, raidMember] r

/-- The event zeroes the superblock of a member of the list that the pattern matches. -/
def ZeroOn (p : DiskCleanup) (pattern : Str) (members : List Str) (e : Event) : Prop :=
  ∃ (m : Str) (r : ExecResult), e = zeroEvent m r ∧ m ∈ members ∧
    p.runtime.MatchString pattern m = some true

/-- What `removeDeviceFromRaidArray` adds to the log for one array: nothing, or the
stop of the array followed by superblock calls on matching members, the latter only
after a stop that exited zero. -/
def Block (p : DiskCleanup) (pattern : Str) (raidDeviceName : Str) (members : List Str)
    (b : Log) : Prop :=
  b = [] ∨ ∃ (r : ExecResult) (zs : Log), b = stopEvent raidDeviceName r :: zs ∧
    (zs ≠ [] → r.exitCode = 0) ∧ (∀ z ∈ zs, ZeroOn p pattern members z) ∧
    ∃ m ∈ members, p.runtime.MatchString pattern m = some true

/-- What `CleanRaidMembership` adds to the log after its scan: one block for each array
visited, in the order of the visit, which may end early. -/
inductive Blocks (p : DiskCleanup) (pattern : Str) : RaidMap → Log → Prop where
  | done (entries : RaidMap) : Blocks p pattern entries []
  | step (raidDeviceName : Str) (members : List Str) (rest : RaidMap) (b bs : Log) :
      Block p pattern raidDeviceName members b → Blocks p pattern rest bs →
      Blocks p pattern ((raidDeviceName, members) :: rest) (b ++ bs)

/-- A complete run of `cleanLVM` on `x` that succeeded lies within the log `pre`: from
some earlier log `hb` the run gives the log `ha`, and `ha` is a beginning of `pre`.
Since the executor answers from the log, the events of `pre` after `hb` are then the
calls of that run with their answers. -/
def RanCleanLVM (p : DiskCleanup) (x : Str) (pre : Log) : Prop :=
  ∃ hb ha : Log, cleanLVM p hb x = (Outcome.ok (), ha) ∧ ha <+: pre

/-- The pieces joined with the separator between them, as `strings.Join` does. -/
def joinWith (sep : Char) : List Str → Str
  | [] => []
  | [l] => l
  | l :: l2 :: ls => l ++ sep :: joinWith sep (l2 :: ls)

/-- A two-line record of the scan output: the header line `ARRAY <name> ...` with the
array name as its second field, the line `devices=m1,...,mk`, possibly indented, with
its member list, and the path the array name resolves to. -/
structure ScanRecord where
  header : Str
  name : Str
  devicesLine : Str
  members : List Str
  resolved : Str

/-- The record is well formed: the header contains `ARRAY` and has the name as its second
field; the other line, trimmed, is `devices=` followed by the members joined by commas;
there is at least one member and no member contains a comma. -/
def ScanRecord.WellFormed (r : ScanRecord) : Prop :=
  contains r.header "ARRAY".toList = true ∧
  (∃ (f0 : Str) (tail : List Str), fields r.header = f0 :: r.name :: tail) ∧
  trimSpace r.devicesLine = "devices=".toList ++ joinWith ',' r.members ∧
  r.members ≠ [] ∧ ∀ m ∈ r.members, ',' ∉ m

/-- The lines of a list of records. -/
def recordLines : List ScanRecord → List Str
  | [] => []
  | r :: rest => r.header :: r.devicesLine :: recordLines rest

/-! ## Request and response envelope -/

/-- The type `models.DiskCleanupRequest`, as `CleanupDevice` reads it: the field
`Path *string`, which is `nil` when the request carries no path. -/
structure DiskCleanupRequest where
  Path : Option Str

/-- The type `models.DiskCleanupResponse`, as `createResponse` fills it. -/
structure DiskCleanupResponse where
  Successful : Bool
  Path : Str
  deriving DecidableEq, Repr

/-- What `CleanupDevice` uses of `encoding/json` and `fmt`.
* `Unmarshal` is `json.Unmarshal` into a `DiskCleanupRequest`: the request decoded,
  or the message of the error.
* `Marshal` is `json.Marshal` of a `DiskCleanupResponse`.
* `sprintPathPointer path` is what `fmt.Sprintf` prints for the verb `%s` applied to
  the pointer `diskCleanupRequest.Path`, a `*string`, when it points to `path`: the
  source passes the pointer, not the string it points to. -/
structure Codec where
  Unmarshal : Str → Except Str DiskCleanupRequest
  Marshal : DiskCleanupResponse → Except Str Str
  sprintPathPointer : Str → Str

/-- The function `createResponse`: the response marshalled, and the empty string when
marshalling fails. -/
def createResponse (codec : Codec) (status : Bool) (path : Str) : Str :=
  match codec.Marshal ⟨status, path⟩ with
  | Except.ok bytes => bytes
  | Except.error _ => []

/-- The method `CleanupDevice`: `(stdout, stderr, exitCode)`. The calls on the logger
are not part of the model. The error of the engine is not used in the answer. -/
def CleanupDevice (p : DiskCleanup) (codec : Codec) (log : Log) (diskCleanupRequestStr : Str) :
    Outcome (Str × Str × Int) × Log :=
  match codec.Unmarshal diskCleanupRequestStr with
  | Except.error e =>
    (Outcome.ok ([], "Failed to unmarshal DiskCleanupRequest: ".toList ++ e, -1), log)
  | Except.ok diskCleanupRequest =>
    match diskCleanupRequest.Path with
    | none => (Outcome.ok ([], "Missing Filename in DiskCleanupRequest".toList, -1), log)
    | some path =>
      match cleanupInstallDevice p log path with
      | (Outcome.ok _, log1) => (Outcome.ok (createResponse codec true path, [], 0), log1)
      | (Outcome.error _, log1) =>
        (Outcome.ok (createResponse codec false path,
          "Failed to run diskCleanup successfuly on device ".toList ++
            codec.sprintPathPointer path, -1), log1)
      | (Outcome.panic, log1) => (Outcome.panic, log1)

/-- The rows of the `vgs` listing that bind a volume group to the disk, read as the
specification words it: the first field of every row with at least two fields whose
second field contains the path, in row order. -/
def vgsOfRows (diskName : Str) (rows : List Str) : List Str :=
  rows.filterMap fun row =>
    match fields row with
    | vg :: pv :: _ => if contains pv diskName then some vg else none
    | _ => none

/-- The call `vgremove vgName -y`. -/
def vgremoveCall (vgName : Str) : Str × List Str :=
  ("vgremove".toList, [vgName, "-y".toList])

/-- The call `pvremove pvName -y -ff`. -/
def pvremoveCall (pvName : Str) : Str × List Str :=
  ("pvremove".toList, [pvName, "-y".toList, "-ff".toList])

/-- The event is one of the removal calls of the teardown: `vgremove`, `pvremove`,
`mdadm --stop` or `mdadm --zero-superblock`. -/
def isTeardownCall : Event → Bool
  | Event.exec command args _ =>
    decide (command = "vgremove".toList ∨ command = "pvremove".toList ∨
      (command = "mdadm".toList ∧
        (args.head? = some "--stop".toList ∨ args.head? = some "--zero-superblock".toList)))
  | Event.resolve _ _ => false

/-- The event, if it is one of the removal calls of the teardown, exited zero. -/
def TeardownSucceeded (e : Event) : Prop := isTeardownCall e = true → exitedZero e = true

/-- The event is a `pvs` or a `pvremove` call. -/
def isPvCall : Event → Bool
  | Event.exec command _ _ => decide (command = "pvs".toList ∨ command = "pvremove".toList)
  | Event.resolve _ _ => false

/-- The lines of the `pvs` listing that contain the path, trimmed, in row order. -/
def pvsOfRows (diskName : Str) (rows : List Str) : List Str :=
  (rows.filter fun row => contains row diskName).map trimSpace

/-- The call `wipefs --all --force device`. -/
def wipefsForceCall (device : Str) : Str × List Str :=
  ("wipefs".toList, ["--all".toList, "--force".toList, device])

/-- The call `wipefs --all device`. -/
def wipefsCall (device : Str) : Str × List Str :=
  ("wipefs".toList, ["--all".toList, device])

/-- The event is a path resolution. -/
def isResolve : Event → Bool
  | Event.exec _ _ _ => false
  | Event.resolve _ _ => true

/-! ## Worlds used as concrete inputs -/

/-- An executor with scripted answers: the first row of the table for the program
and its arguments, and `fallback` when there is none. -/
def scripted (table : List (Str × List Str × ExecResult)) (fallback : ExecResult) :
    Log → Str → List Str → ExecResult :=
  fun _ command args =>
    match table.find? (fun row => decide (row.1 = command ∧ row.2.1 = args)) with
    | some row => row.2.2
    | none => fallback

/-- A run time without symbolic links, with the fragment as regular expressions and
maps visited in the order of insertion. It stands for Go only on patterns of the
fragment, which is all that the worlds below use: a pattern with another metacharacter
is answered `none` here, while Go may compile it. The text of `badVerb` is a
placeholder for what `fmt` prints. -/
def plainRuntime : GoRuntime where
  EvalSymlinks := fun _ path => Except.ok path
  MatchString := fragmentMatchString
  rangeOrder := fun _ m => m
  rangeOrder_perm := fun _ m => List.Perm.refl m
  badVerb := fun msg => "%!w(".toList ++ msg ++ ")".toList

/-- A successful answer with the given standard output. -/
def okOut (stdout : String) : ExecResult := ⟨stdout.toList, [], 0⟩

/-- A failed answer with the given standard error. -/
def failed (stderr : String) : ExecResult := ⟨[], stderr.toList, 1⟩

/-- The engine over a scripted executor and the plain run time. -/
def engine (dryRun : Bool) (table : List (Str × List Str × ExecResult))
    (fallback : ExecResult) : DiskCleanup where
  dependencies := ⟨scripted table fallback⟩
  subprocessConfig := ⟨dryRun⟩
  runtime := plainRuntime

/-- The `vgs` listing call. -/
def vgsCall : Str × List Str :=
  ("vgs".toList, ["--noheadings".toList, "-o".toList, "vg_name,pv_name".toList])

/-- The `pvs` listing call. -/
def pvsCall : Str × List Str :=
  ("pvs".toList, ["--noheadings".toList, "-o".toList, "pv_name".toList])

/-- The RAID scan call. -/
def scanCall : Str × List Str :=
  ("mdadm".toList, ["-v".toList, "--query".toList, "--detail".toList, "--scan".toList])

/-- A world in dry-run mode where every command would fail. -/
def dryWorld : DiskCleanup := engine true [] (failed "not run")

/-- A world where both wipes fail, each with its own stderr. -/
def wipeFailsWorld : DiskCleanup :=
  engine false
    [("wipefs".toList, ["--all".toList, "--force".toList, "/dev/sda".toList],
        failed "forced wipe failed"),
     ("wipefs".toList, ["--all".toList, "/dev/sda".toList], failed "plain wipe failed")]
    (okOut "")

/-- The scan output of one array `/dev/md0` with the members `/dev/sda1` and
`/dev/sda2`. -/
def scanMd0 : String :=
  "ARRAY /dev/md0 level=raid1 num-devices=2 metadata=1.2 name=0 UUID=77e1b6f2:56530ebd:38bd6808:17fd01c4\n   devices=/dev/sda1,/dev/sda2\n"

/-- A world where `/dev/sda1` and `/dev/sda2` are the members of `/dev/md0`, the
volume group `vg1` sits on `/dev/sda2`, and every command succeeds. -/
def raidWorld : DiskCleanup :=
  engine false
    [(vgsCall.1, vgsCall.2, okOut "  vg1 /dev/sda2\n"),
     (pvsCall.1, pvsCall.2, okOut ""),
     (scanCall.1, scanCall.2, okOut scanMd0)]
    (okOut "")

/-- The log of the cleanup of `/dev/sda1` in `raidWorld`, from an empty log. -/
def raidWorldLog : Log := (cleanupInstallDevice raidWorld [] "/dev/sda1".toList).2

/-- A world with one array `/dev/md0` whose only member is `/dev/sdab`. -/
def sdabWorld : DiskCleanup :=
  engine false
    [(scanCall.1, scanCall.2,
      okOut "ARRAY /dev/md0 level=raid1 num-devices=1 metadata=1.2 name=0\n   devices=/dev/sdab\n")]
    (okOut "")

/-- A world with one array `/dev/md0` whose only member is the whole disk `/dev/sda`. -/
def baseOnlyWorld : DiskCleanup :=
  engine false
    [(scanCall.1, scanCall.2,
      okOut "ARRAY /dev/md0 level=raid1 num-devices=1 metadata=1.2 name=0\n   devices=/dev/sda\n")]
    (okOut "")

/-- A world with two arrays: `/dev/md0` with the members `/dev/sda1` and `/dev/sda2`, and
`/dev/md1` with the member `/dev/vdb1`. -/
def twoArraysWorld : DiskCleanup :=
  engine false
    [(scanCall.1, scanCall.2,
      okOut "ARRAY /dev/md0 level=raid1 num-devices=2\n   devices=/dev/sda1,/dev/sda2\nARRAY /dev/md1 level=raid1 num-devices=1\n   devices=/dev/vdb1\n")]
    (okOut "")

/-- A world whose scan output has a header followed by another header, a complete record,
and a header as its last line. -/
def brokenScanWorld : DiskCleanup :=
  engine false
    [(scanCall.1, scanCall.2,
      okOut "ARRAY /dev/md0 level=raid1\nARRAY /dev/md1 level=raid1\n   devices=/dev/vda1\nARRAY /dev/md2 level=raid1")]
    (okOut "")

/-- A run time where `/dev/md/boot` is a symbolic link to `/dev/md127`. -/
def symlinkRuntime : GoRuntime where
  EvalSymlinks := fun _ path =>
    if path = "/dev/md/boot".toList then Except.ok "/dev/md127".toList else Except.ok path
  MatchString := fragmentMatchString
  rangeOrder := fun _ m => m
  rangeOrder_perm := fun _ m => List.Perm.refl m
  badVerb := fun msg => "%!w(".toList ++ msg ++ ")".toList

/-- The record of `/dev/md0` with the members `/dev/vda2` and `/dev/vda3`. -/
def recordMd0 : ScanRecord where
  header := "ARRAY /dev/md0 level=raid1 num-devices=2 metadata=1.2 name=0 UUID=77e1b6f2:56530ebd:38bd6808:17fd01c4".toList
  name := "/dev/md0".toList
  devicesLine := "   devices=/dev/vda2,/dev/vda3".toList
  members := ["/dev/vda2".toList, "/dev/vda3".toList]
  resolved := "/dev/md0".toList

/-- The record of `/dev/md/boot`, a link to `/dev/md127`, with the member `/dev/vda1`. -/
def recordBoot : ScanRecord where
  header := "ARRAY /dev/md/boot level=raid1 num-devices=1 metadata=1.2 name=1 UUID=aad7aca9:81db82f3:2f1fedb1:f89ddb43".toList
  name := "/dev/md/boot".toList
  devicesLine := "   devices=/dev/vda1".toList
  members := ["/dev/vda1".toList]
  resolved := "/dev/md127".toList

/-- A world whose scan output is the two records above, each line ended by a newline. -/
def symlinkWorld : DiskCleanup where
  dependencies := ⟨scripted
    [(scanCall.1, scanCall.2,
      okOut "ARRAY /dev/md0 level=raid1 num-devices=2 metadata=1.2 name=0 UUID=77e1b6f2:56530ebd:38bd6808:17fd01c4\n   devices=/dev/vda2,/dev/vda3\nARRAY /dev/md/boot level=raid1 num-devices=1 metadata=1.2 name=1 UUID=aad7aca9:81db82f3:2f1fedb1:f89ddb43\n   devices=/dev/vda1\n")]
    (okOut "")⟩
  subprocessConfig := ⟨false⟩
  runtime := symlinkRuntime

/-- A world where the RAID scan exits non-zero and every other command succeeds. -/
def scanFailsWorld : DiskCleanup :=
  engine false [(scanCall.1, scanCall.2, failed "mdadm: cannot open /dev/md0")] (okOut "")

/-- A run time where the path `/dev/md0` cannot be resolved. -/
def danglingRuntime : GoRuntime where
  EvalSymlinks := fun _ path =>
    if path = "/dev/md0".toList then
      Except.error "lstat /dev/md0: no such file or directory".toList
    else Except.ok path
  MatchString := fragmentMatchString
  rangeOrder := fun _ m => m
  rangeOrder_perm := fun _ m => List.Perm.refl m
  badVerb := fun msg => "%!w(".toList ++ msg ++ ")".toList

/-- A world where the scan lists `/dev/sda1` and `/dev/sda2` as the members of `/dev/md0`,
the path `/dev/md0` cannot be resolved, and every command succeeds. -/
def danglingWorld : DiskCleanup where
  dependencies := ⟨scripted [(scanCall.1, scanCall.2, okOut scanMd0)] (okOut "")⟩
  subprocessConfig := ⟨false⟩
  runtime := danglingRuntime

/-- A codec that decodes the text `{}` to a request without path, the text `?` to an
error, and every other text to a request with that text as its path; it prints a pointer
as `fmt` does and marshals a response to a fixed text per value of the flag. -/
def plainCodec : Codec where
  Unmarshal := fun text =>
    if text = "?".toList then Except.error "invalid character '?' looking for beginning of value".toList
    else if text = "{}".toList then Except.ok ⟨none⟩
    else Except.ok ⟨some text⟩
  Marshal := fun r =>
    Except.ok ((if r.Successful then "ok ".toList else "failed ".toList) ++ r.Path)
  sprintPathPointer := fun _ => "%!s(*string=0xc000012345)".toList

/-- A world where every command fails. -/
def allFailWorld : DiskCleanup := engine false [] (failed "not available")

/-- A world whose scan output has a line that is just `ARRAY`. -/
def bareArrayWorld : DiskCleanup :=
  engine false [(scanCall.1, scanCall.2, okOut "ARRAY\n")] (okOut "")

/-- A world with the volume groups `vg0` on `/dev/sda`, `vg1` on `/dev/sdb1` and `vg2` on
`/dev/sda2`, a row of one field in the `vgs` listing, no RAID array, and every command
succeeding. -/
def lvmWorld : DiskCleanup :=
  engine false
    [(vgsCall.1, vgsCall.2, okOut "  vg0 /dev/sda\n  vg1 /dev/sdb1\n  lonely\n  vg2 /dev/sda2\n"),
     (pvsCall.1, pvsCall.2, okOut "  /dev/sda\n  /dev/sdb1\n  /dev/sda2\n"),
     (scanCall.1, scanCall.2, okOut "")]
    (okOut "")

/-- A world where the volume group `vg0` has two physical volumes on `/dev/sda`, no
physical volume is listed, and every command succeeds. -/
def dupVgWorld : DiskCleanup :=
  engine false
    [(vgsCall.1, vgsCall.2, okOut "  vg0 /dev/sda1\n  vg0 /dev/sda2\n"),
     (pvsCall.1, pvsCall.2, okOut ""),
     (scanCall.1, scanCall.2, okOut "")]
    (okOut "")

/-- The world `lvmWorld` where the removal of `vg0` fails. -/
def vgRemoveFailsWorld : DiskCleanup :=
  engine false
    [(vgsCall.1, vgsCall.2, okOut "  vg0 /dev/sda\n  vg1 /dev/sdb1\n  lonely\n  vg2 /dev/sda2\n"),
     (pvsCall.1, pvsCall.2, okOut "  /dev/sda\n  /dev/sdb1\n  /dev/sda2\n"),
     (scanCall.1, scanCall.2, okOut ""),
     ("vgremove".toList, ["vg0".toList, "-y".toList], failed "vg0 is in use")]
    (okOut "")

/-- The world `lvmWorld` where the removal of the physical volume `/dev/sda` fails. -/
def pvRemoveFailsWorld : DiskCleanup :=
  engine false
    [(vgsCall.1, vgsCall.2, okOut "  vg0 /dev/sda\n  vg1 /dev/sdb1\n  lonely\n  vg2 /dev/sda2\n"),
     (pvsCall.1, pvsCall.2, okOut "  /dev/sda\n  /dev/sdb1\n  /dev/sda2\n"),
     (scanCall.1, scanCall.2, okOut ""),
     ("pvremove".toList, ["/dev/sda".toList, "-y".toList, "-ff".toList],
        failed "cannot remove /dev/sda")]
    (okOut "")

/-- A world without LVM and without RAID where every command succeeds with an empty
output. -/
def emptyWorld : DiskCleanup := engine false [] (okOut "")

/-- A world without LVM and without RAID where the forced wipe of `/dev/sda` is rejected
and every other command succeeds. -/
def forceRejectedWorld : DiskCleanup :=
  engine false
    [((wipefsForceCall "/dev/sda".toList).1, (wipefsForceCall "/dev/sda".toList).2,
      failed "wipefs: unrecognized option '--force'")]
    (okOut "")

/-! ## Lemmas and theorems -/

/-- C1. In dry-run mode `cleanupInstallDevice` returns success and leaves the log as it
was, whatever the device, the executor and the log so far: no `Execute` call and no
path resolution is made. -/
theorem cleanupInstallDevice_dry_run (p : DiskCleanup) (log : Log) (device : Str)
    (hdry : p.subprocessConfig.DryRunEnabled = true) :
    cleanupInstallDevice p log device = (Outcome.ok (), log) := by
  simp [cleanupInstallDevice, hdry]

/-- Witness of C1: in the dry-run world, where every command would fail, the cleanup of
`/dev/sda` succeeds with an empty log. -/
theorem cleanupInstallDevice_dry_run_witness :
    dryWorld.subprocessConfig.DryRunEnabled = true ∧
    cleanupInstallDevice dryWorld [] "/dev/sda".toList = (Outcome.ok (), []) :=
  ⟨rfl, cleanupInstallDevice_dry_run dryWorld [] "/dev/sda".toList rfl⟩

/-- C4. `Wipefs` first calls `wipefs --all --force device`. If that exits zero it makes
no other call and succeeds. If not, it calls `wipefs --all device` once, succeeds
when that call exits zero, and otherwise fails with exactly the stderr of that second
call. -/
theorem Wipefs_forced_then_fallback (p : DiskCleanup) (log : Log) (device : Str) :
    let forced := p.dependencies.Execute log "wipefs".toList
      ["--all".toList, "--force".toList, device]
    let log1 := log ++ [Event.exec "wipefs".toList ["--all".toList, "--force".toList, device] forced]
    let plain := p.dependencies.Execute log1 "wipefs".toList ["--all".toList, device]
    let log2 := log1 ++ [Event.exec "wipefs".toList ["--all".toList, device] plain]
    (forced.exitCode = 0 → Wipefs p log device = (Outcome.ok (), log1)) ∧
    (forced.exitCode ≠ 0 → plain.exitCode = 0 → Wipefs p log device = (Outcome.ok (), log2)) ∧
    (forced.exitCode ≠ 0 → plain.exitCode ≠ 0 →
      Wipefs p log device = (Outcome.error plain.stderr, log2)) := by
  intro forced log1 plain log2
  refine ⟨?_, ?_, ?_⟩
  · intro h
    simp [Wipefs, execute, forced, log1] at h ⊢
    simp [h]
  · intro h1 h2
    simp [Wipefs, execute, forced, log1, plain, log2] at h1 h2 ⊢
    simp [h1, h2]
  · intro h1 h2
    simp [Wipefs, execute, forced, log1, plain, log2] at h1 h2 ⊢
    simp [h1, h2]

/-- Witness of C4: when both wipes of `/dev/sda` fail, the error is the stderr of the
plain wipe and the log holds the two calls, the forced one first. -/
theorem Wipefs_forced_then_fallback_witness :
    Wipefs wipeFailsWorld [] "/dev/sda".toList =
      (Outcome.error "plain wipe failed".toList,
       [Event.exec "wipefs".toList ["--all".toList, "--force".toList, "/dev/sda".toList]
          (failed "forced wipe failed"),
        Event.exec "wipefs".toList ["--all".toList, "/dev/sda".toList]
          (failed "plain wipe failed")]) :=
  (Wipefs_forced_then_fallback wipeFailsWorld [] "/dev/sda".toList).2.2
    (by decide) (by decide)

theorem Adds.refl (Q : Event → Prop) (log : Log) : Adds Q log log :=
  ⟨[], by simp, by simp⟩

theorem Adds.trans {Q : Event → Prop} {l1 l2 l3 : Log} (h12 : Adds Q l1 l2)
    (h23 : Adds Q l2 l3) : Adds Q l1 l3 := by
  obtain ⟨a, rfl, ha⟩ := h12
  obtain ⟨b, rfl, hb⟩ := h23
  refine ⟨a ++ b, by simp, ?_⟩
  intro e he
  rcases List.mem_append.mp he with h | h
  · exact ha e h
  · exact hb e h

theorem Adds.mono {Q R : Event → Prop} {l1 l2 : Log} (h : Adds Q l1 l2)
    (hQR : ∀ e, Q e → R e) : Adds R l1 l2 := by
  obtain ⟨a, rfl, ha⟩ := h
  exact ⟨a, rfl, fun e he => hQR e (ha e he)⟩

theorem Adds.one {Q : Event → Prop} (log : Log) (e : Event) (he : Q e) :
    Adds Q log (log ++ [e]) :=
  ⟨[e], rfl, by simpa using he⟩

theorem Wipefs_adds (p : DiskCleanup) (log : Log) (device : Str) :
    Adds (fun e => isWipefsCall e = true) log (Wipefs p log device).2 := by
  unfold Wipefs execute
  simp only
  split_ifs <;>
    first
    | exact Adds.one _ _ (by simp [isWipefsCall])
    | exact (Adds.one _ _ (by simp [isWipefsCall])).trans (Adds.one _ _ (by simp [isWipefsCall]))

theorem GetVolumeGroupsByDisk_adds (p : DiskCleanup) (log : Log) (diskName : Str) :
    Adds (fun e => isLvmCall e = true) log (GetVolumeGroupsByDisk p log diskName).2 := by
  unfold GetVolumeGroupsByDisk execute
  simp only
  split_ifs <;> exact Adds.one _ _ (by simp [isLvmCall])

theorem RemoveVG_adds (p : DiskCleanup) (log : Log) (vgName : Str) :
    Adds (fun e => isLvmCall e = true) log (RemoveVG p log vgName).2 := by
  unfold RemoveVG execute
  simp only
  split_ifs <;> exact Adds.one _ _ (by simp [isLvmCall])

theorem RemovePV_adds (p : DiskCleanup) (log : Log) (pvName : Str) :
    Adds (fun e => isLvmCall e = true) log (RemovePV p log pvName).2 := by
  unfold RemovePV execute
  simp only
  split_ifs <;> exact Adds.one _ _ (by simp [isLvmCall])

theorem removeVolumeGroupsFromDevice_adds (p : DiskCleanup) (vgNames : List Str) (device : Str) :
    ∀ log : Log, Adds (fun e => isLvmCall e = true) log
      (removeVolumeGroupsFromDevice p log vgNames device).2 := by
  induction vgNames with
  | nil => intro log; exact Adds.refl _ _
  | cons vgName rest ih =>
    intro log
    have h1 := RemoveVG_adds p log vgName
    unfold removeVolumeGroupsFromDevice
    split
    · rename_i u log1 heq
      rw [heq] at h1
      exact h1.trans (ih log1)
    · rename_i msg log1 heq
      rw [heq] at h1
      exact h1
    · rename_i log1 heq
      rw [heq] at h1
      exact h1

theorem getDiskPVs_adds (p : DiskCleanup) (log : Log) (diskName : Str) :
    Adds (fun e => isLvmCall e = true) log (getDiskPVs p log diskName).2 := by
  unfold getDiskPVs execute
  simp only
  split_ifs <;> exact Adds.one _ _ (by simp [isLvmCall])

theorem removePVsLoop_adds (p : DiskCleanup) (diskName : Str) (pvs : List Str) :
    ∀ log : Log, Adds (fun e => isLvmCall e = true) log (removePVsLoop p diskName log pvs).2 := by
  induction pvs with
  | nil => intro log; exact Adds.refl _ _
  | cons pv rest ih =>
    intro log
    have h1 := RemovePV_adds p log pv
    unfold removePVsLoop
    split
    · rename_i u log1 heq
      rw [heq] at h1
      exact h1.trans (ih log1)
    · rename_i msg log1 heq
      rw [heq] at h1
      exact h1
    · rename_i log1 heq
      rw [heq] at h1
      exact h1

theorem RemoveAllPVsOnDevice_adds (p : DiskCleanup) (log : Log) (diskName : Str) :
    Adds (fun e => isLvmCall e = true) log (RemoveAllPVsOnDevice p log diskName).2 := by
  have h1 := getDiskPVs_adds p log diskName
  unfold RemoveAllPVsOnDevice
  split
  · rename_i pvs log1 heq
    rw [heq] at h1
    exact h1.trans (removePVsLoop_adds p diskName pvs log1)
  · rename_i msg log1 heq
    rw [heq] at h1
    exact h1
  · rename_i log1 heq
    rw [heq] at h1
    exact h1

theorem cleanLVM_adds (p : DiskCleanup) (log : Log) (device : Str) :
    Adds (fun e => isLvmCall e = true) log (cleanLVM p log device).2 := by
  have h1 := GetVolumeGroupsByDisk_adds p log device
  unfold cleanLVM
  split
  · rename_i vgNames log1 heq
    rw [heq] at h1
    split_ifs
    · have h2 := removeVolumeGroupsFromDevice_adds p vgNames device log1
      split
      · rename_i u log2 heq2
        rw [heq2] at h2
        exact h1.trans (h2.trans (RemoveAllPVsOnDevice_adds p log2 device))
      · rename_i msg log2 heq2
        rw [heq2] at h2
        exact h1.trans h2
      · rename_i log2 heq2
        rw [heq2] at h2
        exact h1.trans h2
    · exact h1.trans (RemoveAllPVsOnDevice_adds p log1 device)
  · rename_i msg log1 heq
    rw [heq] at h1
    exact h1
  · rename_i log1 heq
    rw [heq] at h1
    exact h1

/-- The keys of a map. -/
theorem mapSet_keys_nodup (m : RaidMap) (key : Str) (value : List Str)
    (h : (m.map Prod.fst).Nodup) : ((mapSet m key value).map Prod.fst).Nodup ∧
      ∀ k, k ∈ (mapSet m key value).map Prod.fst → k = key ∨ k ∈ m.map Prod.fst := by
  induction m with
  | nil => simp [mapSet]
  | cons kv rest ih =>
    obtain ⟨k, v⟩ := kv
    simp only [List.map_cons, List.nodup_cons] at h
    obtain ⟨hk, hrest⟩ := h
    obtain ⟨ih1, ih2⟩ := ih hrest
    unfold mapSet
    split_ifs with hkk
    · subst hkk
      refine ⟨by simpa using ⟨by simpa using hk, hrest⟩, ?_⟩
      intro k' hk'
      simp only [List.map_cons, List.mem_cons] at hk' ⊢
      tauto
    · refine ⟨?_, ?_⟩
      · simp only [List.map_cons, List.nodup_cons]
        refine ⟨?_, ih1⟩
        intro hmem
        rcases ih2 k hmem with h' | h'
        · exact hkk h'
        · exact hk h'
      · intro k' hk'
        simp only [List.map_cons, List.mem_cons] at hk' ⊢
        rcases hk' with h' | h'
        · right; left; exact h'
        · rcases ih2 k' h' with h'' | h''
          · left; exact h''
          · right; right; exact h''

theorem raidLoop_adds (p : DiskCleanup) :
    ∀ (n : Nat) (lines : List Str) (log : Log) (result : RaidMap), lines.length ≤ n →
      Adds (fun e => isScanOrResolve e = true) log (raidLoop p lines log result).2 := by
  intro n
  induction n with
  | zero =>
    intro lines log result hlen
    have : lines = [] := List.length_eq_zero.mp (Nat.le_zero.mp hlen)
    subst this
    exact Adds.refl _ _
  | succ n ih =>
    intro lines log result hlen
    cases lines with
    | nil => exact Adds.refl _ _
    | cons line rest =>
      have hrest : rest.length ≤ n := by simpa using hlen
      unfold raidLoop
      split_ifs with hc
      · exact ih rest log result hrest
      · split
        · rename_i f0 f1 ftail hf
          have hres : Adds (fun e => isScanOrResolve e = true) log (evalSymlinks p log f1).2 :=
            Adds.one _ _ (by simp [isScanOrResolve])
          split
          · rename_i e log1 heq
            rw [heq] at hres
            exact hres
          · rename_i name log1 heq
            rw [heq] at hres
            split
            · exact hres
            · rename_i next rest2
              split_ifs with hp
              · exact hres.trans (ih _ log1 result hrest)
              · exact hres.trans (ih rest2 log1 _ (by simp at hrest; omega))
        · exact Adds.refl _ _

theorem raidLoop_keys (p : DiskCleanup) :
    ∀ (n : Nat) (lines : List Str) (log log2 : Log) (result topo : RaidMap), lines.length ≤ n →
      (result.map Prod.fst).Nodup → raidLoop p lines log result = (Outcome.ok topo, log2) →
      (topo.map Prod.fst).Nodup := by
  intro n
  induction n with
  | zero =>
    intro lines log log2 result topo hlen hnd heq
    have : lines = [] := List.length_eq_zero.mp (Nat.le_zero.mp hlen)
    subst this
    simp only [raidLoop, Prod.mk.injEq, Outcome.ok.injEq] at heq
    rw [← heq.1]
    exact hnd
  | succ n ih =>
    intro lines log log2 result topo hlen hnd heq
    cases lines with
    | nil =>
      simp only [raidLoop, Prod.mk.injEq, Outcome.ok.injEq] at heq
      rw [← heq.1]
      exact hnd
    | cons line rest =>
      have hrest : rest.length ≤ n := by simpa using hlen
      unfold raidLoop at heq
      split_ifs at heq with hc
      · exact ih rest log log2 result topo hrest hnd heq
      · split at heq
        · split at heq
          · simp at heq
          · split at heq
            · simp only [Prod.mk.injEq, Outcome.ok.injEq] at heq
              rw [← heq.1]
              exact hnd
            · rename_i next rest2
              split_ifs at heq with hp
              · exact ih _ _ log2 result topo hrest hnd heq
              · exact ih rest2 _ log2 _ topo (by simp at hrest; omega)
                  (mapSet_keys_nodup _ _ _ hnd).1 heq
        · simp at heq

theorem getRaidDevices2Members_adds (p : DiskCleanup) (log : Log) :
    Adds (fun e => isScanOrResolve e = true) log (getRaidDevices2Members p log).2 := by
  unfold getRaidDevices2Members execute
  simp only
  split_ifs
  · exact Adds.one _ _ (by simp [isScanOrResolve])
  · exact (Adds.one _ _ (by simp [isScanOrResolve])).trans (raidLoop_adds p _ _ _ _ (le_refl _))

theorem getRaidDevices2Members_keys (p : DiskCleanup) (log log2 : Log) (topo : RaidMap)
    (h : getRaidDevices2Members p log = (Outcome.ok topo, log2)) :
    (topo.map Prod.fst).Nodup := by
  unfold getRaidDevices2Members execute at h
  simp only at h
  split_ifs at h
  · simp at h
  · exact raidLoop_keys p _ _ _ _ _ _ (le_refl _) (by simp) h

theorem isStop_stopEvent (a b : Str) (r : ExecResult) :
    isStop a (stopEvent b r) = decide (b = a) := by
  simp [isStop, stopEvent]

theorem isStop_zeroEvent (a m : Str) (r : ExecResult) : isStop a (zeroEvent m r) = false := by
  simp [isStop, zeroEvent]

theorem isZero_zeroEvent (a m : Str) (r : ExecResult) :
    isZero a (zeroEvent m r) = decide (m = a) := by
  simp [isZero, zeroEvent]

theorem isZero_stopEvent (a m : Str) (r : ExecResult) : isZero m (stopEvent a r) = false := by
  simp [isZero, stopEvent]

theorem ZeroOn.widen {p : DiskCleanup} {pattern : Str} {ms ms2 : List Str} {e : Event}
    (h : ZeroOn p pattern ms e) (hsub : ∀ m ∈ ms, m ∈ ms2) : ZeroOn p pattern ms2 e := by
  obtain ⟨m, r, he, hm, hmatch⟩ := h
  exact ⟨m, r, he, hsub m hm, hmatch⟩

theorem removeLoop_stopped (p : DiskCleanup) (pattern name : Str) (members : List Str) :
    ∀ log : Log, ∃ zs : Log, (removeLoop p pattern name members true log).2 = log ++ zs ∧
      ∀ z ∈ zs, ZeroOn p pattern members z := by
  induction members with
  | nil => intro log; exact ⟨[], by simp [removeLoop], by simp⟩
  | cons m rest ih =>
    intro log
    unfold removeLoop
    split
    · exact ⟨[], by simp, by simp⟩
    · obtain ⟨zs, h1, h2⟩ := ih log
      exact ⟨zs, h1, fun z hz => (h2 z hz).widen (fun x hx => List.mem_cons_of_mem _ hx)⟩
    · rename_i hmatch
      simp only [Bool.not_true, Bool.false_eq_true, if_false, execute]
      split_ifs with hexit
      · refine ⟨[zeroEvent m _], rfl, ?_⟩
        intro z hz
        simp only [List.mem_singleton] at hz
        exact ⟨m, _, hz, List.mem_cons_self _ _, hmatch⟩
      · obtain ⟨zs, h1, h2⟩ := ih (log ++ [zeroEvent m
          (p.dependencies.Execute log "mdadm".toList ["--zero-superblock".toList, m])])
        refine ⟨zeroEvent m (p.dependencies.Execute log "mdadm".toList
          ["--zero-superblock".toList, m]) :: zs, ?_, ?_⟩
        · rw [show (Event.exec "mdadm".toList ["--zero-superblock".toList, m]
            (p.dependencies.Execute log "mdadm".toList ["--zero-superblock".toList, m])) =
            zeroEvent m (p.dependencies.Execute log "mdadm".toList
              ["--zero-superblock".toList, m]) from rfl, h1]
          simp
        · intro z hz
          rcases List.mem_cons.mp hz with h | h
          · exact ⟨m, _, h, List.mem_cons_self _ _, hmatch⟩
          · exact (h2 z h).widen (fun x hx => List.mem_cons_of_mem _ hx)

theorem Block.widenMembers {p : DiskCleanup} {pattern name : Str} {ms ms2 : List Str} {b : Log}
    (h : Block p pattern name ms b) (hsub : ∀ m ∈ ms, m ∈ ms2) : Block p pattern name ms2 b := by
  rcases h with h | ⟨r, zs, hb, hz, hzs, m, hm, hmatch⟩
  · exact Or.inl h
  · exact Or.inr ⟨r, zs, hb, hz, fun z hz' => (hzs z hz').widen hsub, m, hsub m hm, hmatch⟩

theorem removeLoop_fresh (p : DiskCleanup) (pattern name : Str) (members : List Str) :
    ∀ log : Log, ∃ b : Log, (removeLoop p pattern name members false log).2 = log ++ b ∧
      Block p pattern name members b := by
  induction members with
  | nil => intro log; exact ⟨[], by simp [removeLoop], Or.inl rfl⟩
  | cons m rest ih =>
    intro log
    unfold removeLoop
    split
    · exact ⟨[], by simp, Or.inl rfl⟩
    · obtain ⟨b, h1, h2⟩ := ih log
      exact ⟨b, h1, h2.widenMembers (fun x hx => List.mem_cons_of_mem _ hx)⟩
    · rename_i hmatch
      have hex : ∃ m' ∈ m :: rest, p.runtime.MatchString pattern m' = some true :=
        ⟨m, List.mem_cons_self _ _, hmatch⟩
      simp only [Bool.not_false, if_true, execute]
      generalize p.dependencies.Execute log "mdadm".toList ["--stop".toList, name] = r1
      by_cases hstop : r1.exitCode = 0
      · simp only [hstop, ne_eq, not_true_eq_false, if_false]
        generalize p.dependencies.Execute
          (log ++ [Event.exec "mdadm".toList ["--stop".toList, name] r1]) "mdadm".toList
          ["--zero-superblock".toList, m] = r2
        by_cases hzero : r2.exitCode = 0
        · simp only [hzero, not_true_eq_false, if_false]
          obtain ⟨zs, h1, h2⟩ := removeLoop_stopped p pattern name rest
            (log ++ [stopEvent name r1] ++ [zeroEvent m r2])
          refine ⟨stopEvent name r1 :: zeroEvent m r2 :: zs, ?_,
            Or.inr ⟨r1, _, rfl, fun _ => hstop, ?_, hex⟩⟩
          · simp only [stopEvent, zeroEvent] at h1 ⊢
            rw [h1]
            simp
          · intro z hz
            rcases List.mem_cons.mp hz with h | h
            · exact ⟨m, _, h, List.mem_cons_self _ _, hmatch⟩
            · exact (h2 z h).widen (fun x hx => List.mem_cons_of_mem _ hx)
        · simp only [hzero, not_false_eq_true, if_true]
          refine ⟨[stopEvent name r1, zeroEvent m r2], by simp [stopEvent, zeroEvent],
            Or.inr ⟨r1, _, rfl, fun _ => hstop, ?_, hex⟩⟩
          intro z hz
          simp only [List.mem_singleton] at hz
          exact ⟨m, _, hz, List.mem_cons_self _ _, hmatch⟩
      · simp only [hstop, ne_eq, not_false_eq_true, if_true]
        exact ⟨[stopEvent name r1], rfl,
          Or.inr ⟨r1, [], rfl, fun h => absurd rfl h, by simp, hex⟩⟩

theorem cleanMembershipLoop_blocks (p : DiskCleanup) (device : Str) (entries : RaidMap) :
    ∀ log : Log, ∃ added : Log, (cleanMembershipLoop p device entries log).2 = log ++ added ∧
      Blocks p (devicePattern device) entries added := by
  induction entries with
  | nil => intro log; exact ⟨[], by simp [cleanMembershipLoop], Blocks.done _⟩
  | cons entry rest ih =>
    intro log
    obtain ⟨name, members⟩ := entry
    obtain ⟨b, hb1, hb2⟩ := removeLoop_fresh p (devicePattern device) name members log
    unfold cleanMembershipLoop removeDeviceFromRaidArray
    split
    · rename_i u log1 heq
      rw [heq] at hb1
      simp only at hb1
      obtain ⟨bs, hbs1, hbs2⟩ := ih log1
      refine ⟨b ++ bs, ?_, Blocks.step _ _ _ _ _ hb2 hbs2⟩
      rw [hbs1, hb1, List.append_assoc]
    · rename_i msg log1 heq
      rw [heq] at hb1
      simp only at hb1
      refine ⟨b ++ [], ?_, Blocks.step _ _ _ _ _ hb2 (Blocks.done _)⟩
      simpa using hb1
    · rename_i log1 heq
      rw [heq] at hb1
      simp only at hb1
      refine ⟨b ++ [], ?_, Blocks.step _ _ _ _ _ hb2 (Blocks.done _)⟩
      simpa using hb1

theorem ZeroOn.isStop_false {p : DiskCleanup} {pattern : Str} {ms : List Str} {e : Event}
    (h : ZeroOn p pattern ms e) (a : Str) : isStop a e = false := by
  obtain ⟨m, r, rfl, _, _⟩ := h
  exact isStop_zeroEvent a m r

theorem Blocks_events {p : DiskCleanup} {pattern : Str} {entries : RaidMap} {added : Log}
    (h : Blocks p pattern entries added) :
    ∀ e ∈ added,
      (∃ (a : Str) (ms : List Str) (r : ExecResult), (a, ms) ∈ entries ∧ e = stopEvent a r ∧
        ∃ m ∈ ms, p.runtime.MatchString pattern m = some true) ∨
      (∃ (a : Str) (ms : List Str), (a, ms) ∈ entries ∧ ZeroOn p pattern ms e) := by
  induction h with
  | done entries => intro e he; simp at he
  | step name members rest b bs hb _ ih =>
    intro e he
    rcases List.mem_append.mp he with h | h
    · rcases hb with hb | ⟨r, zs, hb, _, hzs, hm⟩
      · rw [hb] at h; simp at h
      · rw [hb] at h
        rcases List.mem_cons.mp h with h | h
        · exact Or.inl ⟨name, members, r, List.mem_cons_self _ _, h, hm⟩
        · exact Or.inr ⟨name, members, List.mem_cons_self _ _, hzs e h⟩
    · rcases ih e h with ⟨a, ms, r, hmem, he', hm⟩ | ⟨a, ms, hmem, hz⟩
      · exact Or.inl ⟨a, ms, r, List.mem_cons_of_mem _ hmem, he', hm⟩
      · exact Or.inr ⟨a, ms, List.mem_cons_of_mem _ hmem, hz⟩

theorem Blocks_no_stop {p : DiskCleanup} {pattern : Str} {entries : RaidMap} {added : Log}
    (h : Blocks p pattern entries added) (a : Str) (ha : a ∉ entries.map Prod.fst) :
    added.filter (isStop a) = [] := by
  rw [List.filter_eq_nil_iff]
  intro e he
  rcases Blocks_events h e he with ⟨a', ms, r, hmem, rfl, _⟩ | ⟨a', ms, _, hz⟩
  · rw [isStop_stopEvent]
    simp only [decide_eq_true_eq]
    intro haa
    subst haa
    exact ha (List.mem_map.mpr ⟨(a', ms), hmem, rfl⟩)
  · simp [hz.isStop_false a]

theorem Block_stop_count {p : DiskCleanup} {pattern name : Str} {ms : List Str} {b : Log}
    (h : Block p pattern name ms b) (a : Str) :
    (b.filter (isStop a)).length ≤ 1 ∧ (a ≠ name → b.filter (isStop a) = []) := by
  rcases h with h | ⟨r, zs, hb, _, hzs, _⟩
  · subst h; simp
  · have hz : zs.filter (isStop a) = [] := by
      rw [List.filter_eq_nil_iff]
      intro z hz
      simp [(hzs z hz).isStop_false a]
    subst hb
    by_cases haa : name = a
    · subst haa
      simp [List.filter_cons, isStop_stopEvent, hz]
    · have : isStop a (stopEvent name r) = false := by
        rw [isStop_stopEvent]; simpa using haa
      simp [List.filter_cons, this, hz]

theorem Blocks_stop_count {p : DiskCleanup} {pattern : Str} {entries : RaidMap} {added : Log}
    (h : Blocks p pattern entries added) (hnd : (entries.map Prod.fst).Nodup) (a : Str) :
    (added.filter (isStop a)).length ≤ 1 := by
  induction h with
  | done entries => simp
  | step name members rest b bs hb hbs ih =>
    simp only [List.map_cons, List.nodup_cons] at hnd
    rw [List.filter_append, List.length_append]
    by_cases haa : a = name
    · subst haa
      rw [Blocks_no_stop hbs a hnd.1]
      simpa using (Block_stop_count hb a).1
    · rw [(Block_stop_count hb a).2 haa]
      simpa using ih hnd.2

/-- The guard of a zeroing call: the array it belongs to lists the member and the
pattern matches it, and the nearest stop call before it is a stop of that array that
exited zero, with only zeroing calls on members of that array in between. -/
theorem Blocks_guard {p : DiskCleanup} {pattern : Str} {entries : RaidMap} {added : Log}
    (h : Blocks p pattern entries added) :
    ∀ (pre : Log) (e : Event) (post : Log) (m : Str), added = pre ++ e :: post →
      isZero m e = true →
      ∃ (a : Str) (members : List Str), (a, members) ∈ entries ∧ m ∈ members ∧
        p.runtime.MatchString pattern m = some true ∧
        ∃ (pre1 : Log) (s : Event) (zs : Log), pre = pre1 ++ s :: zs ∧ isStop a s = true ∧
          exitedZero s = true ∧ ∀ z ∈ zs, ∃ m2 ∈ members, isZero m2 z = true := by
  induction h with
  | done entries =>
    intro pre e post m hsplit
    simp at hsplit
  | step name members rest b bs hb _ ih =>
    intro pre e post m hsplit hz
    have inRest : ∀ a', pre = b ++ a' → bs = a' ++ e :: post →
        ∃ (a : Str) (members_1 : List Str), (a, members_1) ∈ (name, members) :: rest ∧
          m ∈ members_1 ∧ p.runtime.MatchString pattern m = some true ∧
          ∃ (pre1 : Log) (s : Event) (zs : Log), pre = pre1 ++ s :: zs ∧ isStop a s = true ∧
            exitedZero s = true ∧ ∀ z ∈ zs, ∃ m2 ∈ members_1, isZero m2 z = true := by
      intro a' hpre hbs
      obtain ⟨a, ms, hmem, hm, hmatch, pre1, s, zs, hp, hs, hx, hzs⟩ := ih a' e post m hbs hz
      refine ⟨a, ms, List.mem_cons_of_mem _ hmem, hm, hmatch, b ++ pre1, s, zs, ?_, hs, hx, hzs⟩
      rw [hpre, hp, List.append_assoc]
    rcases List.append_eq_append_iff.mp hsplit with ⟨a', hpre, hbs⟩ | ⟨c', hb', hc'⟩
    · exact inRest a' hpre hbs
    · cases c' with
      | nil =>
        simp only [List.nil_append] at hc'
        simp only [List.append_nil] at hb'
        exact inRest [] (by simp [hb']) (by simp [hc'])
      | cons e' c'' =>
        simp only [List.cons_append, List.cons.injEq] at hc'
        obtain ⟨he, _⟩ := hc'
        subst he
        rcases hb with hb | ⟨r, zs0, hb, hr, hzs0, _⟩
        · rw [hb] at hb'
          simp at hb'
        · rw [hb] at hb'
          cases pre with
          | nil =>
            simp only [List.nil_append, List.cons.injEq] at hb'
            rw [← hb'.1, isZero_stopEvent] at hz
            simp at hz
          | cons x pre' =>
            simp only [List.cons_append, List.cons.injEq] at hb'
            obtain ⟨hx, hzs⟩ := hb'
            have hemem : e ∈ zs0 := by rw [hzs]; simp
            obtain ⟨m0, r0, he0, hm0, hmatch0⟩ := hzs0 e hemem
            have hmm : m0 = m := by
              rw [he0, isZero_zeroEvent] at hz
              simpa using hz
            subst hmm
            have hne : zs0 ≠ [] := List.ne_nil_of_mem hemem
            refine ⟨name, members, List.mem_cons_self _ _, hm0, hmatch0, [], x, pre', rfl, ?_, ?_, ?_⟩
            · rw [← hx, isStop_stopEvent]; simp
            · rw [← hx]; simp [exitedZero, stopEvent, hr hne]
            · intro z hzmem
              have hz0 : z ∈ zs0 := by rw [hzs]; simp [hzmem]
              obtain ⟨m2, r2, hz2, hm2, _⟩ := hzs0 z hz0
              exact ⟨m2, hm2, by rw [hz2, isZero_zeroEvent]; simp⟩

/-- An array none of whose members matches is not touched: no stop of it, and no
zeroing of one of its members. -/
theorem Blocks_unmatched {p : DiskCleanup} {pattern : Str} {entries : RaidMap} {added : Log}
    (h : Blocks p pattern entries added) (hnd : (entries.map Prod.fst).Nodup)
    (a : Str) (members : List Str) (hmem : (a, members) ∈ entries)
    (hno : ∀ m ∈ members, p.runtime.MatchString pattern m ≠ some true) :
    ∀ e ∈ added, isStop a e = false ∧ ∀ m ∈ members, isZero m e = false := by
  intro e he
  rcases Blocks_events h e he with ⟨a', ms, r, hmem', rfl, m, hm, hmatch⟩ | ⟨a', ms, _, hz⟩
  · refine ⟨?_, fun m' _ => isZero_stopEvent a' m' r⟩
    rw [isStop_stopEvent]
    simp only [decide_eq_false_iff_not]
    intro haa
    subst haa
    have hms : ms = members := by
      have := List.inj_on_of_nodup_map hnd hmem' hmem rfl
      exact (Prod.mk.inj this).2
    subst hms
    exact hno m hm hmatch
  · refine ⟨hz.isStop_false a, ?_⟩
    obtain ⟨m0, r0, rfl, _, hmatch0⟩ := hz
    intro m hm
    rw [isZero_zeroEvent]
    simp only [decide_eq_false_iff_not]
    intro hmm
    subst hmm
    exact hno m0 hm hmatch0

theorem isScanOrResolve_notRaidTeardown (e : Event) (h : isScanOrResolve e = true) :
    notRaidTeardown e := by
  intro x
  cases e with
  | exec command args r =>
    simp only [isScanOrResolve, decide_eq_true_eq] at h
    obtain ⟨hc, ha⟩ := h
    subst hc ha
    simp [isStop, isZero]
  | resolve path r => simp [isStop, isZero]

theorem isLvmCall_notRaidTeardown (e : Event) (h : isLvmCall e = true) : notRaidTeardown e := by
  intro x
  cases e with
  | exec command args r =>
    simp only [isLvmCall, decide_eq_true_eq] at h
    rcases h with h | h | h | h <;> subst h <;> simp [isStop, isZero]
  | resolve path r => simp [isStop, isZero]

theorem isWipefsCall_notRaidTeardown (e : Event) (h : isWipefsCall e = true) :
    notRaidTeardown e := by
  intro x
  cases e with
  | exec command args r =>
    simp only [isWipefsCall, decide_eq_true_eq] at h
    subst h
    simp [isStop, isZero]
  | resolve path r => simp [isStop, isZero]

/-- C3. In what `CleanRaidMembership` adds to the log, whatever the device, the scan
output and the answers of the commands: every array gets at most one `mdadm --stop`
call; every `mdadm --zero-superblock` call is on a member of an array of the topology
read, and the nearest stop call before it is a stop of that array that exited zero,
with only zeroing calls on members of that array in between; an array of the topology
without a matching member gets no stop call and none of its members is zeroed. -/
theorem CleanRaidMembership_stop_before_zero (p : DiskCleanup) (log : Log) (device : Str) :
    ∃ added : Log, (CleanRaidMembership p log device).2 = log ++ added ∧
      (∀ a : Str, (added.filter (isStop a)).length ≤ 1) ∧
      (∀ (pre : Log) (e : Event) (post : Log) (m : Str), added = pre ++ e :: post →
        isZero m e = true →
        ∃ (topo : RaidMap) (log1 : Log) (a : Str) (members : List Str),
          getRaidDevices2Members p log = (Outcome.ok topo, log1) ∧ (a, members) ∈ topo ∧
          m ∈ members ∧
          ∃ (pre1 : Log) (s : Event) (zs : Log), pre = pre1 ++ s :: zs ∧ isStop a s = true ∧
            exitedZero s = true ∧ ∀ z ∈ zs, ∃ m2 ∈ members, isZero m2 z = true) ∧
      (∀ (topo : RaidMap) (log1 : Log) (a : Str) (members : List Str),
        getRaidDevices2Members p log = (Outcome.ok topo, log1) → (a, members) ∈ topo →
        (∀ m ∈ members, p.runtime.MatchString (devicePattern device) m ≠ some true) →
        ∀ e ∈ added, isStop a e = false ∧ ∀ m ∈ members, isZero m e = false) := by
  obtain ⟨scan, hscan, hscanQ⟩ := getRaidDevices2Members_adds p log
  have hscanNot : ∀ e ∈ scan, notRaidTeardown e :=
    fun e he => isScanOrResolve_notRaidTeardown e (hscanQ e he)
  have hfilter : ∀ a : Str, scan.filter (isStop a) = [] := by
    intro a
    rw [List.filter_eq_nil_iff]
    intro e he
    simp [(hscanNot e he a).1]
  have houtside : ∀ (pre : Log) (e : Event) (post : Log) (m : Str),
      scan = pre ++ e :: post → isZero m e = true → False := by
    intro pre e post m hsplit hz
    have he : e ∈ scan := by rw [hsplit]; simp
    rw [(hscanNot e he m).2] at hz
    exact Bool.false_ne_true hz
  rcases hq : getRaidDevices2Members p log with ⟨out, log1⟩
  rw [hq] at hscan
  simp only at hscan
  cases out with
  | ok topo =>
    have hnd : ((p.runtime.rangeOrder log1 topo).map Prod.fst).Nodup :=
      ((p.runtime.rangeOrder_perm log1 topo).map Prod.fst).nodup_iff.mpr
        (getRaidDevices2Members_keys p log log1 topo hq)
    have hmemIff : ∀ x, x ∈ p.runtime.rangeOrder log1 topo ↔ x ∈ topo :=
      fun x => (p.runtime.rangeOrder_perm log1 topo).mem_iff
    obtain ⟨blocks, hb1, hb2⟩ :=
      cleanMembershipLoop_blocks p device (p.runtime.rangeOrder log1 topo) log1
    refine ⟨scan ++ blocks, ?_, ?_, ?_, ?_⟩
    · simp only [CleanRaidMembership, hq]
      rw [hb1, hscan, List.append_assoc]
    · intro a
      rw [List.filter_append, hfilter a]
      simpa using Blocks_stop_count hb2 hnd a
    · intro pre e post m hsplit hz
      have inBlocks : ∀ a', pre = scan ++ a' → blocks = a' ++ e :: post →
          ∃ (topo_1 : RaidMap) (log1_1 : Log) (a : Str) (members : List Str),
            (Outcome.ok topo, log1) = (Outcome.ok topo_1, log1_1) ∧ (a, members) ∈ topo_1 ∧
            m ∈ members ∧
            ∃ (pre1 : Log) (s : Event) (zs : Log), pre = pre1 ++ s :: zs ∧ isStop a s = true ∧
              exitedZero s = true ∧ ∀ z ∈ zs, ∃ m2 ∈ members, isZero m2 z = true := by
        intro a' hpre hbs
        obtain ⟨a, ms, hmem, hm, _, pre1, s, zs, hp, hs, hx, hzs⟩ :=
          Blocks_guard hb2 a' e post m hbs hz
        refine ⟨topo, log1, a, ms, rfl, (hmemIff _).mp hmem, hm, scan ++ pre1, s, zs, ?_, hs, hx, hzs⟩
        rw [hpre, hp, List.append_assoc]
      rcases List.append_eq_append_iff.mp hsplit with ⟨a', hpre, hbs⟩ | ⟨c', hs', hc'⟩
      · exact inBlocks a' hpre hbs
      · cases c' with
        | nil =>
          simp only [List.nil_append] at hc'
          simp only [List.append_nil] at hs'
          exact inBlocks [] (by simp [hs']) (by simp [hc'])
        | cons e' c'' =>
          simp only [List.cons_append, List.cons.injEq] at hc'
          obtain ⟨he, _⟩ := hc'
          subst he
          exact (houtside pre e c'' m hs' hz).elim
    · intro topo2 log2 a members heq hmem hno e he
      simp only [Prod.mk.injEq, Outcome.ok.injEq] at heq
      obtain ⟨ht, _⟩ := heq
      subst ht
      rcases List.mem_append.mp he with h | h
      · exact ⟨(hscanNot e h a).1, fun m _ => (hscanNot e h m).2⟩
      · exact Blocks_unmatched hb2 hnd a members ((hmemIff _).mpr hmem) hno e h
  | error msg =>
    refine ⟨scan, ?_, ?_, ?_, ?_⟩
    · simp only [CleanRaidMembership, hq]
      exact hscan
    · intro a
      simp [hfilter a]
    · intro pre e post m hsplit hz
      exact (houtside pre e post m hsplit hz).elim
    · intro topo2 log2 a members heq
      simp at heq
  | panic =>
    refine ⟨scan, ?_, ?_, ?_, ?_⟩
    · simp only [CleanRaidMembership, hq]
      exact hscan
    · intro a
      simp [hfilter a]
    · intro pre e post m hsplit hz
      exact (houtside pre e post m hsplit hz).elim
    · intro topo2 log2 a members heq
      simp at heq

theorem Adds.start {Q : Event → Prop} {l1 l2 : Log} (h : Adds Q l1 l2) : l1 <+: l2 := by
  obtain ⟨a, rfl, _⟩ := h
  exact List.prefix_append _ _

theorem IsRaidMember_adds (p : DiskCleanup) (log : Log) (device : Str) :
    Adds (fun e => isScanOrResolve e = true) log (IsRaidMember p log device).2 := by
  have h := getRaidDevices2Members_adds p log
  unfold IsRaidMember
  split <;> rename_i heq <;> rw [heq] at h <;> exact h

theorem GetRaidDevices_adds (p : DiskCleanup) (log : Log) (device : Str) :
    Adds (fun e => isScanOrResolve e = true) log (GetRaidDevices p log device).2 := by
  have h := getRaidDevices2Members_adds p log
  unfold GetRaidDevices
  split <;> rename_i heq <;> rw [heq] at h <;> exact h

theorem CleanRaidMembership_prefix (p : DiskCleanup) (log : Log) (device : Str) :
    log <+: (CleanRaidMembership p log device).2 := by
  have h := (getRaidDevices2Members_adds p log).start
  unfold CleanRaidMembership
  split
  · rename_i topo log1 heq
    rw [heq] at h
    obtain ⟨added, h1, _⟩ := cleanMembershipLoop_blocks p device (p.runtime.rangeOrder log1 topo) log1
    rw [h1]
    exact h.trans (List.prefix_append _ _)
  · rename_i heq; rw [heq] at h; exact h
  · rename_i heq; rw [heq] at h; exact h

theorem cleanRaidDevicesLoop_adds (p : DiskCleanup) (raidDevices : List Str) :
    ∀ log : Log, Adds (fun e => isLvmCall e = true) log (cleanRaidDevicesLoop p raidDevices log).2 := by
  induction raidDevices with
  | nil => intro log; exact Adds.refl _ _
  | cons x rest ih =>
    intro log
    have h1 := cleanLVM_adds p log x
    unfold cleanRaidDevicesLoop
    split
    · rename_i u log1 heq
      rw [heq] at h1
      exact h1.trans (ih log1)
    · rename_i heq; rw [heq] at h1; exact h1
    · rename_i heq; rw [heq] at h1; exact h1

theorem cleanRaidDevicesLoop_ran (p : DiskCleanup) (raidDevices : List Str) :
    ∀ (log log2 : Log), cleanRaidDevicesLoop p raidDevices log = (Outcome.ok (), log2) →
      ∀ x ∈ raidDevices, RanCleanLVM p x log2 := by
  induction raidDevices with
  | nil => intro log log2 _ x hx; simp at hx
  | cons y rest ih =>
    intro log log2 h x hx
    unfold cleanRaidDevicesLoop at h
    split at h
    · rename_i u log1 heq
      rcases List.mem_cons.mp hx with hxy | hxr
      · subst hxy
        have hpre : log1 <+: log2 := by
          have := (cleanRaidDevicesLoop_adds p rest log1).start
          rw [h] at this
          exact this
        exact ⟨log, log1, heq, hpre⟩
      · exact ih log1 log2 h x hxr
    · simp at h
    · simp at h

/-- In a log `a ++ rest`, an event with a property that no event of `a` has comes after
the whole of `a`. -/
theorem prefix_of_split {Q : Event → Prop} (a rest pre : Log) (s : Event) (post : Log)
    (hsplit : a ++ rest = pre ++ s :: post) (ha : ∀ e ∈ a, ¬ Q e) (hs : Q s) : a <+: pre := by
  rcases List.append_eq_append_iff.mp hsplit with ⟨a', hpre, _⟩ | ⟨c', ha', hc'⟩
  · exact ⟨a', hpre.symm⟩
  · cases c' with
    | nil => simp only [List.append_nil] at ha'; rw [ha']
    | cons e c'' =>
      simp only [List.cons_append, List.cons.injEq] at hc'
      have hmem : s ∈ a := by rw [ha', hc'.1]; simp
      exact (ha s hmem hs).elim

theorem getRaidDevicesLoop_mem (p : DiskCleanup) (pattern : Str) (entries : RaidMap) :
    ∀ (acc res : List Str), getRaidDevicesLoop p pattern entries acc = Outcome.ok res →
      ∀ a : Str, a ∈ res ↔ a ∈ acc ∨
        ∃ ms : List Str, (a, ms) ∈ entries ∧ matchesSome p pattern ms = Outcome.ok true := by
  induction entries with
  | nil =>
    intro acc res h a
    simp only [getRaidDevicesLoop, Outcome.ok.injEq] at h
    subst h
    simp
  | cons entry rest ih =>
    intro acc res h a
    obtain ⟨name, members⟩ := entry
    unfold getRaidDevicesLoop at h
    split at h
    · rename_i hm
      rw [ih _ _ h a]
      simp only [List.mem_append, List.mem_singleton, List.mem_cons, Prod.mk.injEq,
        List.not_mem_nil, or_false]
      constructor
      · rintro ((h1 | h1) | ⟨ms, h1, h2⟩)
        · exact Or.inl h1
        · exact Or.inr ⟨members, Or.inl ⟨h1, rfl⟩, hm⟩
        · exact Or.inr ⟨ms, Or.inr h1, h2⟩
      · rintro (h1 | ⟨ms, (⟨h1, h3⟩ | h1), h2⟩)
        · exact Or.inl (Or.inl h1)
        · exact Or.inl (Or.inr h1)
        · exact Or.inr ⟨ms, h1, h2⟩
    · rename_i hm
      rw [ih _ _ h a]
      simp only [List.mem_cons, Prod.mk.injEq]
      constructor
      · rintro (h1 | ⟨ms, h1, h2⟩)
        · exact Or.inl h1
        · exact Or.inr ⟨ms, Or.inr h1, h2⟩
      · rintro (h1 | ⟨ms, (⟨_, h3⟩ | h1), h2⟩)
        · exact Or.inl h1
        · subst h3
          rw [hm] at h2
          simp at h2
        · exact Or.inr ⟨ms, h1, h2⟩
    · simp at h
    · simp at h

/-- C2, amended. When the resolved target is found to be a RAID member, `cleanLVM` has
run to the end on the resolved target and on the device path of every array that
`GetRaidDevices` returned before any `mdadm --stop` call of the cleanup; these arrays
are the arrays of the topology with a member that the pattern of the target matches. -/
theorem cleanupInstallDevice_cleans_raid_devices (p : DiskCleanup) (log : Log)
    (device realDevicePath : Str) (log1 log2 log3 : Log) (raidDevices : List Str)
    (hdry : p.subprocessConfig.DryRunEnabled = false)
    (hres : p.runtime.EvalSymlinks log device = Except.ok realDevicePath)
    (hlvm : cleanLVM p (log ++ [Event.resolve device (Except.ok realDevicePath)])
      realDevicePath = (Outcome.ok (), log1))
    (hmember : IsRaidMember p log1 realDevicePath = (Outcome.ok true, log2))
    (hraid : GetRaidDevices p log2 realDevicePath = (Outcome.ok raidDevices, log3)) :
    (∀ (pre : Log) (s : Event) (post : Log) (a : Str),
      (cleanupInstallDevice p log device).2 = log ++ pre ++ s :: post → isStop a s = true →
      ∀ x : Str, x = realDevicePath ∨ x ∈ raidDevices → RanCleanLVM p x (log ++ pre)) ∧
    (∀ topo : RaidMap, getRaidDevices2Members p log2 = (Outcome.ok topo, log3) →
      ∀ a : Str, a ∈ raidDevices ↔
        ∃ ms : List Str, (a, ms) ∈ topo ∧
          matchesSome p (devicePattern realDevicePath) ms = Outcome.ok true) := by
  constructor
  · intro pre s post a hfinal hstop x hx
    -- what the steps before the loop add to the log
    have h0 : Adds notRaidTeardown log (log ++ [Event.resolve device (Except.ok realDevicePath)]) :=
      Adds.one _ _ (isScanOrResolve_notRaidTeardown _ (by simp [isScanOrResolve]))
    have h1 : Adds notRaidTeardown (log ++ [Event.resolve device (Except.ok realDevicePath)]) log1 := by
      have := cleanLVM_adds p (log ++ [Event.resolve device (Except.ok realDevicePath)]) realDevicePath
      rw [hlvm] at this
      exact this.mono isLvmCall_notRaidTeardown
    have h2 : Adds notRaidTeardown log1 log2 := by
      have := IsRaidMember_adds p log1 realDevicePath
      rw [hmember] at this
      exact this.mono isScanOrResolve_notRaidTeardown
    have h3 : Adds notRaidTeardown log2 log3 := by
      have := GetRaidDevices_adds p log2 realDevicePath
      rw [hraid] at this
      exact this.mono isScanOrResolve_notRaidTeardown
    have h4 : Adds notRaidTeardown log3 (cleanRaidDevicesLoop p raidDevices log3).2 :=
      (cleanRaidDevicesLoop_adds p raidDevices log3).mono isLvmCall_notRaidTeardown
    have hnot : ∀ e, notRaidTeardown e → ¬ (isStop a e = true) := by
      intro e he hst
      rw [(he a).1] at hst
      exact Bool.false_ne_true hst
    have hfin : cleanupInstallDevice p log device =
        (match cleanRaidDevicesLoop p raidDevices log3 with
         | (Outcome.ok _, log4) =>
           (match CleanRaidMembership p log4 realDevicePath with
            | (Outcome.ok _, log5) => Wipefs p log5 realDevicePath
            | (Outcome.error msg, log5) => (Outcome.error msg, log5)
            | (Outcome.panic, log5) => (Outcome.panic, log5))
         | (Outcome.error msg, log4) => (Outcome.error msg, log4)
         | (Outcome.panic, log4) => (Outcome.panic, log4)) := by
      simp only [cleanupInstallDevice, hdry, evalSymlinks, hres, hlvm, hmember, raidMemberPath,
        hraid, Bool.false_eq_true, if_false]
      rcases cleanRaidDevicesLoop p raidDevices log3 with ⟨o, log4⟩
      cases o <;> simp only
    rcases hloop : cleanRaidDevicesLoop p raidDevices log3 with ⟨o, log4⟩
    rw [hloop] at h4
    simp only at h4
    have hall : Adds notRaidTeardown log log4 := h0.trans (h1.trans (h2.trans (h3.trans h4)))
    obtain ⟨add4, hadd4, hq4⟩ := hall
    rw [hfin, hloop] at hfinal
    cases o with
    | ok u =>
      simp only at hfinal
      have hext : log4 <+: (match CleanRaidMembership p log4 realDevicePath with
            | (Outcome.ok _, log5) => Wipefs p log5 realDevicePath
            | (Outcome.error msg, log5) => (Outcome.error msg, log5)
            | (Outcome.panic, log5) => (Outcome.panic, log5)).2 := by
        have hc := CleanRaidMembership_prefix p log4 realDevicePath
        revert hc
        rcases CleanRaidMembership p log4 realDevicePath with ⟨o2, log5⟩
        intro hc
        cases o2 with
        | ok u2 => exact hc.trans (Wipefs_adds p log5 realDevicePath).start
        | error msg => exact hc
        | panic => exact hc
      obtain ⟨rest, hrest⟩ := hext
      rw [← hrest, hadd4] at hfinal
      simp only [List.append_assoc] at hfinal
      have hsplit := List.append_cancel_left hfinal
      have hpre : add4 <+: pre :=
        @prefix_of_split (fun e => isStop a e = true) add4 rest pre s post hsplit
          (fun e he => hnot e (hq4 e he)) hstop
      have hlog4 : log4 <+: log ++ pre := by
        rw [hadd4]
        exact (List.prefix_append_right_inj log).mpr hpre
      rcases hx with hx | hx
      · subst hx
        exact ⟨_, log1, hlvm, ((h2.trans (h3.trans h4)).start).trans hlog4⟩
      · obtain ⟨hb, ha, hrun, hha⟩ := cleanRaidDevicesLoop_ran p raidDevices log3 log4 hloop x hx
        exact ⟨hb, ha, hrun, hha.trans hlog4⟩
    | error msg =>
      simp only at hfinal
      rw [hadd4, List.append_assoc] at hfinal
      have hsplit := List.append_cancel_left hfinal
      have hmem : s ∈ add4 := by rw [hsplit]; simp
      exact (hnot s (hq4 s hmem) hstop).elim
    | panic =>
      simp only at hfinal
      rw [hadd4, List.append_assoc] at hfinal
      have hsplit := List.append_cancel_left hfinal
      have hmem : s ∈ add4 := by rw [hsplit]; simp
      exact (hnot s (hq4 s hmem) hstop).elim
  · intro topo hq a
    simp only [GetRaidDevices, hq, Prod.mk.injEq] at hraid
    rw [getRaidDevicesLoop_mem p _ _ [] raidDevices hraid.1 a]
    simp only [List.not_mem_nil, false_or]
    constructor
    · rintro ⟨ms, h1, h2⟩
      exact ⟨ms, (p.runtime.rangeOrder_perm log3 topo).mem_iff.mp h1, h2⟩
    · rintro ⟨ms, h1, h2⟩
      exact ⟨ms, (p.runtime.rangeOrder_perm log3 topo).mem_iff.mpr h1, h2⟩

/-- In `raidWorld` the LVM clean of `/dev/sda2` removes `vg1`, from whatever log. -/
theorem cleanLVM_raidWorld_sda2 (hb : Log) :
    cleanLVM raidWorld hb "/dev/sda2".toList =
      (Outcome.ok (), hb ++ [Event.exec vgsCall.1 vgsCall.2 (okOut "  vg1 /dev/sda2\n")] ++
        [Event.exec "vgremove".toList ["vg1".toList, "-y".toList] (okOut "")] ++
        [Event.exec pvsCall.1 pvsCall.2 (okOut "")]) := by
  rfl

/-- Witness of C2, amended: in `raidWorld` the stop of `/dev/md0` is the twelfth event of
the cleanup of `/dev/sda1`, and complete runs of `cleanLVM` on `/dev/sda1` and on the
array device `/dev/md0` lie before it. -/
theorem cleanupInstallDevice_cleans_raid_devices_witness :
    (cleanupInstallDevice raidWorld [] "/dev/sda1".toList).2 =
      [] ++ raidWorldLog.take 11 ++ stopEvent "/dev/md0".toList (okOut "") ::
        raidWorldLog.drop 12 ∧
    RanCleanLVM raidWorld "/dev/sda1".toList ([] ++ raidWorldLog.take 11) ∧
    RanCleanLVM raidWorld "/dev/md0".toList ([] ++ raidWorldLog.take 11) :=
  have h := cleanupInstallDevice_cleans_raid_devices raidWorld [] "/dev/sda1".toList
    "/dev/sda1".toList (raidWorldLog.take 3) (raidWorldLog.take 5) (raidWorldLog.take 7)
    ["/dev/md0".toList] (by decide) (by decide) (by decide) (by decide) (by decide)
  ⟨by decide,
   h.1 (raidWorldLog.take 11) (stopEvent "/dev/md0".toList (okOut "")) (raidWorldLog.drop 12)
     "/dev/md0".toList (by decide) (by decide) "/dev/sda1".toList (Or.inl rfl),
   h.1 (raidWorldLog.take 11) (stopEvent "/dev/md0".toList (okOut "")) (raidWorldLog.drop 12)
     "/dev/md0".toList (by decide) (by decide) "/dev/md0".toList (Or.inr (by decide))⟩

/-- Counterexample to C2 as stated: in `raidWorld` the target `/dev/sda1` is a member of
`/dev/md0` together with `/dev/sda2`, the cleanup succeeds and stops `/dev/md0`, and its
`Execute` calls are the ten listed: the two LVM cleans are those of `/dev/sda1` and of
`/dev/md0`. No run of `cleanLVM` on the member `/dev/sda2` lies before the stop: such a
run calls `vgremove vg1 -y`, which the cleanup never does. -/
theorem cleanupInstallDevice_skips_raid_members :
    (getRaidDevices2Members raidWorld []).1 =
      Outcome.ok [("/dev/md0".toList, ["/dev/sda1".toList, "/dev/sda2".toList])] ∧
    (IsRaidMember raidWorld [] "/dev/sda1".toList).1 = Outcome.ok true ∧
    (cleanupInstallDevice raidWorld [] "/dev/sda1".toList).1 = Outcome.ok () ∧
    execCalls (cleanupInstallDevice raidWorld [] "/dev/sda1".toList).2 =
      [vgsCall, pvsCall, scanCall, scanCall, vgsCall, pvsCall, scanCall,
       ("mdadm".toList, ["--stop".toList, "/dev/md0".toList]),
       ("mdadm".toList, ["--zero-superblock".toList, "/dev/sda1".toList]),
       ("wipefs".toList, ["--all".toList, "--force".toList, "/dev/sda1".toList])] ∧
    (cleanupInstallDevice raidWorld [] "/dev/sda1".toList).2 =
      raidWorldLog.take 11 ++ stopEvent "/dev/md0".toList (okOut "") ::
        raidWorldLog.drop 12 ∧
    ¬ RanCleanLVM raidWorld "/dev/sda2".toList (raidWorldLog.take 11) := by
  refine ⟨by decide, by decide, by decide, by decide, by decide, ?_⟩
  rintro ⟨hb, ha, hrun, hpre⟩
  rw [cleanLVM_raidWorld_sda2 hb] at hrun
  simp only [Prod.mk.injEq, true_and] at hrun
  have hmem : Event.exec "vgremove".toList ["vg1".toList, "-y".toList] (okOut "") ∈
      raidWorldLog.take 11 := by
    apply hpre.subset
    rw [← hrun]
    simp
  revert hmem
  decide

theorem hasPrefix_iff (s d : Str) : hasPrefix s d = true ↔ d <+: s := by
  induction d generalizing s with
  | nil => simp [hasPrefix]
  | cons c d ih =>
    cases s with
    | nil => simp [hasPrefix]
    | cons x xs =>
      simp only [hasPrefix, Bool.and_eq_true, beq_iff_eq, ih, List.cons_prefix_cons]
      constructor
      · rintro ⟨h1, h2⟩; exact ⟨h1.symm, h2⟩
      · rintro ⟨h1, h2⟩; exact ⟨h1.symm, h2⟩

theorem contains_iff (s d : Str) : contains s d = true ↔ d <:+: s := by
  induction s with
  | nil =>
    simp only [contains, hasPrefix_iff, List.prefix_nil, List.infix_nil]
  | cons x xs ih =>
    simp only [contains, Bool.or_eq_true, hasPrefix_iff, ih, List.infix_cons_iff]

theorem starThen_const_true (s : Str) : starThen (fun _ => true) s = true := by
  cases s <;> simp [starThen]

theorem matchHere_nil : matchHere [] = fun _ => true := by
  funext s
  simp [matchHere]

theorem isDigit_not_isMeta (c : Char) (h : isDigit c = true) : isMeta c = false := by
  by_contra hm
  rw [Bool.not_eq_false] at hm
  simp only [isMeta, List.contains_eq_any_beq, List.any_eq_true, beq_iff_eq] at hm
  obtain ⟨x, hx, hxc⟩ := hm
  have hall : ∀ y ∈ "\\.+*?()|[]{}^$".toList, isDigit y = false := by decide
  rw [← hxc] at hx
  rw [hall c hx] at h
  exact Bool.false_ne_true h

theorem parsePattern_device (d : Str) (h : metaFree d = true) :
    parsePattern (devicePattern d) = some (d.map Item.lit ++ [Item.digits]) := by
  induction d with
  | nil => decide
  | cons c d ih =>
    simp only [metaFree, List.all_cons, Bool.and_eq_true, Bool.not_eq_true'] at h
    have ih' := ih (by simpa [metaFree] using h.2)
    simp only [devicePattern] at ih' ⊢
    rw [List.cons_append]
    unfold parsePattern
    simp only [h.1, Bool.false_eq_true, if_false, ih', List.map_cons, List.cons_append]

theorem matchHere_device (d s : Str) :
    matchHere (d.map Item.lit ++ [Item.digits]) s = hasPrefix s d := by
  induction d generalizing s with
  | nil =>
    simp only [List.map_nil, List.nil_append, matchHere, matchHere_nil, starThen_const_true]
    cases s <;> simp [hasPrefix]
  | cons c d ih =>
    cases s with
    | nil => simp [matchHere, hasPrefix]
    | cons x xs => simp [matchHere, hasPrefix, ih]

theorem matchAnywhere_device (d s : Str) :
    matchAnywhere (d.map Item.lit ++ [Item.digits]) s = contains s d := by
  induction s with
  | nil => simp [matchAnywhere, contains, matchHere_device]
  | cons x xs ih => simp [matchAnywhere, contains, matchHere_device, ih]

/-- On a path without metacharacters the pattern of the engine matches exactly the
strings that contain the path: the match is not anchored and `[\d]*` may be empty. -/
theorem fragmentMatchString_device (d s : Str) (h : metaFree d = true) :
    fragmentMatchString (devicePattern d) s = some (contains s d) := by
  simp only [fragmentMatchString, parsePattern_device d h, matchAnywhere_device]

theorem matchesSome_eq (p : DiskCleanup) (pattern : Str) (f : Str → Bool)
    (hf : ∀ s, p.runtime.MatchString pattern s = some (f s)) (ms : List Str) :
    matchesSome p pattern ms = Outcome.ok (ms.any f) := by
  induction ms with
  | nil => simp [matchesSome]
  | cons m rest ih =>
    unfold matchesSome
    rw [hf m]
    cases hfm : f m <;> simp [ih, hfm]

theorem isRaidMemberLoop_eq (p : DiskCleanup) (pattern : Str) (f : Str → Bool)
    (hf : ∀ s, p.runtime.MatchString pattern s = some (f s)) (entries : RaidMap) :
    isRaidMemberLoop p pattern entries = Outcome.ok (entries.any (fun e => e.2.any f)) := by
  induction entries with
  | nil => simp [isRaidMemberLoop]
  | cons e rest ih =>
    obtain ⟨a, ms⟩ := e
    unfold isRaidMemberLoop
    rw [matchesSome_eq p pattern f hf ms]
    cases hfm : ms.any f <;> simp [ih, hfm]

/-- What `IsRaidMember` computes on a path without metacharacters: whether some member
of some array of the topology contains the path. -/
theorem IsRaidMember_eq (p : DiskCleanup) (log log1 : Log) (d : Str) (topo : RaidMap)
    (hmeta : metaFree d = true) (hre : RegexpOnDevice p d)
    (hq : getRaidDevices2Members p log = (Outcome.ok topo, log1)) :
    IsRaidMember p log d =
      (Outcome.ok (topo.any (fun e => e.2.any (fun m => contains m d))), log1) := by
  have hf : ∀ s, p.runtime.MatchString (devicePattern d) s = some (contains s d) := by
    intro s
    rw [hre s, fragmentMatchString_device d s hmeta]
  simp only [IsRaidMember, hq, isRaidMemberLoop_eq p _ _ hf, Prod.mk.injEq, Outcome.ok.injEq,
    and_true]
  rw [Bool.eq_iff_iff]
  simp only [List.any_eq_true]
  constructor
  · rintro ⟨e, he, h⟩
    exact ⟨e, (p.runtime.rangeOrder_perm log1 topo).mem_iff.mp he, h⟩
  · rintro ⟨e, he, h⟩
    exact ⟨e, (p.runtime.rangeOrder_perm log1 topo).mem_iff.mpr he, h⟩

theorem plainRuntime_regexp (dry : Bool) (table : List (Str × List Str × ExecResult))
    (fallback : ExecResult) (d : Str) : RegexpOnDevice (engine dry table fallback) d :=
  fun _ => rfl

/-- C5, the code at the failing input: in `sdabWorld` the only member of the only array is
`/dev/sdab`, which is neither `/dev/sda` nor `/dev/sd` followed by digits, and
`IsRaidMember` answers `true` for both paths. -/
theorem IsRaidMember_matches_inside_member :
    (getRaidDevices2Members sdabWorld []).1 =
      Outcome.ok [("/dev/md0".toList, ["/dev/sdab".toList])] ∧
    metaFree "/dev/sda".toList = true ∧
    ¬ DeviceThenDigits "/dev/sda".toList "/dev/sdab".toList ∧
    ¬ DeviceThenDigits "/dev/sd".toList "/dev/sdab".toList ∧
    (IsRaidMember sdabWorld [] "/dev/sda".toList).1 = Outcome.ok true ∧
    (IsRaidMember sdabWorld [] "/dev/sd".toList).1 = Outcome.ok true := by
  refine ⟨by decide, by decide, ?_, ?_, by decide, by decide⟩
  · rintro ⟨ds, hd, heq⟩
    have hds : ds = ['b'] := by
      have h := heq
      simp only [String.toList] at h
      exact (@List.append_cancel_left _ "/dev/sda".toList _ _ h.symm)
    subst hds
    exact absurd (hd 'b' (by simp)) (by decide)
  · rintro ⟨ds, hd, heq⟩
    have hds : ds = ['a', 'b'] := by
      have h := heq
      simp only [String.toList] at h
      exact (@List.append_cancel_left _ "/dev/sd".toList _ _ h.symm)
    subst hds
    exact absurd (hd 'a' (by simp)) (by decide)

/-- C6. On a path `d` without metacharacters, when the scan succeeds and some array of
the topology lists a member that is `d` followed by zero or more decimal digits,
`IsRaidMember` returns `true`. -/
theorem IsRaidMember_device_then_digits (p : DiskCleanup) (log log1 : Log) (d : Str)
    (topo : RaidMap) (hmeta : metaFree d = true) (hre : RegexpOnDevice p d)
    (hq : getRaidDevices2Members p log = (Outcome.ok topo, log1))
    (hmem : ∃ (a : Str) (ms : List Str) (m : Str), (a, ms) ∈ topo ∧ m ∈ ms ∧
      DeviceThenDigits d m) :
    IsRaidMember p log d = (Outcome.ok true, log1) := by
  rw [IsRaidMember_eq p log log1 d topo hmeta hre hq]
  obtain ⟨a, ms, m, hin, hm, ds, _, hds⟩ := hmem
  have hany : (topo.any fun e => e.2.any fun m => contains m d) = true := by
    rw [List.any_eq_true]
    refine ⟨(a, ms), hin, ?_⟩
    rw [List.any_eq_true]
    refine ⟨m, hm, ?_⟩
    rw [contains_iff, hds]
    exact (List.prefix_append d ds).isInfix
  rw [hany]

/-- Witness of C6: in `raidWorld` the array `/dev/md0` lists `/dev/sda1`, which is
`/dev/sda` followed by the digit `1`, and `IsRaidMember` answers `true` for `/dev/sda`. -/
theorem IsRaidMember_device_then_digits_witness :
    metaFree "/dev/sda".toList = true ∧
    DeviceThenDigits "/dev/sda".toList "/dev/sda1".toList ∧
    IsRaidMember raidWorld [] "/dev/sda".toList =
      (Outcome.ok true, (getRaidDevices2Members raidWorld []).2) :=
  have hd : DeviceThenDigits "/dev/sda".toList "/dev/sda1".toList :=
    ⟨['1'], by decide, by decide⟩
  ⟨by decide, hd,
   IsRaidMember_device_then_digits raidWorld [] (getRaidDevices2Members raidWorld []).2
    "/dev/sda".toList [("/dev/md0".toList, ["/dev/sda1".toList, "/dev/sda2".toList])]
    (by decide) (plainRuntime_regexp _ _ _ _) (by decide)
    ⟨"/dev/md0".toList, ["/dev/sda1".toList, "/dev/sda2".toList], "/dev/sda1".toList,
      by decide, by decide, hd⟩⟩

theorem metaFree_append_digits (device n : Str) (hmeta : metaFree device = true)
    (hdig : ∀ c ∈ n, isDigit c = true) : metaFree (device ++ n) = true := by
  simp only [metaFree, List.all_append, Bool.and_eq_true, List.all_eq_true,
    Bool.not_eq_true'] at hmeta ⊢
  exact ⟨hmeta, fun c hc => isDigit_not_isMeta c (hdig c hc)⟩

/-- C7, amended. The matcher works in one direction. On a base path `device` without
metacharacters and a non-empty digit string `n`: when some array lists the partition
`device ++ n`, `IsRaidMember` on the base `device` returns `true`; when the arrays list
only the base `device`, `IsRaidMember` on the partition `device ++ n` returns `false`. -/
theorem IsRaidMember_one_direction (p : DiskCleanup) (log log1 : Log) (device n : Str)
    (topo : RaidMap) (hmeta : metaFree device = true) (hn : n ≠ [])
    (hdig : ∀ c ∈ n, isDigit c = true)
    (hq : getRaidDevices2Members p log = (Outcome.ok topo, log1)) :
    (RegexpOnDevice p device →
      (∃ (a : Str) (ms : List Str), (a, ms) ∈ topo ∧ device ++ n ∈ ms) →
      IsRaidMember p log device = (Outcome.ok true, log1)) ∧
    (RegexpOnDevice p (device ++ n) →
      (∀ (a : Str) (ms : List Str), (a, ms) ∈ topo → ∀ m ∈ ms, m = device) →
      IsRaidMember p log (device ++ n) = (Outcome.ok false, log1)) := by
  constructor
  · rintro hre ⟨a, ms, hin, hm⟩
    rw [IsRaidMember_eq p log log1 device topo hmeta hre hq]
    have hany : (topo.any fun e => e.2.any fun m => contains m device) = true := by
      rw [List.any_eq_true]
      refine ⟨(a, ms), hin, ?_⟩
      rw [List.any_eq_true]
      refine ⟨device ++ n, hm, ?_⟩
      rw [contains_iff]
      exact (List.prefix_append device n).isInfix
    rw [hany]
  · intro hre honly
    rw [IsRaidMember_eq p log log1 (device ++ n) topo
      (metaFree_append_digits device n hmeta hdig) hre hq]
    have hany : (topo.any fun e => e.2.any fun m => contains m (device ++ n)) = false := by
      rw [Bool.eq_false_iff]
      intro h
      rw [List.any_eq_true] at h
      obtain ⟨⟨a, ms⟩, hin, h2⟩ := h
      rw [List.any_eq_true] at h2
      obtain ⟨m, hm, h3⟩ := h2
      rw [contains_iff, honly a ms hin m hm] at h3
      have hlen := h3.length_le
      rw [List.length_append] at hlen
      have hpos : 0 < n.length := List.length_pos.mpr hn
      omega
    rw [hany]

/-- Witness of C7, amended: querying `/dev/sda` in `raidWorld`, where `/dev/sda1` is
listed, gives `true`; querying `/dev/sda1` in `baseOnlyWorld`, where only `/dev/sda` is
listed, gives `false`. -/
theorem IsRaidMember_one_direction_witness :
    IsRaidMember raidWorld [] "/dev/sda".toList =
      (Outcome.ok true, (getRaidDevices2Members raidWorld []).2) ∧
    IsRaidMember baseOnlyWorld [] ("/dev/sda".toList ++ ['1']) =
      (Outcome.ok false, (getRaidDevices2Members baseOnlyWorld []).2) :=
  ⟨(IsRaidMember_one_direction raidWorld [] (getRaidDevices2Members raidWorld []).2
      "/dev/sda".toList ['1'] [("/dev/md0".toList, ["/dev/sda1".toList, "/dev/sda2".toList])]
      (by decide) (by decide) (by decide) (by decide)).1 (plainRuntime_regexp _ _ _ _)
      ⟨"/dev/md0".toList, ["/dev/sda1".toList, "/dev/sda2".toList], by decide, by decide⟩,
   (IsRaidMember_one_direction baseOnlyWorld [] (getRaidDevices2Members baseOnlyWorld []).2
      "/dev/sda".toList ['1'] [("/dev/md0".toList, ["/dev/sda".toList])]
      (by decide) (by decide) (by decide) (by decide)).2 (plainRuntime_regexp _ _ _ _)
      (by
        intro a ms h m hm
        simp only [List.mem_singleton, Prod.mk.injEq] at h
        obtain ⟨_, hms⟩ := h
        rw [hms] at hm
        simpa using hm)⟩

/-- Counterexample to C7 as stated: in `baseOnlyWorld` the array `/dev/md0` lists the base
`/dev/sda` as its member, querying the base answers `true`, and querying the partition
`/dev/sda1` answers `false`. -/
theorem IsRaidMember_partition_of_listed_base :
    (getRaidDevices2Members baseOnlyWorld []).1 =
      Outcome.ok [("/dev/md0".toList, ["/dev/sda".toList])] ∧
    (IsRaidMember baseOnlyWorld [] "/dev/sda".toList).1 = Outcome.ok true ∧
    (IsRaidMember baseOnlyWorld [] "/dev/sda1".toList).1 = Outcome.ok false := by
  decide

/-- Witness of C3: in `twoArraysWorld` the membership clean of `/dev/sda` scans, stops
`/dev/md0` once and then zeroes its two members; `/dev/md1`, which has no matching member,
gets no call. -/
theorem CleanRaidMembership_stop_before_zero_witness :
    execCalls (CleanRaidMembership twoArraysWorld [] "/dev/sda".toList).2 =
      [scanCall, ("mdadm".toList, ["--stop".toList, "/dev/md0".toList]),
       ("mdadm".toList, ["--zero-superblock".toList, "/dev/sda1".toList]),
       ("mdadm".toList, ["--zero-superblock".toList, "/dev/sda2".toList])] ∧
    ∃ added : Log, (CleanRaidMembership twoArraysWorld [] "/dev/sda".toList).2 = [] ++ added ∧
      ∀ a : Str, (added.filter (isStop a)).length ≤ 1 :=
  ⟨by decide,
   match CleanRaidMembership_stop_before_zero twoArraysWorld [] "/dev/sda".toList with
   | ⟨added, h1, h2, _⟩ => ⟨added, h1, h2⟩⟩

/-- C8, amended. A header line whose array path resolves and that is not followed by a
member-list line records nothing and does not abort the query: as the last line it ends
the loop of `getRaidDevices2Members` with the map read so far, and before a line that,
trimmed, does not start with `devices=` the loop goes on at that line with the same map.
The loop aborts at a header when the resolution of its array path fails. -/
theorem raidLoop_header_without_members (p : DiskCleanup) (log : Log) (result : RaidMap)
    (header f0 f1 : Str) (tail : List Str)
    (harray : contains header "ARRAY".toList = true)
    (hfields : fields header = f0 :: f1 :: tail) :
    (∀ name : Str, p.runtime.EvalSymlinks log f1 = Except.ok name →
      raidLoop p [header] log result =
        (Outcome.ok result, log ++ [Event.resolve f1 (Except.ok name)]) ∧
      ∀ (next : Str) (rest : List Str), hasPrefix (trimSpace next) "devices=".toList = false →
        raidLoop p (header :: next :: rest) log result =
          raidLoop p (next :: rest) (log ++ [Event.resolve f1 (Except.ok name)]) result) ∧
    (∀ e : Str, p.runtime.EvalSymlinks log f1 = Except.error e → ∀ rest : List Str,
      raidLoop p (header :: rest) log result =
        (Outcome.error ("Failed to get real file path of RAID device: ".toList ++ e),
          log ++ [Event.resolve f1 (Except.error e)])) := by
  have harray2 : contains header ['A', 'R', 'R', 'A', 'Y'] = true := harray
  refine ⟨fun name hres => ⟨?_, ?_⟩, ?_⟩
  · simp [raidLoop, harray2, hfields, evalSymlinks, hres]
  · intro next rest hp
    have hp2 : hasPrefix (trimSpace next) ['d', 'e', 'v', 'i', 'c', 'e', 's', '='] = false := hp
    rw [raidLoop]
    simp [harray2, hfields, evalSymlinks, hres, hp2]
  · intro e hres rest
    rw [raidLoop]
    simp [harray2, hfields, evalSymlinks, hres]

/-- Witness of C8, amended: the loop on the single line `ARRAY /dev/md0` returns the empty
map it started from, and on the lines `ARRAY /dev/md0` and `spare` it goes on at
`spare`. -/
theorem raidLoop_header_without_members_witness :
    raidLoop brokenScanWorld ["ARRAY /dev/md0".toList] [] [] =
      (Outcome.ok [], [] ++ [Event.resolve "/dev/md0".toList (Except.ok "/dev/md0".toList)]) ∧
    raidLoop brokenScanWorld ["ARRAY /dev/md0".toList, "spare".toList] [] [] =
      raidLoop brokenScanWorld ["spare".toList]
        ([] ++ [Event.resolve "/dev/md0".toList (Except.ok "/dev/md0".toList)]) [] :=
  have h := (raidLoop_header_without_members brokenScanWorld [] [] "ARRAY /dev/md0".toList
    "ARRAY".toList "/dev/md0".toList [] (by decide) (by decide)).1 "/dev/md0".toList rfl
  ⟨h.1, h.2 "spare".toList [] (by decide)⟩

/-- Counterexample to C8 as stated: the scan output of `brokenScanWorld` has the header of
`/dev/md0` followed by another header and the header of `/dev/md2` as its last line; the
query does not abort, it returns the one complete record, `/dev/md1`. -/
theorem getRaidDevices2Members_skips_incomplete_records :
    (brokenScanWorld.dependencies.Execute [] scanCall.1 scanCall.2).exitCode = 0 ∧
    split (brokenScanWorld.dependencies.Execute [] scanCall.1 scanCall.2).stdout '\n' =
      ["ARRAY /dev/md0 level=raid1".toList, "ARRAY /dev/md1 level=raid1".toList,
       "   devices=/dev/vda1".toList, "ARRAY /dev/md2 level=raid1".toList] ∧
    (getRaidDevices2Members brokenScanWorld []).1 =
      Outcome.ok [("/dev/md1".toList, ["/dev/vda1".toList])] := by
  decide

theorem splitAux_append (sep : Char) (l rest cur : Str) (h : sep ∉ l) :
    splitAux sep (l ++ rest) cur = splitAux sep rest (l.reverse ++ cur) := by
  induction l generalizing cur with
  | nil => simp
  | cons c l ih =>
    have hc : c ≠ sep := fun e => h (by rw [e]; exact List.mem_cons_self _ _)
    have hl : sep ∉ l := fun e => h (List.mem_cons_of_mem _ e)
    rw [List.cons_append, splitAux]
    simp only [beq_iff_eq, hc, if_false]
    rw [ih (c :: cur) hl]
    simp

theorem splitAux_joinWith (sep : Char) (ls : List Str) :
    ∀ (l cur : Str), (∀ x ∈ l :: ls, sep ∉ x) →
      splitAux sep (joinWith sep (l :: ls)) cur = (cur.reverse ++ l) :: ls := by
  induction ls with
  | nil =>
    intro l cur h
    have hl : sep ∉ l := h l (List.mem_cons_self _ _)
    have := splitAux_append sep l [] cur hl
    simp only [List.append_nil] at this
    simp [joinWith, this, splitAux]
  | cons l2 ls ih =>
    intro l cur h
    have hl : sep ∉ l := h l (List.mem_cons_self _ _)
    have hrest : ∀ x ∈ l2 :: ls, sep ∉ x := fun x hx => h x (List.mem_cons_of_mem _ hx)
    simp only [joinWith]
    rw [splitAux_append sep l _ cur hl]
    simp only [splitAux, beq_self_eq_true, if_true, List.reverse_append, List.reverse_reverse]
    rw [ih l2 [] hrest]
    simp

/-- Splitting undoes joining, for pieces without the separator. -/
theorem split_joinWith (sep : Char) (ls : List Str) (hne : ls ≠ [])
    (h : ∀ x ∈ ls, sep ∉ x) : split (joinWith sep ls) sep = ls := by
  cases ls with
  | nil => exact absurd rfl hne
  | cons l ls =>
    unfold split
    rw [splitAux_joinWith sep ls l [] h]
    simp

theorem mapSet_new (m : RaidMap) (key : Str) (value : List Str)
    (h : key ∉ m.map Prod.fst) : mapSet m key value = m ++ [(key, value)] := by
  induction m with
  | nil => simp [mapSet]
  | cons kv rest ih =>
    obtain ⟨k, v⟩ := kv
    simp only [List.map_cons, List.mem_cons, not_or] at h
    have hk : k ≠ key := fun e => h.1 e.symm
    simp only [mapSet, hk, if_false, ih h.2, List.cons_append]

theorem raidLoop_trailer (p : DiskCleanup) (trailer : List Str) (log : Log) (result : RaidMap)
    (h : ∀ l ∈ trailer, contains l "ARRAY".toList = false) :
    raidLoop p trailer log result = (Outcome.ok result, log) := by
  induction trailer with
  | nil => simp [raidLoop]
  | cons l rest ih =>
    have hl : contains l ['A', 'R', 'R', 'A', 'Y'] = false := h l (List.mem_cons_self _ _)
    rw [raidLoop]
    simp only [String.toList, hl, Bool.not_false, if_true]
    exact ih (fun x hx => h x (List.mem_cons_of_mem _ hx))

theorem raidLoop_records (p : DiskCleanup) (recs : List ScanRecord) (trailer : List Str)
    (htrailer : ∀ l ∈ trailer, contains l "ARRAY".toList = false) :
    ∀ (log : Log) (result : RaidMap), (∀ r ∈ recs, r.WellFormed) →
      (∀ (log2 : Log) (r : ScanRecord), r ∈ recs →
        p.runtime.EvalSymlinks log2 r.name = Except.ok r.resolved) →
      (result.map Prod.fst ++ recs.map ScanRecord.resolved).Nodup →
      (raidLoop p (recordLines recs ++ trailer) log result).1 =
        Outcome.ok (result ++ recs.map fun r => (r.resolved, r.members)) := by
  induction recs with
  | nil =>
    intro log result _ _ _
    simp [recordLines, raidLoop_trailer p trailer log result htrailer]
  | cons r rest ih =>
    intro log result hwf hres hnd
    obtain ⟨harray, ⟨f0, tail, hfields⟩, htrim, hne, hcomma⟩ := hwf r (List.mem_cons_self _ _)
    have harray2 : contains r.header ['A', 'R', 'R', 'A', 'Y'] = true := harray
    have htrim2 : trimSpace r.devicesLine =
        ['d', 'e', 'v', 'i', 'c', 'e', 's', '='] ++ joinWith ',' r.members := htrim
    have hkey : r.resolved ∉ result.map Prod.fst := by
      intro hmem
      have := List.nodup_append.mp hnd
      exact this.2.2 hmem (by simp)
    have hnd2 : ((result ++ [(r.resolved, r.members)]).map Prod.fst ++
        rest.map ScanRecord.resolved).Nodup := by
      simpa [List.append_assoc] using hnd
    have ih2 := ih (log ++ [Event.resolve r.name (Except.ok r.resolved)])
      (result ++ [(r.resolved, r.members)])
      (fun x hx => hwf x (List.mem_cons_of_mem _ hx))
      (fun l x hx => hres l x (List.mem_cons_of_mem _ hx)) hnd2
    simp only [recordLines, List.cons_append]
    rw [raidLoop]
    simp only [String.toList, harray2, Bool.not_true, Bool.false_eq_true, if_false, hfields,
      evalSymlinks, hres log r (List.mem_cons_self _ _), htrim2]
    have hp : hasPrefix (['d', 'e', 'v', 'i', 'c', 'e', 's', '='] ++ joinWith ',' r.members)
        ['d', 'e', 'v', 'i', 'c', 'e', 's', '='] = true := by
      rw [hasPrefix_iff]
      exact List.prefix_append _ _
    have hdrop : List.drop 8 (['d', 'e', 'v', 'i', 'c', 'e', 's', '='] ++ joinWith ',' r.members) =
        joinWith ',' r.members := rfl
    simp only [hp, Bool.not_true, Bool.false_eq_true, if_false, List.length_cons,
      List.length_nil, hdrop]
    rw [split_joinWith ',' r.members hne hcomma, mapSet_new result r.resolved r.members hkey, ih2]
    simp

/-- C9. When the scan exits zero and its output is the lines of well-formed two-line
records, joined by newlines and possibly followed by lines without `ARRAY`, the array
names resolve, and the resolved names are pairwise distinct, `getRaidDevices2Members`
returns the map with one entry per record, in the order of the records: the resolved
array name with the member list `[m1, ..., mk]` in the order written. -/
theorem getRaidDevices2Members_records (p : DiskCleanup) (log : Log)
    (recs : List ScanRecord) (trailer : List Str)
    (hexit : (p.dependencies.Execute log scanCall.1 scanCall.2).exitCode = 0)
    (hout : (p.dependencies.Execute log scanCall.1 scanCall.2).stdout =
      joinWith '\n' (recordLines recs ++ trailer))
    (hnl : ∀ l ∈ recordLines recs ++ trailer, '\n' ∉ l)
    (htrailer : ∀ l ∈ trailer, contains l "ARRAY".toList = false)
    (hwf : ∀ r ∈ recs, r.WellFormed)
    (hres : ∀ (log2 : Log) (r : ScanRecord), r ∈ recs →
      p.runtime.EvalSymlinks log2 r.name = Except.ok r.resolved)
    (hdistinct : (recs.map ScanRecord.resolved).Nodup) :
    (getRaidDevices2Members p log).1 =
      Outcome.ok (recs.map fun r => (r.resolved, r.members)) := by
  have hexit2 : (p.dependencies.Execute log "mdadm".toList
      ["-v".toList, "--query".toList, "--detail".toList, "--scan".toList]).exitCode = 0 := hexit
  have hout2 : (p.dependencies.Execute log "mdadm".toList
      ["-v".toList, "--query".toList, "--detail".toList, "--scan".toList]).stdout =
      joinWith '\n' (recordLines recs ++ trailer) := hout
  unfold getRaidDevices2Members execute
  simp only [hexit2, ne_eq, not_true_eq_false, if_false, hout2]
  by_cases hempty : recordLines recs ++ trailer = []
  · have hrecs : recs = [] := by
      cases recs with
      | nil => rfl
      | cons r rest => simp [recordLines] at hempty
    subst hrecs
    rw [hempty]
    rfl
  · rw [split_joinWith '\n' _ hempty hnl]
    have := raidLoop_records p recs trailer htrailer
      (log ++ [Event.exec "mdadm".toList
        ["-v".toList, "--query".toList, "--detail".toList, "--scan".toList]
        (p.dependencies.Execute log "mdadm".toList
          ["-v".toList, "--query".toList, "--detail".toList, "--scan".toList])]) []
      hwf hres (by simpa using hdistinct)
    simpa using this

/-- Witness of C9: the scan output of `symlinkWorld` is the two records `recordMd0` and
`recordBoot` followed by an empty line, and the map read has the entry of `/dev/md0` and,
under the resolved name `/dev/md127`, the entry of `/dev/md/boot`. -/
theorem getRaidDevices2Members_records_witness :
    (getRaidDevices2Members symlinkWorld []).1 =
      Outcome.ok [("/dev/md0".toList, ["/dev/vda2".toList, "/dev/vda3".toList]),
        ("/dev/md127".toList, ["/dev/vda1".toList])] :=
  getRaidDevices2Members_records symlinkWorld [] [recordMd0, recordBoot] [[]]
    (by decide) (by decide) (by decide) (by decide)
    (by
      intro r hr
      simp only [List.mem_cons, List.mem_singleton, List.not_mem_nil, or_false] at hr
      rcases hr with rfl | rfl
      · exact ⟨by decide, ⟨"ARRAY".toList, (fields recordMd0.header).drop 2, by decide⟩,
          by decide, by decide, by decide⟩
      · exact ⟨by decide, ⟨"ARRAY".toList, (fields recordBoot.header).drop 2, by decide⟩,
          by decide, by decide, by decide⟩)
    (by
      intro log2 r hr
      simp only [List.mem_cons, List.mem_singleton, List.not_mem_nil, or_false] at hr
      rcases hr with rfl | rfl <;> rfl)
    (by decide)

/-- C10. A failed topology query makes `IsRaidMember` return `false` without an error, as it
does for a scan that exits zero with empty output; a scan that exits non-zero is such a
failure. When the query of `IsRaidMember` fails inside `cleanupInstallDevice`, the cleanup
goes on to `Wipefs` on the resolved path, its result is the result of the wipe, and nothing
it adds to the log is an `mdadm --stop` or an `mdadm --zero-superblock` call. -/
theorem IsRaidMember_query_failure (p : DiskCleanup) (log : Log) (device : Str) :
    (∀ (msg : Str) (log1 : Log), getRaidDevices2Members p log = (Outcome.error msg, log1) →
      IsRaidMember p log device = (Outcome.ok false, log1)) ∧
    ((p.dependencies.Execute log scanCall.1 scanCall.2).exitCode ≠ 0 →
      getRaidDevices2Members p log =
        (Outcome.error ("Error listing raid devices: ".toList ++
          (p.dependencies.Execute log scanCall.1 scanCall.2).stderr),
         log ++ [Event.exec scanCall.1 scanCall.2
           (p.dependencies.Execute log scanCall.1 scanCall.2)])) ∧
    ((p.dependencies.Execute log scanCall.1 scanCall.2).exitCode = 0 →
      (p.dependencies.Execute log scanCall.1 scanCall.2).stdout = [] →
      IsRaidMember p log device =
        (Outcome.ok false, log ++ [Event.exec scanCall.1 scanCall.2
          (p.dependencies.Execute log scanCall.1 scanCall.2)])) ∧
    (∀ (realDevicePath msg : Str) (log1 log2 : Log),
      p.subprocessConfig.DryRunEnabled = false →
      p.runtime.EvalSymlinks log device = Except.ok realDevicePath →
      cleanLVM p (log ++ [Event.resolve device (Except.ok realDevicePath)]) realDevicePath =
        (Outcome.ok (), log1) →
      getRaidDevices2Members p log1 = (Outcome.error msg, log2) →
      cleanupInstallDevice p log device = Wipefs p log2 realDevicePath ∧
      ∃ added : Log, (cleanupInstallDevice p log device).2 = log ++ added ∧
        ∀ e ∈ added, notRaidTeardown e) := by
  refine ⟨?_, ?_, ?_, ?_⟩
  · intro msg log1 hq
    simp only [IsRaidMember, hq]
  · intro hexit
    have hexit2 : (p.dependencies.Execute log "mdadm".toList
        ["-v".toList, "--query".toList, "--detail".toList, "--scan".toList]).exitCode ≠ 0 := hexit
    simp only [getRaidDevices2Members, execute, hexit2, ne_eq, not_false_eq_true, if_true]
    rfl
  · intro hexit hout
    have hexit2 : (p.dependencies.Execute log "mdadm".toList
        ["-v".toList, "--query".toList, "--detail".toList, "--scan".toList]).exitCode = 0 := hexit
    have hout2 : (p.dependencies.Execute log "mdadm".toList
        ["-v".toList, "--query".toList, "--detail".toList, "--scan".toList]).stdout = [] := hout
    have hq : getRaidDevices2Members p log = (Outcome.ok [], log ++ [Event.exec scanCall.1
        scanCall.2 (p.dependencies.Execute log scanCall.1 scanCall.2)]) := by
      simp only [getRaidDevices2Members, execute, hexit2, ne_eq, not_true_eq_false, if_false,
        hout2]
      rfl
    have hperm := p.runtime.rangeOrder_perm (log ++ [Event.exec scanCall.1
        scanCall.2 (p.dependencies.Execute log scanCall.1 scanCall.2)]) []
    simp only [IsRaidMember, hq, List.perm_nil.mp hperm, isRaidMemberLoop]
  · intro realDevicePath msg log1 log2 hdry hres hlvm hq
    have hmember : IsRaidMember p log1 realDevicePath = (Outcome.ok false, log2) := by
      simp only [IsRaidMember, hq]
    have heq : cleanupInstallDevice p log device = Wipefs p log2 realDevicePath := by
      simp only [cleanupInstallDevice, hdry, evalSymlinks, hres, hlvm, hmember,
        Bool.false_eq_true, if_false]
    refine ⟨heq, ?_⟩
    have h0 : Adds notRaidTeardown log (log ++ [Event.resolve device (Except.ok realDevicePath)]) :=
      Adds.one _ _ (isScanOrResolve_notRaidTeardown _ (by simp [isScanOrResolve]))
    have h1 : Adds notRaidTeardown (log ++ [Event.resolve device (Except.ok realDevicePath)]) log1 := by
      have := cleanLVM_adds p (log ++ [Event.resolve device (Except.ok realDevicePath)]) realDevicePath
      rw [hlvm] at this
      exact this.mono isLvmCall_notRaidTeardown
    have h2 : Adds notRaidTeardown log1 log2 := by
      have := getRaidDevices2Members_adds p log1
      rw [hq] at this
      exact this.mono isScanOrResolve_notRaidTeardown
    have h3 : Adds notRaidTeardown log2 (Wipefs p log2 realDevicePath).2 :=
      (Wipefs_adds p log2 realDevicePath).mono isWipefsCall_notRaidTeardown
    rw [heq]
    exact h0.trans (h1.trans (h2.trans h3))

/-- Witness of C10: in `scanFailsWorld` the scan exits non-zero and in `danglingWorld` the
array path cannot be resolved; in both `IsRaidMember` answers `false` for `/dev/sda1`, and
the cleanup of `/dev/sda1` in `danglingWorld`, where the scan lists it as a member of
`/dev/md0`, is the wipe and succeeds after the calls `vgs`, `pvs`, scan and `wipefs`. -/
theorem IsRaidMember_query_failure_witness :
    (IsRaidMember scanFailsWorld [] "/dev/sda1".toList).1 = Outcome.ok false ∧
    (IsRaidMember danglingWorld [] "/dev/sda1".toList).1 = Outcome.ok false ∧
    cleanupInstallDevice danglingWorld [] "/dev/sda1".toList =
      Wipefs danglingWorld (getRaidDevices2Members danglingWorld
        (cleanLVM danglingWorld [Event.resolve "/dev/sda1".toList (Except.ok "/dev/sda1".toList)]
          "/dev/sda1".toList).2).2 "/dev/sda1".toList ∧
    (cleanupInstallDevice danglingWorld [] "/dev/sda1".toList).1 = Outcome.ok () ∧
    execCalls (cleanupInstallDevice danglingWorld [] "/dev/sda1".toList).2 =
      [vgsCall, pvsCall, scanCall,
       ("wipefs".toList, ["--all".toList, "--force".toList, "/dev/sda1".toList])] :=
  ⟨congrArg Prod.fst ((IsRaidMember_query_failure scanFailsWorld [] "/dev/sda1".toList).1
      ("Error listing raid devices: mdadm: cannot open /dev/md0".toList)
      (getRaidDevices2Members scanFailsWorld []).2 (by decide)),
   congrArg Prod.fst ((IsRaidMember_query_failure danglingWorld [] "/dev/sda1".toList).1
      ("Failed to get real file path of RAID device: lstat /dev/md0: no such file or directory".toList)
      (getRaidDevices2Members danglingWorld []).2 (by decide)),
   ((IsRaidMember_query_failure danglingWorld [] "/dev/sda1".toList).2.2.2
      "/dev/sda1".toList
      ("Failed to get real file path of RAID device: lstat /dev/md0: no such file or directory".toList)
      (cleanLVM danglingWorld [Event.resolve "/dev/sda1".toList (Except.ok "/dev/sda1".toList)]
          "/dev/sda1".toList).2
      (getRaidDevices2Members danglingWorld
        (cleanLVM danglingWorld [Event.resolve "/dev/sda1".toList (Except.ok "/dev/sda1".toList)]
          "/dev/sda1".toList).2).2
      (by decide) (by decide) (by decide) (by decide)).1,
   by decide, by decide⟩

/-- C17. A request that cannot be decoded, or that decodes to a request without device
path, makes `CleanupDevice` return the exit code `-1` with an empty stdout and a
non-empty message on stderr, and leaves the log as it was: the engine is not invoked, no
path is resolved and no `Execute` call is made. -/
theorem CleanupDevice_malformed_request (p : DiskCleanup) (codec : Codec) (log : Log)
    (diskCleanupRequestStr : Str)
    (hbad : (∃ e : Str, codec.Unmarshal diskCleanupRequestStr = Except.error e) ∨
      codec.Unmarshal diskCleanupRequestStr = Except.ok ⟨none⟩) :
    ∃ stderr : Str, stderr ≠ [] ∧
      CleanupDevice p codec log diskCleanupRequestStr = (Outcome.ok ([], stderr, -1), log) := by
  rcases hbad with ⟨e, he⟩ | hnone
  · exact ⟨"Failed to unmarshal DiskCleanupRequest: ".toList ++ e, by simp,
      by simp only [CleanupDevice, he]⟩
  · exact ⟨"Missing Filename in DiskCleanupRequest".toList, by decide,
      by simp only [CleanupDevice, hnone]⟩

/-- Witness of C17: with `plainCodec` the text `?` does not decode and the text `{}`
decodes to a request without path; in a world where every command would fail both give
the exit code `-1`, a message and an empty log. -/
theorem CleanupDevice_malformed_request_witness :
    (∃ stderr : Str, stderr ≠ [] ∧
      CleanupDevice allFailWorld plainCodec [] "?".toList = (Outcome.ok ([], stderr, -1), [])) ∧
    CleanupDevice allFailWorld plainCodec [] "{}".toList =
      (Outcome.ok ([], "Missing Filename in DiskCleanupRequest".toList, -1), []) :=
  ⟨CleanupDevice_malformed_request allFailWorld plainCodec [] "?".toList (Or.inl ⟨_, rfl⟩),
   by decide⟩

/-- C18, the code at the failing input: in `wipeFailsWorld` the engine fails on `/dev/sda`
with the message `plain wipe failed`, the stderr of the second wipe, and `CleanupDevice`
reports the exit code `-1` with a stderr made of a fixed text and the printed pointer,
which does not contain that message. -/
theorem CleanupDevice_drops_engine_error :
    (cleanupInstallDevice wipeFailsWorld [] "/dev/sda".toList).1 =
      Outcome.error "plain wipe failed".toList ∧
    (CleanupDevice wipeFailsWorld plainCodec [] "/dev/sda".toList).1 =
      Outcome.ok ("failed /dev/sda".toList,
        "Failed to run diskCleanup successfuly on device %!s(*string=0xc000012345)".toList, -1) ∧
    contains "Failed to run diskCleanup successfuly on device %!s(*string=0xc000012345)".toList
      "plain wipe failed".toList = false := by
  decide

/-- C19, the code at the failing input: the scan of `bareArrayWorld` exits zero with the
output `ARRAY` and a newline; the line `ARRAY` has one field, the loop of
`getRaidDevices2Members` takes `fields[1]`, and the query panics. -/
theorem getRaidDevices2Members_panics_on_bare_header :
    (bareArrayWorld.dependencies.Execute [] scanCall.1 scanCall.2).exitCode = 0 ∧
    fields "ARRAY".toList = ["ARRAY".toList] ∧
    (getRaidDevices2Members bareArrayWorld []).1 = Outcome.panic ∧
    (IsRaidMember bareArrayWorld [] "/dev/sda".toList).1 = Outcome.panic := by
  decide

theorem vgsLoop_eq (diskName : Str) (rows : List Str) :
    ∀ acc : List Str, vgsLoop diskName rows acc = acc ++ vgsOfRows diskName rows := by
  induction rows with
  | nil => intro acc; simp [vgsLoop, vgsOfRows]
  | cons row rest ih =>
    intro acc
    unfold vgsLoop
    split
    · rename_i f0 f1 tail hf
      split_ifs with hc
      · rw [ih]
        simp [vgsOfRows, List.filterMap_cons, hf, hc]
      · rw [ih]
        simp [vgsOfRows, List.filterMap_cons, hf, hc]
    · rename_i hno
      rw [ih]
      have hnone : (match fields row with
          | vg :: pv :: _ => if contains pv diskName then some vg else none
          | _ => none) = none := by
        split
        · rename_i vg pv tail hf
          exact absurd hf (hno vg pv tail)
        · rfl
      simp [vgsOfRows, List.filterMap_cons, hnone]

theorem mem_vgsOfRows (diskName : Str) (rows : List Str) (v : Str) :
    v ∈ vgsOfRows diskName rows ↔
      ∃ row ∈ rows, ∃ (pv : Str) (tail : List Str), fields row = v :: pv :: tail ∧
        diskName <:+: pv := by
  simp only [vgsOfRows, List.mem_filterMap]
  constructor
  · rintro ⟨row, hrow, h⟩
    refine ⟨row, hrow, ?_⟩
    split at h
    · rename_i vg pv tail hf
      split_ifs at h with hc
      simp only [Option.some.injEq] at h
      subst h
      exact ⟨pv, tail, hf, (contains_iff pv diskName).mp hc⟩
    · simp at h
  · rintro ⟨row, hrow, pv, tail, hf, hin⟩
    refine ⟨row, hrow, ?_⟩
    rw [hf]
    simp [(contains_iff pv diskName).mpr hin]

theorem GetVolumeGroupsByDisk_eq (p : DiskCleanup) (log : Log) (diskName : Str)
    (hexit : (p.dependencies.Execute log vgsCall.1 vgsCall.2).exitCode = 0) :
    GetVolumeGroupsByDisk p log diskName =
      (Outcome.ok (vgsOfRows diskName
          (split (p.dependencies.Execute log vgsCall.1 vgsCall.2).stdout '\n')),
        log ++ [Event.exec vgsCall.1 vgsCall.2
          (p.dependencies.Execute log vgsCall.1 vgsCall.2)]) := by
  have hexit2 : (p.dependencies.Execute log "vgs".toList
      ["--noheadings".toList, "-o".toList, "vg_name,pv_name".toList]).exitCode = 0 := hexit
  simp only [GetVolumeGroupsByDisk, execute, hexit2, ne_eq, not_true_eq_false, if_false,
    vgsLoop_eq, List.nil_append]
  rfl

/-- C11. When the `vgs` listing exits zero, `GetVolumeGroupsByDisk` returns the first
field of every row that has at least two fields and whose second field contains the
path, in row order; a name is in the result if and only if the output has a row with that
name as first field and a second field that contains the path as a contiguous block. -/
theorem GetVolumeGroupsByDisk_rows (p : DiskCleanup) (log : Log) (diskName : Str)
    (hexit : (p.dependencies.Execute log vgsCall.1 vgsCall.2).exitCode = 0) :
    GetVolumeGroupsByDisk p log diskName =
      (Outcome.ok (vgsOfRows diskName
          (split (p.dependencies.Execute log vgsCall.1 vgsCall.2).stdout '\n')),
        log ++ [Event.exec vgsCall.1 vgsCall.2
          (p.dependencies.Execute log vgsCall.1 vgsCall.2)]) ∧
    ∀ v : Str, v ∈ vgsOfRows diskName
        (split (p.dependencies.Execute log vgsCall.1 vgsCall.2).stdout '\n') ↔
      ∃ row ∈ split (p.dependencies.Execute log vgsCall.1 vgsCall.2).stdout '\n',
        ∃ (pv : Str) (tail : List Str), fields row = v :: pv :: tail ∧ diskName <:+: pv :=
  ⟨GetVolumeGroupsByDisk_eq p log diskName hexit, fun v => mem_vgsOfRows diskName _ v⟩

/-- Witness of C11: in `lvmWorld` the volume groups of `/dev/sda` are `vg0` and `vg2`, in
row order; the row `lonely` and the row of `/dev/sdb1` give nothing. -/
theorem GetVolumeGroupsByDisk_rows_witness :
    (GetVolumeGroupsByDisk lvmWorld [] "/dev/sda".toList).1 =
      Outcome.ok ["vg0".toList, "vg2".toList] ∧
    GetVolumeGroupsByDisk lvmWorld [] "/dev/sda".toList =
      (Outcome.ok (vgsOfRows "/dev/sda".toList
          (split (lvmWorld.dependencies.Execute [] vgsCall.1 vgsCall.2).stdout '\n')),
        [] ++ [Event.exec vgsCall.1 vgsCall.2
          (lvmWorld.dependencies.Execute [] vgsCall.1 vgsCall.2)]) :=
  ⟨by decide, (GetVolumeGroupsByDisk_rows lvmWorld [] "/dev/sda".toList (by decide)).1⟩

theorem execCalls_append (a b : Log) : execCalls (a ++ b) = execCalls a ++ execCalls b := by
  induction a with
  | nil => simp [execCalls]
  | cons e rest ih =>
    cases e with
    | exec c args r => simp [execCalls, ih]
    | resolve path r => simp [execCalls, ih]

theorem fieldsAux_block (s : Str) :
    ∀ (cur : Str) (f : Str), f ∈ fieldsAux s cur → f <:+: cur.reverse ++ s := by
  induction s with
  | nil =>
    intro cur f hf
    unfold fieldsAux at hf
    split_ifs at hf
    · simp at hf
    · simp only [List.mem_singleton] at hf
      subst hf
      simp
  | cons c cs ih =>
    intro cur f hf
    unfold fieldsAux at hf
    split_ifs at hf with hsp hcur
    · have h1 := ih [] f hf
      simp only [List.reverse_nil, List.nil_append] at h1
      exact h1.trans ((List.suffix_cons c cs).isInfix.trans
        (List.suffix_append cur.reverse (c :: cs)).isInfix)
    · rcases List.mem_cons.mp hf with h | h
      · subst h
        exact (List.prefix_append cur.reverse (c :: cs)).isInfix
      · have h1 := ih [] f h
        simp only [List.reverse_nil, List.nil_append] at h1
        exact h1.trans ((List.suffix_cons c cs).isInfix.trans
          (List.suffix_append cur.reverse (c :: cs)).isInfix)
    · have h1 := ih (c :: cur) f hf
      simpa using h1

/-- Every field of a line is a contiguous block of the line. -/
theorem fields_block (s f : Str) (hf : f ∈ fields s) : f <:+: s := by
  have := fieldsAux_block s [] f hf
  simpa using this

theorem vgsOfRows_nil_of_not_mentioned (diskName : Str) (rows : List Str)
    (h : ∀ row ∈ rows, contains row diskName = false) : vgsOfRows diskName rows = [] := by
  rw [List.eq_nil_iff_forall_not_mem]
  intro v hv
  obtain ⟨row, hrow, pv, tail, hf, hin⟩ := (mem_vgsOfRows diskName rows v).mp hv
  have hpv : pv ∈ fields row := by rw [hf]; simp
  have hrowin : diskName <:+: row := hin.trans (fields_block row pv hpv)
  have := (contains_iff row diskName).mpr hrowin
  rw [h row hrow] at this
  exact Bool.false_ne_true this

theorem pvsLoop_eq (diskName : Str) (rows : List Str) :
    ∀ acc : List Str, pvsLoop diskName rows acc = acc ++ pvsOfRows diskName rows := by
  induction rows with
  | nil => intro acc; simp [pvsLoop, pvsOfRows]
  | cons row rest ih =>
    intro acc
    unfold pvsLoop
    split_ifs with hc
    · rw [ih]
      simp [pvsOfRows, List.filter_cons, hc]
    · rw [ih]
      simp [pvsOfRows, List.filter_cons, hc]

theorem pvsOfRows_nil_of_not_mentioned (diskName : Str) (rows : List Str)
    (h : ∀ row ∈ rows, contains row diskName = false) : pvsOfRows diskName rows = [] := by
  simp only [pvsOfRows, List.map_eq_nil_iff, List.filter_eq_nil_iff]
  intro row hrow
  simp [h row hrow]

theorem cleanLVM_no_rows (p : DiskCleanup) (log : Log) (device : Str)
    (rv rp : ExecResult)
    (hv : p.dependencies.Execute log vgsCall.1 vgsCall.2 = rv)
    (hp : p.dependencies.Execute (log ++ [Event.exec vgsCall.1 vgsCall.2 rv])
      pvsCall.1 pvsCall.2 = rp)
    (hvexit : rv.exitCode = 0) (hpexit : rp.exitCode = 0)
    (hvrows : ∀ row ∈ split rv.stdout '\n', contains row device = false)
    (hprows : ∀ row ∈ split rp.stdout '\n', contains row device = false) :
    cleanLVM p log device =
      (Outcome.ok (), log ++ [Event.exec vgsCall.1 vgsCall.2 rv] ++
        [Event.exec pvsCall.1 pvsCall.2 rp]) := by
  have hv2 : p.dependencies.Execute log "vgs".toList
      ["--noheadings".toList, "-o".toList, "vg_name,pv_name".toList] = rv := hv
  have hp2 : p.dependencies.Execute (log ++ [Event.exec "vgs".toList
      ["--noheadings".toList, "-o".toList, "vg_name,pv_name".toList] rv]) "pvs".toList
      ["--noheadings".toList, "-o".toList, "pv_name".toList] = rp := hp
  simp only [cleanLVM, GetVolumeGroupsByDisk, execute, hv2, hvexit, ne_eq, not_true_eq_false,
    if_false, vgsLoop_eq, List.nil_append, vgsOfRows_nil_of_not_mentioned device _ hvrows,
    List.length_nil, gt_iff_lt, lt_self_iff_false, RemoveAllPVsOnDevice, getDiskPVs, hp2,
    hpexit, pvsLoop_eq, pvsOfRows_nil_of_not_mentioned device _ hprows, removePVsLoop]
  rfl

/-- C13. When the `vgs` and the `pvs` listing both exit zero and no row of either
contains the path, `cleanLVM` succeeds and adds to the log exactly the two listing
calls: there is no `vgremove` and no `pvremove` call. -/
theorem cleanLVM_nothing_to_remove (p : DiskCleanup) (log : Log) (device : Str)
    (rv rp : ExecResult)
    (hv : p.dependencies.Execute log vgsCall.1 vgsCall.2 = rv)
    (hp : p.dependencies.Execute (log ++ [Event.exec vgsCall.1 vgsCall.2 rv])
      pvsCall.1 pvsCall.2 = rp)
    (hvexit : rv.exitCode = 0) (hpexit : rp.exitCode = 0)
    (hvrows : ∀ row ∈ split rv.stdout '\n', contains row device = false)
    (hprows : ∀ row ∈ split rp.stdout '\n', contains row device = false) :
    cleanLVM p log device =
      (Outcome.ok (), log ++ [Event.exec vgsCall.1 vgsCall.2 rv] ++
        [Event.exec pvsCall.1 pvsCall.2 rp]) ∧
    execCalls (cleanLVM p log device).2 = execCalls log ++ [vgsCall, pvsCall] := by
  have h := cleanLVM_no_rows p log device rv rp hv hp hvexit hpexit hvrows hprows
  refine ⟨h, ?_⟩
  rw [h]
  simp only [execCalls_append, List.append_assoc]
  rfl

/-- Witness of C13: in `lvmWorld` no row of the listings contains `/dev/sdc`, and the LVM
clean of `/dev/sdc` succeeds with the two listing calls only. -/
theorem cleanLVM_nothing_to_remove_witness :
    (cleanLVM lvmWorld [] "/dev/sdc".toList).1 = Outcome.ok () ∧
    execCalls (cleanLVM lvmWorld [] "/dev/sdc".toList).2 = [] ++ [vgsCall, pvsCall] :=
  have h := cleanLVM_nothing_to_remove lvmWorld [] "/dev/sdc".toList
    (lvmWorld.dependencies.Execute [] vgsCall.1 vgsCall.2)
    (lvmWorld.dependencies.Execute [] pvsCall.1 pvsCall.2) rfl rfl
    (by decide) (by decide) (by decide) (by decide)
  ⟨congrArg Prod.fst h.1, h.2⟩

theorem removeVolumeGroupsFromDevice_append (p : DiskCleanup) (device : Str)
    (pre rest : List Str) :
    ∀ (log log1 : Log), removeVolumeGroupsFromDevice p log pre device = (Outcome.ok (), log1) →
      removeVolumeGroupsFromDevice p log (pre ++ rest) device =
        removeVolumeGroupsFromDevice p log1 rest device := by
  induction pre with
  | nil =>
    intro log log1 h
    simp only [removeVolumeGroupsFromDevice, Prod.mk.injEq, true_and] at h
    subst h
    rfl
  | cons v pre ih =>
    intro log log1 h
    rw [List.cons_append]
    simp only [removeVolumeGroupsFromDevice] at h ⊢
    split at h
    · rename_i u l heq
      exact ih l log1 h
    · simp at h
    · simp at h

theorem removePVsLoop_append (p : DiskCleanup) (diskName : Str) (pre rest : List Str) :
    ∀ (log log1 : Log), removePVsLoop p diskName log pre = (Outcome.ok (), log1) →
      removePVsLoop p diskName log (pre ++ rest) = removePVsLoop p diskName log1 rest := by
  induction pre with
  | nil =>
    intro log log1 h
    simp only [removePVsLoop, Prod.mk.injEq, true_and] at h
    subst h
    rfl
  | cons v pre ih =>
    intro log log1 h
    rw [List.cons_append]
    simp only [removePVsLoop] at h ⊢
    split at h
    · rename_i u l heq
      exact ih l log1 h
    · simp at h
    · simp at h

theorem cleanLVM_eq (p : DiskCleanup) (log : Log) (device : Str) :
    cleanLVM p log device =
      match GetVolumeGroupsByDisk p log device with
      | (Outcome.ok vgNames, log1) =>
        (match removeVolumeGroupsFromDevice p log1 vgNames device with
         | (Outcome.ok _, log2) => RemoveAllPVsOnDevice p log2 device
         | (Outcome.error msg, log2) => (Outcome.error msg, log2)
         | (Outcome.panic, log2) => (Outcome.panic, log2))
      | (Outcome.error msg, log1) => (Outcome.error msg, log1)
      | (Outcome.panic, log1) => (Outcome.panic, log1) := by
  unfold cleanLVM
  rcases GetVolumeGroupsByDisk p log device with ⟨o, log1⟩
  cases o with
  | ok vgNames =>
    cases vgNames with
    | nil => simp [removeVolumeGroupsFromDevice]
    | cons v rest => simp
  | error msg => rfl
  | panic => rfl

/-- C14. The teardown stops at the first removal that fails. When the removals of the
volume groups before `v` succeeded and `vgremove v -y` exits non-zero,
`removeVolumeGroupsFromDevice` returns an error and the failed call is the last event
of its log; the same holds for `pvremove` in the loop of `RemoveAllPVsOnDevice`. When
the removal of the volume groups fails, `cleanLVM` returns that error with that log: the
`pvs` listing and every `pvremove` are skipped; when the removal of the physical volumes
fails, `RemoveAllPVsOnDevice`, the last step of `cleanLVM`, returns that error with that
log, and so does `cleanLVM`. In terms of the names found: when the removal of the `i`-th
volume group, or of the `i`-th physical volume, exits non-zero, `cleanLVM` returns an
error and the failed call is the last event of its log, so no later command is issued. -/
theorem cleanLVM_fail_fast (p : DiskCleanup) (log : Log) (device : Str) :
    (∀ (pre : List Str) (v : Str) (post : List Str) (log1 : Log),
      removeVolumeGroupsFromDevice p log pre device = (Outcome.ok (), log1) →
      (p.dependencies.Execute log1 (vgremoveCall v).1 (vgremoveCall v).2).exitCode ≠ 0 →
      ∃ msg : Str, removeVolumeGroupsFromDevice p log (pre ++ v :: post) device =
        (Outcome.error msg, log1 ++ [Event.exec (vgremoveCall v).1 (vgremoveCall v).2
          (p.dependencies.Execute log1 (vgremoveCall v).1 (vgremoveCall v).2)])) ∧
    (∀ (pre : List Str) (pv : Str) (post : List Str) (log1 : Log),
      removePVsLoop p device log pre = (Outcome.ok (), log1) →
      (p.dependencies.Execute log1 (pvremoveCall pv).1 (pvremoveCall pv).2).exitCode ≠ 0 →
      ∃ msg : Str, removePVsLoop p device log (pre ++ pv :: post) =
        (Outcome.error msg, log1 ++ [Event.exec (pvremoveCall pv).1 (pvremoveCall pv).2
          (p.dependencies.Execute log1 (pvremoveCall pv).1 (pvremoveCall pv).2)])) ∧
    (∀ (vgNames : List Str) (msg : Str) (log1 log2 : Log),
      GetVolumeGroupsByDisk p log device = (Outcome.ok vgNames, log1) →
      removeVolumeGroupsFromDevice p log1 vgNames device = (Outcome.error msg, log2) →
      cleanLVM p log device = (Outcome.error msg, log2)) ∧
    (∀ (pvs : List Str) (msg : Str) (log1 log2 : Log),
      getDiskPVs p log device = (Outcome.ok pvs, log1) →
      removePVsLoop p device log1 pvs = (Outcome.error msg, log2) →
      RemoveAllPVsOnDevice p log device = (Outcome.error msg, log2)) ∧
    (∀ (vgNames pvs : List Str) (msg : Str) (log1 log2 log3 log4 : Log),
      GetVolumeGroupsByDisk p log device = (Outcome.ok vgNames, log1) →
      removeVolumeGroupsFromDevice p log1 vgNames device = (Outcome.ok (), log2) →
      getDiskPVs p log2 device = (Outcome.ok pvs, log3) →
      removePVsLoop p device log3 pvs = (Outcome.error msg, log4) →
      cleanLVM p log device = (Outcome.error msg, log4)) ∧
    (∀ (pre : List Str) (v : Str) (post : List Str) (log1 log2 : Log),
      GetVolumeGroupsByDisk p log device = (Outcome.ok (pre ++ v :: post), log1) →
      removeVolumeGroupsFromDevice p log1 pre device = (Outcome.ok (), log2) →
      (p.dependencies.Execute log2 (vgremoveCall v).1 (vgremoveCall v).2).exitCode ≠ 0 →
      ∃ msg : Str, cleanLVM p log device =
        (Outcome.error msg, log2 ++ [Event.exec (vgremoveCall v).1 (vgremoveCall v).2
          (p.dependencies.Execute log2 (vgremoveCall v).1 (vgremoveCall v).2)])) ∧
    (∀ (vgNames pre : List Str) (pv : Str) (post : List Str) (log1 log2 log3 log4 : Log),
      GetVolumeGroupsByDisk p log device = (Outcome.ok vgNames, log1) →
      removeVolumeGroupsFromDevice p log1 vgNames device = (Outcome.ok (), log2) →
      getDiskPVs p log2 device = (Outcome.ok (pre ++ pv :: post), log3) →
      removePVsLoop p device log3 pre = (Outcome.ok (), log4) →
      (p.dependencies.Execute log4 (pvremoveCall pv).1 (pvremoveCall pv).2).exitCode ≠ 0 →
      ∃ msg : Str, cleanLVM p log device =
        (Outcome.error msg, log4 ++ [Event.exec (pvremoveCall pv).1 (pvremoveCall pv).2
          (p.dependencies.Execute log4 (pvremoveCall pv).1 (pvremoveCall pv).2)])) := by
  have vgStep : ∀ (start : Log) (pre : List Str) (v : Str) (post : List Str) (log1 : Log),
      removeVolumeGroupsFromDevice p start pre device = (Outcome.ok (), log1) →
      (p.dependencies.Execute log1 (vgremoveCall v).1 (vgremoveCall v).2).exitCode ≠ 0 →
      ∃ msg : Str, removeVolumeGroupsFromDevice p start (pre ++ v :: post) device =
        (Outcome.error msg, log1 ++ [Event.exec (vgremoveCall v).1 (vgremoveCall v).2
          (p.dependencies.Execute log1 (vgremoveCall v).1 (vgremoveCall v).2)]) := by
    intro start pre v post log1 hpre hexit
    have hexit2 : (p.dependencies.Execute log1 "vgremove".toList
        [v, "-y".toList]).exitCode ≠ 0 := hexit
    rw [removeVolumeGroupsFromDevice_append p device pre (v :: post) start log1 hpre]
    simp only [removeVolumeGroupsFromDevice, RemoveVG, execute, hexit2, ne_eq,
      not_false_eq_true, if_true]
    exact ⟨_, rfl⟩
  have pvStep : ∀ (start : Log) (pre : List Str) (pv : Str) (post : List Str) (log1 : Log),
      removePVsLoop p device start pre = (Outcome.ok (), log1) →
      (p.dependencies.Execute log1 (pvremoveCall pv).1 (pvremoveCall pv).2).exitCode ≠ 0 →
      ∃ msg : Str, removePVsLoop p device start (pre ++ pv :: post) =
        (Outcome.error msg, log1 ++ [Event.exec (pvremoveCall pv).1 (pvremoveCall pv).2
          (p.dependencies.Execute log1 (pvremoveCall pv).1 (pvremoveCall pv).2)]) := by
    intro start pre pv post log1 hpre hexit
    have hexit2 : (p.dependencies.Execute log1 "pvremove".toList
        [pv, "-y".toList, "-ff".toList]).exitCode ≠ 0 := hexit
    rw [removePVsLoop_append p device pre (pv :: post) start log1 hpre]
    simp only [removePVsLoop, RemovePV, execute, hexit2, ne_eq, not_false_eq_true, if_true]
    exact ⟨_, rfl⟩
  have vgFail : ∀ (vgNames : List Str) (msg : Str) (log1 log2 : Log),
      GetVolumeGroupsByDisk p log device = (Outcome.ok vgNames, log1) →
      removeVolumeGroupsFromDevice p log1 vgNames device = (Outcome.error msg, log2) →
      cleanLVM p log device = (Outcome.error msg, log2) := by
    intro vgNames msg log1 log2 hget hrm
    rw [cleanLVM_eq]
    simp only [hget, hrm]
  have pvFail : ∀ (vgNames pvs : List Str) (msg : Str) (log1 log2 log3 log4 : Log),
      GetVolumeGroupsByDisk p log device = (Outcome.ok vgNames, log1) →
      removeVolumeGroupsFromDevice p log1 vgNames device = (Outcome.ok (), log2) →
      getDiskPVs p log2 device = (Outcome.ok pvs, log3) →
      removePVsLoop p device log3 pvs = (Outcome.error msg, log4) →
      cleanLVM p log device = (Outcome.error msg, log4) := by
    intro vgNames pvs msg log1 log2 log3 log4 hget hrm hpvs hloop
    rw [cleanLVM_eq]
    simp only [hget, hrm, RemoveAllPVsOnDevice, hpvs, hloop]
  refine ⟨vgStep log, pvStep log, vgFail, ?_, pvFail, ?_, ?_⟩
  · intro pvs msg log1 log2 hget hrm
    simp only [RemoveAllPVsOnDevice, hget, hrm]
  · intro pre v post log1 log2 hget hpre hexit
    obtain ⟨msg, hmsg⟩ := vgStep log1 pre v post log2 hpre hexit
    exact ⟨msg, vgFail _ msg log1 _ hget hmsg⟩
  · intro vgNames pre pv post log1 log2 log3 log4 hget hrm hpvs hpre hexit
    obtain ⟨msg, hmsg⟩ := pvStep log3 pre pv post log4 hpre hexit
    exact ⟨msg, pvFail vgNames _ msg log1 log2 log3 _ hget hrm hpvs hmsg⟩

/-- Witness of C14: in `vgRemoveFailsWorld` the removal of `vg0`, the first volume group of
`/dev/sda`, fails and the LVM clean returns an error with that call as its last event,
`vg2` and the physical volumes untouched; in `pvRemoveFailsWorld` the removal of
`/dev/sda`, the first physical volume, fails and the LVM clean returns an error with that
call as its last event, `/dev/sda2` untouched. -/
theorem cleanLVM_fail_fast_witness :
    (∃ msg : Str, removeVolumeGroupsFromDevice vgRemoveFailsWorld [] ([] ++ "vg0".toList ::
        ["vg2".toList]) "/dev/sda".toList =
      (Outcome.error msg, [] ++ [Event.exec "vgremove".toList ["vg0".toList, "-y".toList]
        (failed "vg0 is in use")])) ∧
    (∃ msg : Str, cleanLVM vgRemoveFailsWorld [] "/dev/sda".toList =
      (Outcome.error msg,
        (GetVolumeGroupsByDisk vgRemoveFailsWorld [] "/dev/sda".toList).2 ++
          [Event.exec (vgremoveCall "vg0".toList).1 (vgremoveCall "vg0".toList).2
            (failed "vg0 is in use")])) ∧
    (∃ msg : Str, cleanLVM pvRemoveFailsWorld [] "/dev/sda".toList =
      (Outcome.error msg,
        (getDiskPVs pvRemoveFailsWorld
          (removeVolumeGroupsFromDevice pvRemoveFailsWorld
            (GetVolumeGroupsByDisk pvRemoveFailsWorld [] "/dev/sda".toList).2
            ["vg0".toList, "vg2".toList] "/dev/sda".toList).2 "/dev/sda".toList).2 ++
          [Event.exec (pvremoveCall "/dev/sda".toList).1 (pvremoveCall "/dev/sda".toList).2
            (failed "cannot remove /dev/sda")])) ∧
    (cleanLVM vgRemoveFailsWorld [] "/dev/sda".toList).1 =
      Outcome.error ("Could not delete volume group (vg0) due to error: ".toList ++
        vgRemoveFailsWorld.runtime.badVerb
          "Failed to remove VG vg0, output , error vg0 is in use".toList) ∧
    (cleanLVM pvRemoveFailsWorld [] "/dev/sda".toList).1 =
      Outcome.error ("Failed to remove pv /dev/sda from disk /dev/sda: ".toList ++
        pvRemoveFailsWorld.runtime.badVerb
          "Failed to remove PV /dev/sda, output , error cannot remove /dev/sda".toList) ∧
    execCalls (cleanLVM vgRemoveFailsWorld [] "/dev/sda".toList).2 =
      [vgsCall, vgremoveCall "vg0".toList] ∧
    execCalls (cleanLVM pvRemoveFailsWorld [] "/dev/sda".toList).2 =
      [vgsCall, vgremoveCall "vg0".toList, vgremoveCall "vg2".toList, pvsCall,
       pvremoveCall "/dev/sda".toList] :=
  ⟨(cleanLVM_fail_fast vgRemoveFailsWorld [] "/dev/sda".toList).1 [] "vg0".toList
      ["vg2".toList] [] rfl (by decide),
   (cleanLVM_fail_fast vgRemoveFailsWorld [] "/dev/sda".toList).2.2.2.2.2.1 [] "vg0".toList
      ["vg2".toList] (GetVolumeGroupsByDisk vgRemoveFailsWorld [] "/dev/sda".toList).2
      (GetVolumeGroupsByDisk vgRemoveFailsWorld [] "/dev/sda".toList).2
      (by decide) rfl (by decide),
   (cleanLVM_fail_fast pvRemoveFailsWorld [] "/dev/sda".toList).2.2.2.2.2.2
      ["vg0".toList, "vg2".toList] [] "/dev/sda".toList ["/dev/sda2".toList]
      (GetVolumeGroupsByDisk pvRemoveFailsWorld [] "/dev/sda".toList).2
      (removeVolumeGroupsFromDevice pvRemoveFailsWorld
        (GetVolumeGroupsByDisk pvRemoveFailsWorld [] "/dev/sda".toList).2
        ["vg0".toList, "vg2".toList] "/dev/sda".toList).2
      (getDiskPVs pvRemoveFailsWorld
        (removeVolumeGroupsFromDevice pvRemoveFailsWorld
          (GetVolumeGroupsByDisk pvRemoveFailsWorld [] "/dev/sda".toList).2
          ["vg0".toList, "vg2".toList] "/dev/sda".toList).2 "/dev/sda".toList).2
      (getDiskPVs pvRemoveFailsWorld
        (removeVolumeGroupsFromDevice pvRemoveFailsWorld
          (GetVolumeGroupsByDisk pvRemoveFailsWorld [] "/dev/sda".toList).2
          ["vg0".toList, "vg2".toList] "/dev/sda".toList).2 "/dev/sda".toList).2
      (by decide) (by decide) (by decide) rfl (by decide),
   by decide, by decide, by decide, by decide⟩

theorem removeVolumeGroupsFromDevice_all_ok (p : DiskCleanup) (device : Str)
    (hok : ∀ (l : Log) (v : Str),
      (p.dependencies.Execute l (vgremoveCall v).1 (vgremoveCall v).2).exitCode = 0)
    (vgNames : List Str) :
    ∀ log : Log, ∃ log2 : Log,
      removeVolumeGroupsFromDevice p log vgNames device = (Outcome.ok (), log2) ∧
      execCalls log2 = execCalls log ++ vgNames.map vgremoveCall := by
  induction vgNames with
  | nil => intro log; exact ⟨log, rfl, by simp⟩
  | cons v rest ih =>
    intro log
    have hexit : (p.dependencies.Execute log "vgremove".toList [v, "-y".toList]).exitCode = 0 :=
      hok log v
    obtain ⟨log2, h1, h2⟩ := ih (log ++ [Event.exec "vgremove".toList [v, "-y".toList]
      (p.dependencies.Execute log "vgremove".toList [v, "-y".toList])])
    refine ⟨log2, ?_, ?_⟩
    · simp only [removeVolumeGroupsFromDevice, RemoveVG, execute, hexit, ne_eq,
        not_true_eq_false, if_false]
      exact h1
    · rw [h2, execCalls_append]
      simp [execCalls, vgremoveCall]

theorem removePVsLoop_all_ok (p : DiskCleanup) (diskName : Str)
    (hok : ∀ (l : Log) (pv : Str),
      (p.dependencies.Execute l (pvremoveCall pv).1 (pvremoveCall pv).2).exitCode = 0)
    (pvs : List Str) :
    ∀ log : Log, ∃ log2 : Log,
      removePVsLoop p diskName log pvs = (Outcome.ok (), log2) ∧
      execCalls log2 = execCalls log ++ pvs.map pvremoveCall := by
  induction pvs with
  | nil => intro log; exact ⟨log, rfl, by simp⟩
  | cons pv rest ih =>
    intro log
    have hexit : (p.dependencies.Execute log "pvremove".toList
        [pv, "-y".toList, "-ff".toList]).exitCode = 0 := hok log pv
    obtain ⟨log2, h1, h2⟩ := ih (log ++ [Event.exec "pvremove".toList
      [pv, "-y".toList, "-ff".toList]
      (p.dependencies.Execute log "pvremove".toList [pv, "-y".toList, "-ff".toList])])
    refine ⟨log2, ?_, ?_⟩
    · simp only [removePVsLoop, RemovePV, execute, hexit, ne_eq, not_true_eq_false, if_false]
      exact h1
    · rw [h2, execCalls_append]
      simp [execCalls, pvremoveCall]

theorem removePVsLoop_pvcalls (p : DiskCleanup) (diskName : Str) (pvs : List Str) :
    ∀ log : Log, Adds (fun e => isPvCall e = true) log (removePVsLoop p diskName log pvs).2 := by
  induction pvs with
  | nil => intro log; exact Adds.refl _ _
  | cons pv rest ih =>
    intro log
    have h1 : Adds (fun e => isPvCall e = true) log (RemovePV p log pv).2 := by
      unfold RemovePV execute
      simp only
      split_ifs <;> exact Adds.one _ _ (by simp [isPvCall])
    unfold removePVsLoop
    split
    · rename_i u log1 heq
      rw [heq] at h1
      exact h1.trans (ih log1)
    · rename_i heq; rw [heq] at h1; exact h1
    · rename_i heq; rw [heq] at h1; exact h1

theorem RemoveAllPVsOnDevice_pvcalls (p : DiskCleanup) (log : Log) (diskName : Str) :
    Adds (fun e => isPvCall e = true) log (RemoveAllPVsOnDevice p log diskName).2 := by
  have h1 : Adds (fun e => isPvCall e = true) log (getDiskPVs p log diskName).2 := by
    unfold getDiskPVs execute
    simp only
    split_ifs <;> exact Adds.one _ _ (by simp [isPvCall])
  unfold RemoveAllPVsOnDevice
  split
  · rename_i pvs log1 heq
    rw [heq] at h1
    exact h1.trans (removePVsLoop_pvcalls p diskName pvs log1)
  · rename_i heq; rw [heq] at h1; exact h1
  · rename_i heq; rw [heq] at h1; exact h1

/-- C12, amended. The volume group names found for a device are a list with one entry for
every row of the listing whose physical volume contains the path, so a name with several
such rows occurs several times; when the listing exits zero and the removals succeed,
`cleanLVM` issues one `vgremove <name> -y` call for every entry, in row order, between the
`vgs` call and its `pvs` and `pvremove` calls. -/
theorem cleanLVM_vgremove_per_row (p : DiskCleanup) (log : Log) (device : Str)
    (hexit : (p.dependencies.Execute log vgsCall.1 vgsCall.2).exitCode = 0)
    (hok : ∀ (l : Log) (v : Str),
      (p.dependencies.Execute l (vgremoveCall v).1 (vgremoveCall v).2).exitCode = 0) :
    ∃ rest : Log, (∀ e ∈ rest, isPvCall e = true) ∧
      execCalls (cleanLVM p log device).2 =
        execCalls log ++ vgsCall ::
          (vgsOfRows device
            (split (p.dependencies.Execute log vgsCall.1 vgsCall.2).stdout '\n')).map
              vgremoveCall ++ execCalls rest := by
  obtain ⟨log2, h1, h2⟩ := removeVolumeGroupsFromDevice_all_ok p device hok
    (vgsOfRows device (split (p.dependencies.Execute log vgsCall.1 vgsCall.2).stdout '\n'))
    (log ++ [Event.exec vgsCall.1 vgsCall.2 (p.dependencies.Execute log vgsCall.1 vgsCall.2)])
  obtain ⟨rest, hrest, hq⟩ := RemoveAllPVsOnDevice_pvcalls p log2 device
  refine ⟨rest, hq, ?_⟩
  rw [cleanLVM_eq, GetVolumeGroupsByDisk_eq p log device hexit]
  simp only [h1]
  rw [hrest, execCalls_append, h2, execCalls_append]
  simp [execCalls]

/-- Witness of C12, amended: in `lvmWorld` the LVM clean of `/dev/sda` calls `vgremove` for
`vg0` and for `vg2`, the two rows of the listing that bind a volume group to the disk. -/
theorem cleanLVM_vgremove_per_row_witness :
    execCalls (cleanLVM lvmWorld [] "/dev/sda".toList).2 =
      [vgsCall, vgremoveCall "vg0".toList, vgremoveCall "vg2".toList, pvsCall,
       pvremoveCall "/dev/sda".toList, pvremoveCall "/dev/sda2".toList] ∧
    ∃ rest : Log, (∀ e ∈ rest, isPvCall e = true) ∧
      execCalls (cleanLVM lvmWorld [] "/dev/sda".toList).2 =
        execCalls [] ++ vgsCall ::
          (vgsOfRows "/dev/sda".toList
            (split (lvmWorld.dependencies.Execute [] vgsCall.1 vgsCall.2).stdout '\n')).map
              vgremoveCall ++ execCalls rest :=
  ⟨by decide,
   cleanLVM_vgremove_per_row lvmWorld [] "/dev/sda".toList (by decide) (fun _ _ => rfl)⟩

/-- Counterexample to C12 as stated: in `dupVgWorld` the volume group `vg0` has the
physical volumes `/dev/sda1` and `/dev/sda2`; the names found for `/dev/sda` are `vg0`
twice, and the LVM clean calls `vgremove vg0 -y` twice. -/
theorem GetVolumeGroupsByDisk_repeats_names :
    (GetVolumeGroupsByDisk dupVgWorld [] "/dev/sda".toList).1 =
      Outcome.ok ["vg0".toList, "vg0".toList] ∧
    ¬ (["vg0".toList, "vg0".toList] : List Str).Nodup ∧
    execCalls (cleanLVM dupVgWorld [] "/dev/sda".toList).2 =
      [vgsCall, vgremoveCall "vg0".toList, vgremoveCall "vg0".toList, pvsCall] := by
  decide

theorem execCalls_of_resolves (added : Log) (h : ∀ e ∈ added, isResolve e = true) :
    execCalls added = [] := by
  induction added with
  | nil => rfl
  | cons e rest ih =>
    have he := h e (List.mem_cons_self _ _)
    cases e with
    | exec c a r => simp [isResolve] at he
    | resolve path r =>
      simp only [execCalls]
      exact ih (fun x hx => h x (List.mem_cons_of_mem _ hx))

theorem raidLoop_resolves (p : DiskCleanup) :
    ∀ (n : Nat) (lines : List Str) (log : Log) (result : RaidMap), lines.length ≤ n →
      Adds (fun e => isResolve e = true) log (raidLoop p lines log result).2 := by
  intro n
  induction n with
  | zero =>
    intro lines log result hlen
    have : lines = [] := List.length_eq_zero.mp (Nat.le_zero.mp hlen)
    subst this
    exact Adds.refl _ _
  | succ n ih =>
    intro lines log result hlen
    cases lines with
    | nil => exact Adds.refl _ _
    | cons line rest =>
      have hrest : rest.length ≤ n := by simpa using hlen
      unfold raidLoop
      split_ifs with hc
      · exact ih rest log result hrest
      · split
        · rename_i f0 f1 ftail hf
          have hres : Adds (fun e => isResolve e = true) log (evalSymlinks p log f1).2 :=
            Adds.one _ _ (by simp [isResolve])
          split
          · rename_i e log1 heq
            rw [heq] at hres
            exact hres
          · rename_i name log1 heq
            rw [heq] at hres
            split
            · exact hres
            · rename_i next rest2
              split_ifs with hp
              · exact hres.trans (ih _ log1 result hrest)
              · exact hres.trans (ih rest2 log1 _ (by simp at hrest; omega))
        · exact Adds.refl _ _

/-- The one `Execute` call of the topology query is the scan. -/
theorem getRaidDevices2Members_execCalls (p : DiskCleanup) (log : Log) :
    execCalls (getRaidDevices2Members p log).2 = execCalls log ++ [scanCall] := by
  unfold getRaidDevices2Members execute
  simp only
  split_ifs
  · rw [execCalls_append]; rfl
  · obtain ⟨added, h1, h2⟩ := raidLoop_resolves p _ (split (p.dependencies.Execute log
      "mdadm".toList ["-v".toList, "--query".toList, "--detail".toList,
        "--scan".toList]).stdout '\n') (log ++ [Event.exec "mdadm".toList
      ["-v".toList, "--query".toList, "--detail".toList, "--scan".toList]
      (p.dependencies.Execute log "mdadm".toList
        ["-v".toList, "--query".toList, "--detail".toList, "--scan".toList])]) []
      (le_refl _)
    rw [h1, execCalls_append, execCalls_append, execCalls_of_resolves added h2,
      List.append_nil]
    rfl

theorem IsRaidMember_log (p : DiskCleanup) (log : Log) (device : Str) :
    (IsRaidMember p log device).2 = (getRaidDevices2Members p log).2 := by
  unfold IsRaidMember
  split <;> rename_i heq <;> rw [heq]

theorem Wipefs_forced_ok (p : DiskCleanup) (log : Log) (device : Str)
    (h : (p.dependencies.Execute log (wipefsForceCall device).1
      (wipefsForceCall device).2).exitCode = 0) :
    Wipefs p log device =
      (Outcome.ok (), log ++ [Event.exec (wipefsForceCall device).1 (wipefsForceCall device).2
        (p.dependencies.Execute log (wipefsForceCall device).1 (wipefsForceCall device).2)]) := by
  have h2 : (p.dependencies.Execute log "wipefs".toList
      ["--all".toList, "--force".toList, device]).exitCode = 0 := h
  simp only [Wipefs, execute, h2, ne_eq, not_true_eq_false, if_false]
  rfl

theorem trimSpace_block (s : Str) : trimSpace s <:+: s := by
  unfold trimSpace
  have h1 : (List.dropWhile isSpace (List.dropWhile isSpace s).reverse).reverse <+:
      List.dropWhile isSpace s := by
    rw [← List.reverse_suffix]
    simp only [List.reverse_reverse]
    exact List.dropWhile_suffix _
  exact h1.isInfix.trans (List.dropWhile_suffix _).isInfix

theorem matchesSome_none_match (p : DiskCleanup) (pattern : Str) (ms : List Str)
    (h : ∀ m ∈ ms, p.runtime.MatchString pattern m = some false) :
    matchesSome p pattern ms = Outcome.ok false := by
  induction ms with
  | nil => rfl
  | cons m rest ih =>
    unfold matchesSome
    rw [h m (List.mem_cons_self _ _)]
    exact ih (fun x hx => h x (List.mem_cons_of_mem _ hx))

theorem isRaidMemberLoop_none_match (p : DiskCleanup) (pattern : Str) (entries : RaidMap)
    (h : ∀ (a : Str) (ms : List Str), (a, ms) ∈ entries →
      ∀ m ∈ ms, p.runtime.MatchString pattern m = some false) :
    isRaidMemberLoop p pattern entries = Outcome.ok false := by
  induction entries with
  | nil => rfl
  | cons e rest ih =>
    obtain ⟨a, ms⟩ := e
    unfold isRaidMemberLoop
    rw [matchesSome_none_match p pattern ms (h a ms (List.mem_cons_self _ _))]
    exact ih (fun a2 ms2 hmem => h a2 ms2 (List.mem_cons_of_mem _ hmem))

/-- C16. With dry-run off, a path that resolves to `realDevicePath`, `vgs` and `pvs`
listings that exit zero without a row containing that path, a scan that gives a topology
in which the pattern matches no member, and a forced wipe that exits zero: the cleanup
succeeds, its `Execute` calls are the `vgs` listing, the `pvs` listing, the scan and
`wipefs --all --force realDevicePath`, in this order, and `CleanupDevice`, on a request
that decodes to the path, returns the exit code `0`, an empty stderr, and the response
made of the flag `true` and the requested path. -/
theorem cleanupInstallDevice_plain_device (p : DiskCleanup) (codec : Codec) (log log3 : Log)
    (device realDevicePath : Str) (rv rp rw : ExecResult) (topo : RaidMap)
    (hdry : p.subprocessConfig.DryRunEnabled = false)
    (hres : p.runtime.EvalSymlinks log device = Except.ok realDevicePath)
    (hv : p.dependencies.Execute (log ++ [Event.resolve device (Except.ok realDevicePath)])
      vgsCall.1 vgsCall.2 = rv)
    (hvexit : rv.exitCode = 0)
    (hvrows : ∀ row ∈ split rv.stdout '\n', contains row realDevicePath = false)
    (hp : p.dependencies.Execute (log ++ [Event.resolve device (Except.ok realDevicePath)] ++
      [Event.exec vgsCall.1 vgsCall.2 rv]) pvsCall.1 pvsCall.2 = rp)
    (hpexit : rp.exitCode = 0)
    (hprows : ∀ row ∈ split rp.stdout '\n', contains row realDevicePath = false)
    (hscan : getRaidDevices2Members p (log ++ [Event.resolve device (Except.ok realDevicePath)] ++
      [Event.exec vgsCall.1 vgsCall.2 rv] ++ [Event.exec pvsCall.1 pvsCall.2 rp]) =
      (Outcome.ok topo, log3))
    (hnomatch : ∀ (a : Str) (ms : List Str), (a, ms) ∈ topo → ∀ m ∈ ms,
      p.runtime.MatchString (devicePattern realDevicePath) m = some false)
    (hw : p.dependencies.Execute log3 (wipefsForceCall realDevicePath).1
      (wipefsForceCall realDevicePath).2 = rw)
    (hwexit : rw.exitCode = 0) :
    cleanupInstallDevice p log device =
      (Outcome.ok (), log3 ++ [Event.exec (wipefsForceCall realDevicePath).1
        (wipefsForceCall realDevicePath).2 rw]) ∧
    execCalls (cleanupInstallDevice p log device).2 =
      execCalls log ++ [vgsCall, pvsCall, scanCall, wipefsForceCall realDevicePath] ∧
    ∀ request : Str, codec.Unmarshal request = Except.ok ⟨some device⟩ →
      (CleanupDevice p codec log request).1 =
        Outcome.ok (createResponse codec true device, [], 0) := by
  have hlvm := cleanLVM_no_rows p
    (log ++ [Event.resolve device (Except.ok realDevicePath)]) realDevicePath rv rp
    hv hp hvexit hpexit hvrows hprows
  have hmember : IsRaidMember p (log ++ [Event.resolve device (Except.ok realDevicePath)] ++
      [Event.exec vgsCall.1 vgsCall.2 rv] ++ [Event.exec pvsCall.1 pvsCall.2 rp])
      realDevicePath = (Outcome.ok false, log3) := by
    simp only [IsRaidMember, hscan]
    rw [isRaidMemberLoop_none_match p _ _ (fun a ms hmem =>
      hnomatch a ms ((p.runtime.rangeOrder_perm log3 topo).mem_iff.mp hmem))]
  have hwipe := Wipefs_forced_ok p log3 realDevicePath (by rw [hw]; exact hwexit)
  rw [hw] at hwipe
  have hfinal : cleanupInstallDevice p log device =
      (Outcome.ok (), log3 ++ [Event.exec (wipefsForceCall realDevicePath).1
        (wipefsForceCall realDevicePath).2 rw]) := by
    simp only [cleanupInstallDevice, hdry, evalSymlinks, hres, hlvm, hmember, hwipe,
      Bool.false_eq_true, if_false]
  refine ⟨hfinal, ?_, ?_⟩
  · have hcalls := getRaidDevices2Members_execCalls p
      (log ++ [Event.resolve device (Except.ok realDevicePath)] ++
        [Event.exec vgsCall.1 vgsCall.2 rv] ++ [Event.exec pvsCall.1 pvsCall.2 rp])
    rw [hscan] at hcalls
    rw [hfinal]
    simp only [execCalls_append] at hcalls ⊢
    rw [hcalls]
    simp [execCalls]
  · intro request hreq
    simp only [CleanupDevice, hreq, hfinal]

/-- Witness of C16: in `emptyWorld` the cleanup of `/dev/sda` succeeds with the four calls,
and `CleanupDevice` answers with the exit code `0` and the response of the flag `true` and
the path `/dev/sda`. -/
theorem cleanupInstallDevice_plain_device_witness :
    (cleanupInstallDevice emptyWorld [] "/dev/sda".toList).1 = Outcome.ok () ∧
    execCalls (cleanupInstallDevice emptyWorld [] "/dev/sda".toList).2 =
      execCalls [] ++ [vgsCall, pvsCall, scanCall, wipefsForceCall "/dev/sda".toList] ∧
    (CleanupDevice emptyWorld plainCodec [] "/dev/sda".toList).1 =
      Outcome.ok ("ok /dev/sda".toList, [], 0) :=
  have h := cleanupInstallDevice_plain_device emptyWorld plainCodec []
    [Event.resolve "/dev/sda".toList (Except.ok "/dev/sda".toList),
     Event.exec vgsCall.1 vgsCall.2 (okOut ""), Event.exec pvsCall.1 pvsCall.2 (okOut ""),
     Event.exec scanCall.1 scanCall.2 (okOut "")]
    "/dev/sda".toList "/dev/sda".toList (okOut "") (okOut "") (okOut "") []
    rfl rfl rfl rfl (by decide) rfl rfl (by decide) (by decide)
    (by intro a ms hmem; simp at hmem) rfl rfl
  ⟨congrArg Prod.fst h.1, h.2.1, h.2.2 "/dev/sda".toList rfl⟩

theorem cleanLVM_all_ok (p : DiskCleanup) (device vgsOut pvsOut : Str)
    (hok : ∀ (l : Log) (c : Str) (a : List Str), (p.dependencies.Execute l c a).exitCode = 0)
    (hvgs : ∀ l : Log, (p.dependencies.Execute l vgsCall.1 vgsCall.2).stdout = vgsOut)
    (hpvs : ∀ l : Log, (p.dependencies.Execute l pvsCall.1 pvsCall.2).stdout = pvsOut)
    (log : Log) :
    ∃ log2 : Log, cleanLVM p log device = (Outcome.ok (), log2) ∧
      execCalls log2 = execCalls log ++ vgsCall ::
        (vgsOfRows device (split vgsOut '\n')).map vgremoveCall ++ pvsCall ::
        (pvsOfRows device (split pvsOut '\n')).map pvremoveCall := by
  have hget := GetVolumeGroupsByDisk_eq p log device (hok log _ _)
  rw [hvgs log] at hget
  obtain ⟨log2, h1, h2⟩ := removeVolumeGroupsFromDevice_all_ok p device (fun l v => hok l _ _)
    (vgsOfRows device (split vgsOut '\n'))
    (log ++ [Event.exec vgsCall.1 vgsCall.2 (p.dependencies.Execute log vgsCall.1 vgsCall.2)])
  have hpexit : (p.dependencies.Execute log2 "pvs".toList
      ["--noheadings".toList, "-o".toList, "pv_name".toList]).exitCode = 0 := hok log2 _ _
  have hpout : (p.dependencies.Execute log2 "pvs".toList
      ["--noheadings".toList, "-o".toList, "pv_name".toList]).stdout = pvsOut := hpvs log2
  obtain ⟨log4, h3, h4⟩ := removePVsLoop_all_ok p device (fun l v => hok l _ _)
    (pvsOfRows device (split pvsOut '\n'))
    (log2 ++ [Event.exec pvsCall.1 pvsCall.2 (p.dependencies.Execute log2 pvsCall.1 pvsCall.2)])
  refine ⟨log4, ?_, ?_⟩
  · rw [cleanLVM_eq, hget]
    simp only [h1, RemoveAllPVsOnDevice, getDiskPVs, execute, hpexit, ne_eq, not_true_eq_false,
      if_false, hpout, pvsLoop_eq, List.nil_append]
    exact h3
  · rw [h4, execCalls_append, h2, execCalls_append]
    simp [execCalls]

/-- C15. With dry-run off, a path that resolves to `realDevicePath`, every command
exiting zero, a `vgs` listing with the row of `v` and `realDevicePath`, a `pvs` listing
with the row `realDevicePath`, and a path that is in no RAID array: the cleanup succeeds
and its `Execute` calls are the `vgs` listing, one `vgremove` for every volume group
found, the `pvs` listing, one `pvremove` for every physical volume found, the scan and the
forced wipe, in this order; `vgremove v -y` is among the first and
`pvremove realDevicePath -y -ff` among the second, so the removal of `v` comes before
the removal of the physical volume, which comes before the wipe. -/
theorem cleanupInstallDevice_lvm_order (p : DiskCleanup) (log : Log)
    (device realDevicePath v vgsOut pvsOut : Str)
    (hdry : p.subprocessConfig.DryRunEnabled = false)
    (hres : p.runtime.EvalSymlinks log device = Except.ok realDevicePath)
    (hok : ∀ (l : Log) (c : Str) (a : List Str), (p.dependencies.Execute l c a).exitCode = 0)
    (hvgs : ∀ l : Log, (p.dependencies.Execute l vgsCall.1 vgsCall.2).stdout = vgsOut)
    (hpvs : ∀ l : Log, (p.dependencies.Execute l pvsCall.1 pvsCall.2).stdout = pvsOut)
    (hrow : ∃ row ∈ split vgsOut '\n', ∃ tail : List Str,
      fields row = v :: realDevicePath :: tail)
    (hpv : ∃ row ∈ split pvsOut '\n', trimSpace row = realDevicePath)
    (hraid : ∀ l : Log, (IsRaidMember p l realDevicePath).1 = Outcome.ok false) :
    (cleanupInstallDevice p log device).1 = Outcome.ok () ∧
    execCalls (cleanupInstallDevice p log device).2 =
      execCalls log ++ vgsCall ::
        (vgsOfRows realDevicePath (split vgsOut '\n')).map vgremoveCall ++ pvsCall ::
        (pvsOfRows realDevicePath (split pvsOut '\n')).map pvremoveCall ++
        [scanCall, wipefsForceCall realDevicePath] ∧
    (∃ a b c : List (Str × List Str), execCalls (cleanupInstallDevice p log device).2 =
      execCalls log ++ a ++ vgremoveCall v :: b ++ pvremoveCall realDevicePath :: c ++
        [wipefsForceCall realDevicePath]) := by
  obtain ⟨log2, hlvm, hcalls⟩ := cleanLVM_all_ok p realDevicePath vgsOut pvsOut hok hvgs hpvs
    (log ++ [Event.resolve device (Except.ok realDevicePath)])
  have hmember : IsRaidMember p log2 realDevicePath =
      (Outcome.ok false, (getRaidDevices2Members p log2).2) := by
    rw [← IsRaidMember_log p log2 realDevicePath, ← hraid log2]
  have hwipe := Wipefs_forced_ok p (getRaidDevices2Members p log2).2 realDevicePath (hok _ _ _)
  have hfinal : cleanupInstallDevice p log device =
      (Outcome.ok (), (getRaidDevices2Members p log2).2 ++
        [Event.exec (wipefsForceCall realDevicePath).1 (wipefsForceCall realDevicePath).2
          (p.dependencies.Execute (getRaidDevices2Members p log2).2
            (wipefsForceCall realDevicePath).1 (wipefsForceCall realDevicePath).2)]) := by
    simp only [cleanupInstallDevice, hdry, evalSymlinks, hres, hlvm, hmember, hwipe,
      Bool.false_eq_true, if_false]
  have hshape : execCalls (cleanupInstallDevice p log device).2 =
      execCalls log ++ vgsCall ::
        (vgsOfRows realDevicePath (split vgsOut '\n')).map vgremoveCall ++ pvsCall ::
        (pvsOfRows realDevicePath (split pvsOut '\n')).map pvremoveCall ++
        [scanCall, wipefsForceCall realDevicePath] := by
    rw [hfinal]
    simp only [execCalls_append, getRaidDevices2Members_execCalls, hcalls]
    simp [execCalls]
  refine ⟨by rw [hfinal], hshape, ?_⟩
  have hv : v ∈ vgsOfRows realDevicePath (split vgsOut '\n') := by
    rw [mem_vgsOfRows]
    obtain ⟨row, hrowmem, tail, hf⟩ := hrow
    exact ⟨row, hrowmem, realDevicePath, tail, hf, List.infix_refl _⟩
  have hd : realDevicePath ∈ pvsOfRows realDevicePath (split pvsOut '\n') := by
    obtain ⟨row, hrowmem, htrim⟩ := hpv
    simp only [pvsOfRows, List.mem_map, List.mem_filter]
    refine ⟨row, ⟨hrowmem, ?_⟩, htrim⟩
    rw [contains_iff, ← htrim]
    exact trimSpace_block row
  obtain ⟨n1, n2, hn⟩ := List.append_of_mem (List.mem_map_of_mem vgremoveCall hv)
  obtain ⟨m1, m2, hm⟩ := List.append_of_mem (List.mem_map_of_mem pvremoveCall hd)
  refine ⟨vgsCall :: n1, n2 ++ pvsCall :: m1, m2 ++ [scanCall], ?_⟩
  rw [hshape, hn, hm]
  simp

theorem scripted_exit_zero (table : List (Str × List Str × ExecResult)) (fallback : ExecResult)
    (htable : ∀ row ∈ table, row.2.2.exitCode = 0) (hfallback : fallback.exitCode = 0)
    (l : Log) (c : Str) (a : List Str) : (scripted table fallback l c a).exitCode = 0 := by
  unfold scripted
  split
  · rename_i row hfind
    exact htable row (List.mem_of_find?_eq_some hfind)
  · exact hfallback

/-- Witness of C15: in `lvmWorld` the cleanup of `/dev/sda`, which carries `vg0` and is a
physical volume, succeeds, and `vgremove vg0 -y` comes before `pvremove /dev/sda -y -ff`,
which comes before the wipe. -/
theorem cleanupInstallDevice_lvm_order_witness :
    (cleanupInstallDevice lvmWorld [] "/dev/sda".toList).1 = Outcome.ok () ∧
    execCalls (cleanupInstallDevice lvmWorld [] "/dev/sda".toList).2 =
      [vgsCall, vgremoveCall "vg0".toList, vgremoveCall "vg2".toList, pvsCall,
       pvremoveCall "/dev/sda".toList, pvremoveCall "/dev/sda2".toList, scanCall,
       wipefsForceCall "/dev/sda".toList] ∧
    (∃ a b c : List (Str × List Str),
      execCalls (cleanupInstallDevice lvmWorld [] "/dev/sda".toList).2 =
        execCalls [] ++ a ++ vgremoveCall "vg0".toList :: b ++
          pvremoveCall "/dev/sda".toList :: c ++ [wipefsForceCall "/dev/sda".toList]) :=
  have h := cleanupInstallDevice_lvm_order lvmWorld [] "/dev/sda".toList "/dev/sda".toList
    "vg0".toList "  vg0 /dev/sda\n  vg1 /dev/sdb1\n  lonely\n  vg2 /dev/sda2\n".toList
    "  /dev/sda\n  /dev/sdb1\n  /dev/sda2\n".toList rfl rfl
    (scripted_exit_zero _ _ (by decide) (by decide)) (fun _ => rfl) (fun _ => rfl)
    ⟨"  vg0 /dev/sda".toList, by decide, [], by decide⟩
    ⟨"  /dev/sda".toList, by decide, by decide⟩
    (fun _ => rfl)
  ⟨h.1, by decide, h.2.2⟩

theorem TeardownSucceeded_of_not (e : Event) (h : isTeardownCall e = false) :
    TeardownSucceeded e := by
  intro ht
  rw [h] at ht
  exact absurd ht Bool.false_ne_true

theorem TeardownSucceeded_of_exit (c : Str) (a : List Str) (r : ExecResult)
    (h : r.exitCode = 0) : TeardownSucceeded (Event.exec c a r) := by
  intro _
  simp [exitedZero, h]

theorem isScanOrResolve_teardown (e : Event) (h : isScanOrResolve e = true) :
    TeardownSucceeded e := by
  apply TeardownSucceeded_of_not
  cases e with
  | exec command args r =>
    simp only [isScanOrResolve, decide_eq_true_eq] at h
    obtain ⟨hc, ha⟩ := h
    subst hc ha
    rfl
  | resolve path r => rfl

theorem isWipefsCall_teardown (e : Event) (h : isWipefsCall e = true) :
    TeardownSucceeded e := by
  apply TeardownSucceeded_of_not
  cases e with
  | exec command args r =>
    simp only [isWipefsCall, decide_eq_true_eq] at h
    subst h
    simp [isTeardownCall]
  | resolve path r => rfl

theorem RemoveVG_ok (p : DiskCleanup) (log log2 : Log) (vgName : Str) (u : Unit)
    (h : RemoveVG p log vgName = (Outcome.ok u, log2)) : Adds TeardownSucceeded log log2 := by
  unfold RemoveVG execute at h
  simp only at h
  split_ifs at h with hexit
  · simp at h
  · simp only [Prod.mk.injEq] at h
    rw [← h.2]
    exact Adds.one _ _ (TeardownSucceeded_of_exit _ _ _ (not_not.mp hexit))

theorem RemovePV_ok (p : DiskCleanup) (log log2 : Log) (pvName : Str) (u : Unit)
    (h : RemovePV p log pvName = (Outcome.ok u, log2)) : Adds TeardownSucceeded log log2 := by
  unfold RemovePV execute at h
  simp only at h
  split_ifs at h with hexit
  · simp at h
  · simp only [Prod.mk.injEq] at h
    rw [← h.2]
    exact Adds.one _ _ (TeardownSucceeded_of_exit _ _ _ (not_not.mp hexit))

theorem removeVolumeGroupsFromDevice_ok (p : DiskCleanup) (device : Str) (vgNames : List Str) :
    ∀ (log log2 : Log) (u : Unit),
      removeVolumeGroupsFromDevice p log vgNames device = (Outcome.ok u, log2) →
      Adds TeardownSucceeded log log2 := by
  induction vgNames with
  | nil =>
    intro log log2 u h
    simp only [removeVolumeGroupsFromDevice, Prod.mk.injEq, true_and] at h
    rw [← h]
    exact Adds.refl _ _
  | cons v rest ih =>
    intro log log2 u h
    simp only [removeVolumeGroupsFromDevice] at h
    split at h
    · rename_i u1 log1 heq
      exact (RemoveVG_ok p log log1 v u1 heq).trans (ih log1 log2 u h)
    · simp at h
    · simp at h

theorem removePVsLoop_ok (p : DiskCleanup) (diskName : Str) (pvs : List Str) :
    ∀ (log log2 : Log) (u : Unit),
      removePVsLoop p diskName log pvs = (Outcome.ok u, log2) →
      Adds TeardownSucceeded log log2 := by
  induction pvs with
  | nil =>
    intro log log2 u h
    simp only [removePVsLoop, Prod.mk.injEq, true_and] at h
    rw [← h]
    exact Adds.refl _ _
  | cons v rest ih =>
    intro log log2 u h
    simp only [removePVsLoop] at h
    split at h
    · rename_i u1 log1 heq
      exact (RemovePV_ok p log log1 v u1 heq).trans (ih log1 log2 u h)
    · simp at h
    · simp at h

theorem GetVolumeGroupsByDisk_teardown (p : DiskCleanup) (log : Log) (diskName : Str) :
    Adds TeardownSucceeded log (GetVolumeGroupsByDisk p log diskName).2 := by
  unfold GetVolumeGroupsByDisk execute
  simp only
  split_ifs <;> exact Adds.one _ _ (TeardownSucceeded_of_not _ rfl)

theorem getDiskPVs_teardown (p : DiskCleanup) (log : Log) (diskName : Str) :
    Adds TeardownSucceeded log (getDiskPVs p log diskName).2 := by
  unfold getDiskPVs execute
  simp only
  split_ifs <;> exact Adds.one _ _ (TeardownSucceeded_of_not _ rfl)

theorem RemoveAllPVsOnDevice_ok (p : DiskCleanup) (log log2 : Log) (diskName : Str) (u : Unit)
    (h : RemoveAllPVsOnDevice p log diskName = (Outcome.ok u, log2)) :
    Adds TeardownSucceeded log log2 := by
  have h1 := getDiskPVs_teardown p log diskName
  unfold RemoveAllPVsOnDevice at h
  split at h
  · rename_i pvs log1 heq
    rw [heq] at h1
    exact h1.trans (removePVsLoop_ok p diskName pvs log1 log2 u h)
  · simp at h
  · simp at h

theorem cleanLVM_ok (p : DiskCleanup) (log log2 : Log) (device : Str) (u : Unit)
    (h : cleanLVM p log device = (Outcome.ok u, log2)) : Adds TeardownSucceeded log log2 := by
  have h1 := GetVolumeGroupsByDisk_teardown p log device
  rw [cleanLVM_eq] at h
  split at h
  · rename_i vgNames log1 heq
    rw [heq] at h1
    split at h
    · rename_i u1 log3 heq2
      exact h1.trans ((removeVolumeGroupsFromDevice_ok p device vgNames log1 log3 u1 heq2).trans
        (RemoveAllPVsOnDevice_ok p log3 log2 device u h))
    · simp at h
    · simp at h
  · simp at h
  · simp at h

theorem removeLoop_ok (p : DiskCleanup) (pattern name : Str) (members : List Str) :
    ∀ (stopped : Bool) (log log2 : Log) (u : Unit),
      removeLoop p pattern name members stopped log = (Outcome.ok u, log2) →
      Adds TeardownSucceeded log log2 := by
  induction members with
  | nil =>
    intro stopped log log2 u h
    simp only [removeLoop, Prod.mk.injEq, true_and] at h
    rw [← h]
    exact Adds.refl _ _
  | cons m rest ih =>
    intro stopped log log2 u h
    unfold removeLoop at h
    split at h
    · simp at h
    · exact ih stopped log log2 u h
    · cases stopped with
      | true =>
        simp only [Bool.not_true, Bool.false_eq_true, if_false, execute] at h
        generalize p.dependencies.Execute log "mdadm".toList ["--zero-superblock".toList, m] = r2
          at h
        by_cases hzero : r2.exitCode = 0
        · simp only [hzero, ne_eq, not_true_eq_false, if_false] at h
          exact (Adds.one _ _ (TeardownSucceeded_of_exit _ _ _ hzero)).trans
            (ih true _ log2 u h)
        · simp [hzero] at h
      | false =>
        simp only [Bool.not_false, if_true, execute] at h
        generalize p.dependencies.Execute log "mdadm".toList ["--stop".toList, name] = r1 at h
        by_cases hstop : r1.exitCode = 0
        · simp only [hstop, ne_eq, not_true_eq_false, if_false] at h
          generalize p.dependencies.Execute
            (log ++ [Event.exec "mdadm".toList ["--stop".toList, name] r1]) "mdadm".toList
            ["--zero-superblock".toList, m] = r2 at h
          by_cases hzero : r2.exitCode = 0
          · simp only [hzero, not_true_eq_false, if_false] at h
            exact (Adds.one _ _ (TeardownSucceeded_of_exit _ _ _ hstop)).trans
              ((Adds.one _ _ (TeardownSucceeded_of_exit _ _ _ hzero)).trans
                (ih true _ log2 u h))
          · simp [hzero] at h
        · simp [hstop] at h

theorem cleanMembershipLoop_ok (p : DiskCleanup) (device : Str) (entries : RaidMap) :
    ∀ (log log2 : Log) (u : Unit),
      cleanMembershipLoop p device entries log = (Outcome.ok u, log2) →
      Adds TeardownSucceeded log log2 := by
  induction entries with
  | nil =>
    intro log log2 u h
    simp only [cleanMembershipLoop, Prod.mk.injEq, true_and] at h
    rw [← h]
    exact Adds.refl _ _
  | cons entry rest ih =>
    intro log log2 u h
    obtain ⟨name, members⟩ := entry
    simp only [cleanMembershipLoop, removeDeviceFromRaidArray] at h
    split at h
    · rename_i u1 log1 heq
      exact (removeLoop_ok p _ name members false log log1 u1 heq).trans (ih log1 log2 u h)
    · simp at h
    · simp at h

theorem getRaidDevices2Members_teardown (p : DiskCleanup) (log : Log) :
    Adds TeardownSucceeded log (getRaidDevices2Members p log).2 :=
  (getRaidDevices2Members_adds p log).mono isScanOrResolve_teardown

theorem CleanRaidMembership_ok (p : DiskCleanup) (log log2 : Log) (device : Str) (u : Unit)
    (h : CleanRaidMembership p log device = (Outcome.ok u, log2)) :
    Adds TeardownSucceeded log log2 := by
  have h1 := getRaidDevices2Members_teardown p log
  unfold CleanRaidMembership at h
  split at h
  · rename_i topo log1 heq
    rw [heq] at h1
    exact h1.trans (cleanMembershipLoop_ok p device _ log1 log2 u h)
  · simp at h
  · simp at h

theorem cleanRaidDevicesLoop_ok (p : DiskCleanup) (raidDevices : List Str) :
    ∀ (log log2 : Log) (u : Unit),
      cleanRaidDevicesLoop p raidDevices log = (Outcome.ok u, log2) →
      Adds TeardownSucceeded log log2 := by
  induction raidDevices with
  | nil =>
    intro log log2 u h
    simp only [cleanRaidDevicesLoop, Prod.mk.injEq, true_and] at h
    rw [← h]
    exact Adds.refl _ _
  | cons x rest ih =>
    intro log log2 u h
    simp only [cleanRaidDevicesLoop] at h
    split at h
    · rename_i u1 log1 heq
      exact (cleanLVM_ok p log log1 x u1 heq).trans (ih log1 log2 u h)
    · simp at h
    · simp at h

theorem raidMemberPath_ok (p : DiskCleanup) (log log2 : Log) (device : Str) (u : Unit)
    (h : raidMemberPath p log device = (Outcome.ok u, log2)) :
    Adds TeardownSucceeded log log2 := by
  have h1 : Adds TeardownSucceeded log (GetRaidDevices p log device).2 :=
    (GetRaidDevices_adds p log device).mono isScanOrResolve_teardown
  unfold raidMemberPath at h
  split at h
  · rename_i raidDevices log1 heq
    rw [heq] at h1
    split at h
    · rename_i u1 log3 heq2
      exact h1.trans ((cleanRaidDevicesLoop_ok p raidDevices log1 log3 u1 heq2).trans
        (CleanRaidMembership_ok p log3 log2 device u h))
    · simp at h
    · simp at h
  · simp at h
  · simp at h

theorem Wipefs_ok (p : DiskCleanup) (log log2 : Log) (device : Str) (u : Unit)
    (h : Wipefs p log device = (Outcome.ok u, log2)) :
    ∃ (added : Log) (args : List Str) (r : ExecResult),
      log2 = log ++ added ++ [Event.exec "wipefs".toList args r] ∧
      (args = (wipefsForceCall device).2 ∨ args = (wipefsCall device).2) ∧ r.exitCode = 0 ∧
      ∀ e ∈ added, TeardownSucceeded e := by
  unfold Wipefs execute at h
  simp only at h
  generalize p.dependencies.Execute log "wipefs".toList
    ["--all".toList, "--force".toList, device] = r1 at h
  by_cases h1 : r1.exitCode = 0
  · simp only [h1, ne_eq, not_true_eq_false, if_false, Prod.mk.injEq, true_and] at h
    exact ⟨[], (wipefsForceCall device).2, r1, by rw [← h, List.append_nil]; rfl, Or.inl rfl, h1,
      by simp⟩
  · simp only [h1, ne_eq, not_false_eq_true, if_true] at h
    generalize p.dependencies.Execute
      (log ++ [Event.exec "wipefs".toList ["--all".toList, "--force".toList, device] r1])
      "wipefs".toList ["--all".toList, device] = r2 at h
    by_cases h2 : r2.exitCode = 0
    · simp only [h2, not_true_eq_false, if_false, Prod.mk.injEq, true_and] at h
      refine ⟨[Event.exec "wipefs".toList ["--all".toList, "--force".toList, device] r1],
        (wipefsCall device).2, r2, by rw [← h]; rfl, Or.inr rfl, h2, ?_⟩
      intro e he
      simp only [List.mem_singleton] at he
      subst he
      exact TeardownSucceeded_of_not _ rfl
    · simp [h2] at h

/-- C20. With dry-run off, when `cleanupInstallDevice` returns success the path resolved,
the last event of the log is a `wipefs` call on the resolved path, `--all --force` or
`--all`, that exited zero, and among the events added before it every `vgremove`,
`pvremove`, `mdadm --stop` and `mdadm --zero-superblock` call exited zero. -/
theorem cleanupInstallDevice_success (p : DiskCleanup) (log log2 : Log) (device : Str)
    (hdry : p.subprocessConfig.DryRunEnabled = false)
    (hok : cleanupInstallDevice p log device = (Outcome.ok (), log2)) :
    ∃ (realDevicePath : Str) (added : Log) (args : List Str) (r : ExecResult),
      p.runtime.EvalSymlinks log device = Except.ok realDevicePath ∧
      log2 = log ++ added ++ [Event.exec "wipefs".toList args r] ∧
      (args = (wipefsForceCall realDevicePath).2 ∨ args = (wipefsCall realDevicePath).2) ∧
      r.exitCode = 0 ∧ ∀ e ∈ added, TeardownSucceeded e := by
  have finish : ∀ (realDevicePath : Str) (logW : Log),
      p.runtime.EvalSymlinks log device = Except.ok realDevicePath →
      Adds TeardownSucceeded log logW → Wipefs p logW realDevicePath = (Outcome.ok (), log2) →
      ∃ (realDevicePath : Str) (added : Log) (args : List Str) (r : ExecResult),
        p.runtime.EvalSymlinks log device = Except.ok realDevicePath ∧
        log2 = log ++ added ++ [Event.exec "wipefs".toList args r] ∧
        (args = (wipefsForceCall realDevicePath).2 ∨ args = (wipefsCall realDevicePath).2) ∧
        r.exitCode = 0 ∧ ∀ e ∈ added, TeardownSucceeded e := by
    intro d logW hres hadds hwipe
    obtain ⟨before, hb1, hb2⟩ := hadds
    obtain ⟨added, args, r, hw1, hw2, hw3, hw4⟩ := Wipefs_ok p logW log2 d () hwipe
    refine ⟨d, before ++ added, args, r, hres, ?_, hw2, hw3, ?_⟩
    · rw [hw1, hb1]
      simp
    · intro e he
      rcases List.mem_append.mp he with h | h
      · exact hb2 e h
      · exact hw4 e h
  simp only [cleanupInstallDevice, hdry, Bool.false_eq_true, if_false, evalSymlinks] at hok
  split at hok
  · simp at hok
  · rename_i d log1 heq
    simp only [Prod.mk.injEq] at heq
    obtain ⟨hres, hlog1⟩ := heq
    have h0 : Adds TeardownSucceeded log log1 := by
      rw [← hlog1]
      exact Adds.one _ _ (TeardownSucceeded_of_not _ rfl)
    split at hok
    · simp at hok
    · simp at hok
    · rename_i u1 log3 hlvm
      have h1 := cleanLVM_ok p log1 log3 d u1 hlvm
      have h2 : Adds TeardownSucceeded log3 (IsRaidMember p log3 d).2 :=
        (IsRaidMember_adds p log3 d).mono isScanOrResolve_teardown
      split at hok
      · rename_i log4 hmember
        rw [hmember] at h2
        split at hok
        · rename_i u2 log5 hraid
          exact finish d log5 hres
            (h0.trans (h1.trans (h2.trans (raidMemberPath_ok p log4 log5 d u2 hraid)))) hok
        · simp at hok
        · simp at hok
      · rename_i log4 hmember
        rw [hmember] at h2
        exact finish d log4 hres (h0.trans (h1.trans h2)) hok
      · simp at hok
      · simp at hok

/-- Witness of C20: in `raidWorld` the cleanup of `/dev/sda1`, which stops `/dev/md0` and
zeroes `/dev/sda1`, succeeds and ends with the forced wipe; in `forceRejectedWorld` the
forced wipe of `/dev/sda` is rejected and the cleanup ends with the plain wipe. -/
theorem cleanupInstallDevice_success_witness :
    (∃ (realDevicePath : Str) (added : Log) (args : List Str) (r : ExecResult),
      raidWorld.runtime.EvalSymlinks [] "/dev/sda1".toList = Except.ok realDevicePath ∧
      raidWorldLog = [] ++ added ++ [Event.exec "wipefs".toList args r] ∧
      (args = (wipefsForceCall realDevicePath).2 ∨ args = (wipefsCall realDevicePath).2) ∧
      r.exitCode = 0 ∧ ∀ e ∈ added, TeardownSucceeded e) ∧
    (cleanupInstallDevice forceRejectedWorld [] "/dev/sda".toList).1 = Outcome.ok () ∧
    execCalls (cleanupInstallDevice forceRejectedWorld [] "/dev/sda".toList).2 =
      [vgsCall, pvsCall, scanCall, wipefsForceCall "/dev/sda".toList,
       wipefsCall "/dev/sda".toList] :=
  ⟨cleanupInstallDevice_success raidWorld [] raidWorldLog "/dev/sda1".toList rfl (by decide),
   by decide, by decide⟩

end disk_cleanup
